import Mathlib

/-!
# University timetabling solver: model of the C++ sources and checked properties

The definitions below follow `src/cpp` function by function.

* `std::map<std::string, V>` is a list of key/value pairs (`Mapa V`); the
  operations keep keys unique when they start from a map with unique keys.
  Iteration order is not modelled: the solver only folds maps with
  order-insensitive counts.
* `int` is `Int`; the counters move by one per placement, so overflow plays no
  part.
* `std::stoi` may throw; functions that reach it return an `Option`, `none`
  standing for the exception, and a run of the search may end in
  `Salida.excepcion`.
* `std::sort` is a parameter `ordenar` of the search: the C++ standard fixes
  only that its result is a sorted rearrangement of the input. Concrete runs
  use insertion sort (`ordenarInsercion`).
* The recursion of `intentarAsignar` is bounded by a counter that starts at
  the hours the unit is missing; `intentarAsignar_buena` shows the bound is never
  reached.
* A run records every `hacerAsignacion` and `deshacerAsignacion` it performs
  (`Corrida.traza`), so that properties of "every state reached" can be stated.
-/

namespace Horarios

/-! ## Maps -/

/-- A `std::map<std::string, V>`. -/
abbrev Mapa (V : Type) := List (String × V)

instance instDecidableEqMapa {V : Type} [DecidableEq V] : DecidableEq (Mapa V) :=
  inferInstanceAs (DecidableEq (List (String × V)))

namespace Mapa

/-- The value found by `find(k)`, `none` for `end()`. -/
def buscar {V : Type} : Mapa V → String → Option V
  | [], _ => none
  | (c, v) :: r, k => if c = k then some v else buscar r k

/-- The map after `m[k] = v`. -/
def poner {V : Type} : Mapa V → String → V → Mapa V
  | [], k, v => [(k, v)]
  | (c, w) :: r, k, v => if c = k then (c, v) :: r else (c, w) :: poner r k v

/-- The map after `m.erase(k)`. -/
def borrar {V : Type} (m : Mapa V) (k : String) : Mapa V :=
  m.filter (fun e => !decide (e.1 = k))

/-- The value of `m[k]` read through `operator[]`: a missing key reads as the
value-initialised `dflt`. -/
def obtener {V : Type} (m : Mapa V) (k : String) (dflt : V) : V :=
  (buscar m k).getD dflt

/-- The map after `f` is applied in place to `m[k]`; `operator[]` first
inserts `dflt` when the key is missing. -/
def modificar {V : Type} (m : Mapa V) (k : String) (dflt : V) (f : V → V) : Mapa V :=
  poner m k (f (obtener m k dflt))

/-- Keys are pairwise different, as in every `std::map`. -/
def SinRepetir {V : Type} (m : Mapa V) : Prop :=
  (m.map Prod.fst).Nodup

end Mapa

/-! ## Domain model (`core/modelos.h`) -/

structure Grupo where
  cuatrimestre : Int
  turno : String
  nombre : String
deriving DecidableEq, Repr

structure Materia where
  nombre : String
  cuatrimestre : Int
  horas_semana : Int
  grupos_que_cursan : List String
deriving DecidableEq, Repr

structure Profesor where
  nombre : String
  materias_imparte : List String
  horas_disponibles : Int
  turno_preferido : String
  disponibilidad_horaria : Mapa (List (String × String))
deriving DecidableEq, Repr

structure Slot where
  dia : String
  hora_inicio : String
  hora_fin : String
  turno : String
deriving DecidableEq, Repr

/-- The key `hora_inicio + "-" + hora_fin` of `Slot::getKey`. -/
def Slot.getKey (s : Slot) : String :=
  s.hora_inicio ++ "-" ++ s.hora_fin

/-- Membership test of `Profesor::puedeImpartir` (`std::find` over
`materias_imparte`). -/
def Profesor.puedeImpartir (p : Profesor) (materia : String) : Bool :=
  p.materias_imparte.contains materia

/-! ### `std::stoi` on `substr(0, 2)` -/

/-- The characters `isspace` accepts in the C locale. -/
def esEspacio (c : Char) : Bool :=
  c = ' ' || c = '\t' || c = '\n' || c = '\r' || c.toNat = 11 || c.toNat = 12

/-- Value of a run of decimal digits. -/
def valorDigitos (ds : List Char) : Int :=
  ds.foldl (fun n c => 10 * n + ((c.toNat : Int) - 48)) 0

/-- Result of `std::stoi` on a short text: leading white space is skipped, one
sign is accepted, then the longest run of digits is read; `none` is the
`std::invalid_argument` thrown when no digit is there. -/
def stoi (cs : List Char) : Option Int :=
  let sinEspacios := cs.dropWhile esEspacio
  let negativo := sinEspacios.head? = some '-'
  let resto := if sinEspacios.head? = some '-' ∨ sinEspacios.head? = some '+'
    then sinEspacios.tail else sinEspacios
  let ds := resto.takeWhile Char.isDigit
  if ds.isEmpty then none
  else some (if negativo then - valorDigitos ds else valorDigitos ds)

/-- Evaluation of `std::stoi(s.substr(0, 2))`. -/
def horaDe (s : String) : Option Int :=
  stoi (s.data.take 2)

/-- The loop of `estaDisponibleEnSlot` over the ranges of one day: the first
range covering the slot answers `true`; a range whose hours do not parse
throws when the loop reaches it. -/
def cubreAlguno : List (String × String) → Int → Int → Option Bool
  | [], _, _ => some false
  | (ini, fin) :: rs, a, b =>
    match horaDe ini, horaDe fin with
    | some x, some y => if x ≤ a ∧ b ≤ y then some true else cubreAlguno rs a b
    | _, _ => none

/-- Model of `Profesor::estaDisponibleEnSlot`. -/
def Profesor.estaDisponibleEnSlot (p : Profesor) (dia hora_inicio hora_fin : String) :
    Option Bool :=
  if p.disponibilidad_horaria.isEmpty then some true
  else
    match Mapa.buscar p.disponibilidad_horaria dia with
    | none => some false
    | some rangos =>
      match horaDe hora_inicio, horaDe hora_fin with
      | some a, some b => cubreAlguno rangos a b
      | _, _ => none

/-! ## Slot catalog (`core/config.h`, `core/config.cpp`) -/

def DIAS_SEMANA : List String :=
  ["Lunes", "Martes", "Miercoles", "Jueves", "Viernes"]

def SLOTS_MATUTINO : List (String × String) :=
  [("07:00", "08:00"), ("08:00", "09:00"), ("09:00", "10:00"), ("10:00", "11:00"),
   ("11:00", "12:00"), ("12:00", "13:00"), ("13:00", "14:00")]

def SLOTS_VESPERTINO : List (String × String) :=
  [("14:00", "15:00"), ("15:00", "16:00"), ("16:00", "17:00"), ("17:00", "18:00"),
   ("18:00", "19:00"), ("19:00", "20:00"), ("20:00", "21:00")]

/-- Model of `getAllSlots`: days outermost, hours innermost, every slot tagged
with the text passed in. -/
def getAllSlots (turno : String) : List Slot :=
  let horarios := if turno = "Matutino" then SLOTS_MATUTINO else SLOTS_VESPERTINO
  DIAS_SEMANA.flatMap (fun dia => horarios.map (fun h => Slot.mk dia h.1 h.2 turno))

/-! ## Solver state (`algoritmo/backtracking.h`) -/

/-- What `hacerAsignacion` stores under the key `":valor"`. The program holds
one text, `materia.nombre + "|" + profesor.nombre`: that text is `Valor.texto`,
and it is all the code ever reads of a stored value (`escribirJSON` cuts it at
the first `'|'`, see `partirValor`). The two names the text was built from are
kept beside it as a record of the call that wrote the cell; they are not data
of the program, and the text does not determine them when a name holds a
`'|'`. Statements about the schedule go through the text (`textoEn`,
`entradasTexto`, `partirValor`). -/
structure Valor where
  materia : String
  profesor : String
deriving DecidableEq, Repr

def Valor.texto (v : Valor) : String :=
  v.materia ++ "|" ++ v.profesor

/-- The type `Horario`: group name, day, slot key, then the innermost map. -/
abbrev Horario := Mapa (Mapa (Mapa (Mapa Valor)))

/-- The type `Estado` of `restricciones.h`: professor name, day, slot key. -/
abbrev Ocupacion := Mapa (Mapa (Mapa Bool))

/-- The four mutable maps of `BacktrackingSolver`. -/
structure Estado where
  horario : Horario
  profesor_ocupado : Ocupacion
  horas_asignadas_profesor : Mapa Int
  horas_asignadas_materia : Mapa (Mapa Int)
deriving DecidableEq, Repr

/-- The innermost map at `(grupo, dia, key)`: what the chain of `find` calls
reaches, the empty map when one of them ends at `end()`. -/
def celda (h : Horario) (grupo dia key : String) : Mapa Valor :=
  Mapa.obtener (Mapa.obtener (Mapa.obtener h grupo []) dia []) key []

/-- The entry placed at `(grupo, dia, key)`, if there is one. -/
def valorEn (h : Horario) (grupo dia key : String) : Option Valor :=
  Mapa.buscar (celda h grupo dia key) ":valor"

/-- Whether `profesor_ocupado` holds `true` at `(profesor, dia, key)`; a `find`
that ends at `end()` reads as `false`. -/
def ocupadoEn (o : Ocupacion) (profesor dia key : String) : Bool :=
  Mapa.obtener (Mapa.obtener (Mapa.obtener o profesor []) dia []) key false

/-! ## Hard constraints (`algoritmo/restricciones.cpp`) -/

/-- Model of `validarRestriccionesDuras`; `none` is the exception of
`std::stoi` inside `estaDisponibleEnSlot`. -/
def validarRestriccionesDuras (horario : Horario) (grupo : Grupo) (_materia : Materia)
    (profesor : Profesor) (slot : Slot) (profesor_ocupado : Ocupacion)
    (horas_asignadas_profesor : Mapa Int) : Option (Bool × String) :=
  if slot.turno ≠ grupo.turno then
    some (false, "Slot no corresponde al turno del grupo")
  else if !(celda horario grupo.nombre slot.dia slot.getKey).isEmpty then
    some (false, "Grupo ya tiene clase en este slot")
  else if ocupadoEn profesor_ocupado profesor.nombre slot.dia slot.getKey then
    some (false, "Profesor ya esta ocupado en este slot")
  else if Mapa.obtener horas_asignadas_profesor profesor.nombre 0 ≥ profesor.horas_disponibles then
    some (false, "Profesor no tiene horas disponibles")
  else if profesor.turno_preferido ≠ "Ambos" ∧ profesor.turno_preferido ≠ slot.turno then
    some (false, "Turno no compatible con preferencia del profesor")
  else
    match profesor.estaDisponibleEnSlot slot.dia slot.hora_inicio slot.hora_fin with
    | none => none
    | some false => some (false, "Profesor no disponible en este horario")
    | some true => some (true, "Valido")

/-! ## Slot ordering (`algoritmo/heuristicas.cpp`) -/

structure AsignacionPendiente where
  grupo : Grupo
  materia : Materia
  horas_restantes : Int
  profesores_disponibles : List Profesor
deriving DecidableEq, Repr

/-- The part of the comparator that reads the schedule: `+= 2` for every slot
entry of the group on that day whose innermost map is not empty. -/
def restriccionDia (horario : Horario) (grupo : Grupo) (dia : String) : Int :=
  match Mapa.buscar horario grupo.nombre with
  | none => 0
  | some dias =>
    match Mapa.buscar dias dia with
    | none => 0
    | some slots => 2 * ((slots.filter (fun e => !e.2.isEmpty)).length : Int)

/-- The part of the comparator that reads the start hour. -/
def bonoHora (hora : Int) : Int :=
  if hora < 10 then -3 else if hora > 18 then 3 else 0

/-- The value `restriccion` the comparator computes for one slot; a start hour
that does not parse reads as 0 here and is excluded by `seleccionarMejorSlot`. -/
def restriccion (horario : Horario) (grupo : Grupo) (s : Slot) : Int :=
  restriccionDia horario grupo s.dia + bonoHora ((horaDe s.hora_inicio).getD 0)

/-- The lambda handed to `std::sort`. -/
def comparador (horario : Horario) (grupo : Grupo) (s1 s2 : Slot) : Bool :=
  decide (restriccion horario grupo s1 < restriccion horario grupo s2)

/-- A sorting routine in the role of `std::sort`. -/
abbrev Ordenador := (Slot → Slot → Bool) → List Slot → List Slot

/-- What the C++ standard promises of `std::sort` for the comparators used
here: the result rearranges the input and is ordered by the compared value. -/
structure OrdenadorValido (ordenar : Ordenador) : Prop where
  perm : ∀ (lt : Slot → Slot → Bool) (l : List Slot), (ordenar lt l).Perm l
  ordenado : ∀ (f : Slot → Int) (l : List Slot),
    (ordenar (fun a b => decide (f a < f b)) l).Pairwise (fun a b => f a ≤ f b)

/-- Model of `seleccionarMejorSlot`. With fewer than two slots `std::sort`
compares nothing; otherwise every slot is compared at least once, so a start
hour that does not parse throws (`none`). -/
def seleccionarMejorSlot (ordenar : Ordenador) (slots_disponibles : List Slot)
    (horario : Horario) (grupo : Grupo) : Option (List Slot) :=
  if slots_disponibles.length ≤ 1 then some slots_disponibles
  else if slots_disponibles.all (fun s => (horaDe s.hora_inicio).isSome) then
    some (ordenar (comparador horario grupo) slots_disponibles)
  else none

/-- Insertion sort in the role of `std::sort`. -/
def ordenarInsercion : Ordenador :=
  fun lt l => l.insertionSort (fun a b => lt b a = false)

/-! ## Search engine (`algoritmo/backtracking.cpp`) -/

/-- Model of `inicializarEstado`. -/
def inicializarEstado (materias : List Materia) (profesores : List Profesor) : Estado :=
  { horario := []
    profesor_ocupado := []
    horas_asignadas_profesor :=
      profesores.foldl (fun hp p => Mapa.poner hp p.nombre 0) []
    horas_asignadas_materia :=
      materias.foldl (fun hm m =>
        m.grupos_que_cursan.foldl (fun hm2 gn =>
          Mapa.modificar hm2 gn [] (fun ms => Mapa.poner ms m.nombre 0)) hm) [] }

/-- The first group with the given name, as found by the loop with `break`. -/
def buscarGrupo (grupos : List Grupo) (nombre : String) : Option Grupo :=
  grupos.find? (fun g => g.nombre = nombre)

/-- Model of `construirAsignacionesPendientes`. -/
def construirAsignacionesPendientes (grupos : List Grupo) (materias : List Materia)
    (profesores : List Profesor) : List AsignacionPendiente :=
  materias.flatMap (fun m =>
    m.grupos_que_cursan.filterMap (fun gn =>
      (buscarGrupo grupos gn).map (fun g =>
        { grupo := g
          materia := m
          horas_restantes := m.horas_semana
          profesores_disponibles := profesores.filter (fun p => p.puedeImpartir m.nombre) })))

/-- Model of `hacerAsignacion`. -/
def hacerAsignacion (st : Estado) (grupo : Grupo) (materia : Materia) (profesor : Profesor)
    (slot : Slot) : Estado :=
  { horario :=
      Mapa.modificar st.horario grupo.nombre [] (fun dias =>
        Mapa.modificar dias slot.dia [] (fun slots =>
          Mapa.modificar slots slot.getKey [] (fun c =>
            Mapa.poner c ":valor" ⟨materia.nombre, profesor.nombre⟩)))
    profesor_ocupado :=
      Mapa.modificar st.profesor_ocupado profesor.nombre [] (fun dias =>
        Mapa.modificar dias slot.dia [] (fun slots => Mapa.poner slots slot.getKey true))
    horas_asignadas_profesor :=
      Mapa.modificar st.horas_asignadas_profesor profesor.nombre 0 (fun h => h + 1)
    horas_asignadas_materia :=
      Mapa.modificar st.horas_asignadas_materia grupo.nombre [] (fun ms =>
        Mapa.modificar ms materia.nombre 0 (fun h => h + 1)) }

/-- The day map after `[key].erase(":valor")` and the conditional
`erase(key)`. -/
def quitarDeDia (slots : Mapa (Mapa Valor)) (key : String) : Mapa (Mapa Valor) :=
  let slots1 := Mapa.modificar slots key [] (fun c => Mapa.borrar c ":valor")
  if (Mapa.obtener slots1 key []).isEmpty then Mapa.borrar slots1 key else slots1

/-- Model of `deshacerAsignacion`. -/
def deshacerAsignacion (st : Estado) (grupo : Grupo) (materia : Materia) (profesor : Profesor)
    (slot : Slot) : Estado :=
  { horario :=
      Mapa.modificar st.horario grupo.nombre [] (fun dias =>
        Mapa.modificar dias slot.dia [] (fun slots => quitarDeDia slots slot.getKey))
    profesor_ocupado :=
      Mapa.modificar st.profesor_ocupado profesor.nombre [] (fun dias =>
        Mapa.modificar dias slot.dia [] (fun slots => Mapa.borrar slots slot.getKey))
    horas_asignadas_profesor :=
      Mapa.modificar st.horas_asignadas_profesor profesor.nombre 0 (fun h => h - 1)
    horas_asignadas_materia :=
      Mapa.modificar st.horas_asignadas_materia grupo.nombre [] (fun ms =>
        Mapa.modificar ms materia.nombre 0 (fun h => h - 1)) }

/-- The counter of `(grupo, materia)`: what two `find` calls (or two reads
through `operator[]`) give, 0 when the key is missing. -/
def horasMateria (hm : Mapa (Mapa Int)) (grupo materia : String) : Int :=
  Mapa.obtener (Mapa.obtener hm grupo []) materia 0

/-- Model of `esSolucionCompleta`. -/
def esSolucionCompleta (materias : List Materia) (st : Estado) : Bool :=
  materias.all (fun m =>
    m.grupos_que_cursan.all (fun gn =>
      match Mapa.buscar st.horas_asignadas_materia gn with
      | none => false
      | some ms =>
        match Mapa.buscar ms m.nombre with
        | none => false
        | some h => !decide (h < m.horas_semana)))

/-- How a call of the search ended: it returned `true`, it returned `false`,
`std::stoi` threw, or the recursion bound of the model was reached. -/
inductive Salida where
  | exito
  | fallo
  | excepcion
  | sinCombustible
deriving DecidableEq, Repr

/-- The two mutations of the search. -/
inductive Operacion where
  | hacer
  | deshacer
deriving DecidableEq, Repr

/-- One call of `hacerAsignacion` or `deshacerAsignacion`: the state it was
applied to and its arguments. -/
structure Paso where
  op : Operacion
  antes : Estado
  grupo : Grupo
  materia : Materia
  profesor : Profesor
  slot : Slot
deriving DecidableEq, Repr

/-- The state the call leaves. -/
def Paso.despues (p : Paso) : Estado :=
  match p.op with
  | Operacion.hacer => hacerAsignacion p.antes p.grupo p.materia p.profesor p.slot
  | Operacion.deshacer => deshacerAsignacion p.antes p.grupo p.materia p.profesor p.slot

/-- Outcome of a call: how it ended, the state it left, and the mutations it
performed, in order. -/
structure Corrida where
  salida : Salida
  estado : Estado
  traza : List Paso
deriving DecidableEq, Repr

/-- The value `horas_necesarias` computed on entry to `intentarAsignar`. -/
def horasNecesarias (asignacion : AsignacionPendiente) (st : Estado) : Int :=
  asignacion.materia.horas_semana -
    horasMateria st.horas_asignadas_materia asignacion.grupo.nombre asignacion.materia.nombre

/-- The inner loop of `intentarAsignar` over the qualified professors for one
slot; `rec` is the recursive call. -/
def bucleProfesores (rec : Estado → Corrida) (asignacion : AsignacionPendiente) (slot : Slot) :
    List Profesor → Estado → Corrida
  | [], st => ⟨Salida.fallo, st, []⟩
  | profesor :: resto, st =>
    match validarRestriccionesDuras st.horario asignacion.grupo asignacion.materia profesor slot
        st.profesor_ocupado st.horas_asignadas_profesor with
    | none => ⟨Salida.excepcion, st, []⟩
    | some (false, _) => bucleProfesores rec asignacion slot resto st
    | some (true, _) =>
      let hecho : Paso :=
        ⟨Operacion.hacer, st, asignacion.grupo, asignacion.materia, profesor, slot⟩
      let st1 := hacerAsignacion st asignacion.grupo asignacion.materia profesor slot
      if horasMateria st1.horas_asignadas_materia asignacion.grupo.nombre
          asignacion.materia.nombre ≥ asignacion.materia.horas_semana then
        ⟨Salida.exito, st1, [hecho]⟩
      else
        let r := rec st1
        match r.salida with
        | Salida.fallo =>
          let deshecho : Paso :=
            ⟨Operacion.deshacer, r.estado, asignacion.grupo, asignacion.materia, profesor, slot⟩
          let st2 := deshacerAsignacion r.estado asignacion.grupo asignacion.materia profesor slot
          let r2 := bucleProfesores rec asignacion slot resto st2
          ⟨r2.salida, r2.estado, hecho :: r.traza ++ deshecho :: r2.traza⟩
        | s => ⟨s, r.estado, hecho :: r.traza⟩

/-- The outer loop of `intentarAsignar` over the ordered slots. -/
def bucleSlots (rec : Estado → Corrida) (asignacion : AsignacionPendiente) :
    List Slot → Estado → Corrida
  | [], st => ⟨Salida.fallo, st, []⟩
  | slot :: resto, st =>
    let r := bucleProfesores rec asignacion slot asignacion.profesores_disponibles st
    match r.salida with
    | Salida.fallo =>
      let r2 := bucleSlots rec asignacion resto r.estado
      ⟨r2.salida, r2.estado, r.traza ++ r2.traza⟩
    | _ => r

/-- Model of `intentarAsignar` with a bound on the recursion depth; the bound
is never reached when it starts at `horas_necesarias`. -/
def intentarAsignarAux (ordenar : Ordenador) (asignacion : AsignacionPendiente) :
    Nat → Estado → Corrida
  | combustible, st =>
    if horasNecesarias asignacion st ≤ 0 then ⟨Salida.exito, st, []⟩
    else
      match combustible with
      | 0 => ⟨Salida.sinCombustible, st, []⟩
      | n + 1 =>
        match seleccionarMejorSlot ordenar (getAllSlots asignacion.grupo.turno) st.horario
            asignacion.grupo with
        | none => ⟨Salida.excepcion, st, []⟩
        | some slots_ordenados =>
          bucleSlots (intentarAsignarAux ordenar asignacion n) asignacion slots_ordenados st

/-- Model of `intentarAsignar`. -/
def intentarAsignar (ordenar : Ordenador) (asignacion : AsignacionPendiente) (st : Estado) :
    Corrida :=
  intentarAsignarAux ordenar asignacion (horasNecesarias asignacion st).toNat st

/-- Model of `backtrackRecursivo`; the pending units from `indice` on are the
list argument, `indice >= size()` is the empty list. -/
def backtrackRecursivo (ordenar : Ordenador) (materias : List Materia) :
    List AsignacionPendiente → Estado → Corrida
  | [], st => ⟨if esSolucionCompleta materias st then Salida.exito else Salida.fallo, st, []⟩
  | asignacion :: resto, st =>
    let r := intentarAsignar ordenar asignacion st
    match r.salida with
    | Salida.exito =>
      let r2 := backtrackRecursivo ordenar materias resto r.estado
      ⟨r2.salida, r2.estado, r.traza ++ r2.traza⟩
    | _ => r

/-- The run of `resolver`: `inicializarEstado`, `construirAsignacionesPendientes`
and `backtrackRecursivo(0, ...)`. -/
def correr (ordenar : Ordenador) (grupos : List Grupo) (materias : List Materia)
    (profesores : List Profesor) : Corrida :=
  backtrackRecursivo ordenar materias
    (construirAsignacionesPendientes grupos materias profesores)
    (inicializarEstado materias profesores)

/-- The fields `exito` and `horario` of `ResultadoBacktracking`. -/
structure ResultadoBacktracking where
  exito : Bool
  horario : Horario
deriving DecidableEq, Repr

/-- Model of `resolver`: the result it returns, `none` when the run ends in an
exception. -/
def resolver (ordenar : Ordenador) (grupos : List Grupo) (materias : List Materia)
    (profesores : List Profesor) : Option ResultadoBacktracking :=
  let r := correr ordenar grupos materias profesores
  match r.salida with
  | Salida.exito => some ⟨true, r.estado.horario⟩
  | Salida.fallo => some ⟨false, r.estado.horario⟩
  | _ => none

/-- The states `resolver` goes through, in order: the one `inicializarEstado`
builds, then the one after every `hacerAsignacion` and `deshacerAsignacion`. -/
def estadosAlcanzados (ordenar : Ordenador) (grupos : List Grupo) (materias : List Materia)
    (profesores : List Profesor) : List Estado :=
  inicializarEstado materias profesores ::
    (correr ordenar grupos materias profesores).traza.map Paso.despues

/-! ## Instance loading (`utils/json_io.cpp`) -/

/-- The constructor `Materia(n, cuatri, horas)`: no group listed yet. -/
def Materia.nueva (n : String) (cuatri horas : Int) : Materia :=
  ⟨n, cuatri, horas, []⟩

/-- Model of `Materia::agregarGrupo` (`push_back`). -/
def Materia.agregarGrupo (m : Materia) (grupo_nombre : String) : Materia :=
  { m with grupos_que_cursan := m.grupos_que_cursan ++ [grupo_nombre] }

/-- The joining loop that ends `leerJSON`: every subject receives the names of
the groups of its term, in the order of the groups. -/
def unirMateriasGrupos (grupos : List Grupo) (materias : List Materia) : List Materia :=
  materias.map (fun materia =>
    grupos.foldl (fun m g =>
      if g.cuatrimestre = m.cuatrimestre then m.agregarGrupo g.nombre else m) materia)

/-- The subjects `leerJSON` returns for the parsed array `materias` (name,
term, weekly hours of each element): one `Materia` per element, then the
joining loop. Reading and parsing the file is not modelled. -/
def leerMaterias (grupos : List Grupo) (materias : List (String × Int × Int)) : List Materia :=
  unirMateriasGrupos grupos (materias.map (fun x => Materia.nueva x.1 x.2.1 x.2.2))

/-! ## Conflict graph (`core/grafo_conflictos.h`, `core/grafo_conflictos.cpp`) -/

structure NodoAsignacion where
  grupo_nombre : String
  materia_nombre : String
  cuatrimestre : Int
deriving DecidableEq, Repr

/-- Model of `NodoAsignacion::operator<`. -/
def NodoAsignacion.menor (a other : NodoAsignacion) : Bool :=
  if a.grupo_nombre ≠ other.grupo_nombre then
    decide (a.grupo_nombre < other.grupo_nombre)
  else if a.materia_nombre ≠ other.materia_nombre then
    decide (a.materia_nombre < other.materia_nombre)
  else
    decide (a.cuatrimestre < other.cuatrimestre)

/-- Where an ordered container puts a new element: before the first element
it is less than. -/
def colocar {α : Type} (lt : α → α → Bool) (x : α) : List α → List α
  | [] => [x]
  | y :: ys => if lt x y then x :: y :: ys else y :: colocar lt x ys

/-- Model of `std::set<NodoAsignacion>::insert`: the set is the list of its
elements in the order of `operator<`; an element already present is not
inserted (two nodes are equivalent under `operator<` exactly when they are
equal). -/
def insertar (x : NodoAsignacion) (l : List NodoAsignacion) : List NodoAsignacion :=
  if x ∈ l then l else colocar NodoAsignacion.menor x l

/-- A `std::map<NodoAsignacion, std::set<NodoAsignacion>>`. -/
abbrev MapaNodos := List (NodoAsignacion × List NodoAsignacion)

/-- The value found by `find(k)`, `none` for `end()`. -/
def buscarNodo : MapaNodos → NodoAsignacion → Option (List NodoAsignacion)
  | [], _ => none
  | (c, v) :: r, k => if c = k then some v else buscarNodo r k

/-- The map after `m[k] = v`: the value is replaced when the key is present,
otherwise the pair is inserted at the place of the key. -/
def ponerNodo (m : MapaNodos) (k : NodoAsignacion) (v : List NodoAsignacion) : MapaNodos :=
  if (buscarNodo m k).isSome then m.map (fun e => (e.1, if e.1 = k then v else e.2))
  else colocar (fun a b => a.1.menor b.1) (k, v) m

/-- The three members of `GrafoConflictos`. -/
structure GrafoConflictos where
  nodos : List NodoAsignacion
  aristas : MapaNodos
  profesores_por_materia : Mapa (List String)
deriving DecidableEq, Repr

/-- The graph the constructor leaves. -/
def GrafoConflictos.nuevo : GrafoConflictos := ⟨[], [], []⟩

/-- Model of `construirMapeoProfesores`. -/
def GrafoConflictos.construirMapeoProfesores (g : GrafoConflictos)
    (profesores : List Profesor) : GrafoConflictos :=
  { g with
    profesores_por_materia :=
      profesores.foldl (fun ppm profesor =>
        profesor.materias_imparte.foldl (fun ppm2 materia =>
          Mapa.modificar ppm2 materia [] (fun l => l ++ [profesor.nombre])) ppm)
        g.profesores_por_materia }

/-- Model of `compartenProfesor`. -/
def GrafoConflictos.compartenProfesor (g : GrafoConflictos) (mat1 mat2 : String) : Bool :=
  match Mapa.buscar g.profesores_por_materia mat1, Mapa.buscar g.profesores_por_materia mat2 with
  | some profs1, some profs2 => profs1.any (fun p1 => decide (p1 ∈ profs2))
  | _, _ => false

/-- Model of `tieneConflicto`. -/
def GrafoConflictos.tieneConflicto (g : GrafoConflictos) (n1 n2 : NodoAsignacion) : Bool :=
  if n1.grupo_nombre = n2.grupo_nombre then true
  else if g.compartenProfesor n1.materia_nombre n2.materia_nombre then true
  else false

/-- Model of `agregarNodo`. -/
def GrafoConflictos.agregarNodo (g : GrafoConflictos) (nodo : NodoAsignacion) :
    GrafoConflictos :=
  { g with
    nodos := insertar nodo g.nodos
    aristas :=
      if (buscarNodo g.aristas nodo).isNone then ponerNodo g.aristas nodo [] else g.aristas }

/-- Model of `agregarArista`; `operator[]` reads a missing key as the empty
set. -/
def GrafoConflictos.agregarArista (g : GrafoConflictos) (n1 n2 : NodoAsignacion) :
    GrafoConflictos :=
  let a1 := ponerNodo g.aristas n1 (insertar n2 ((buscarNodo g.aristas n1).getD []))
  let a2 := ponerNodo a1 n2 (insertar n1 ((buscarNodo a1 n2).getD []))
  { g with aristas := a2 }

/-- Model of `obtenerVecinos`. -/
def GrafoConflictos.obtenerVecinos (g : GrafoConflictos) (nodo : NodoAsignacion) :
    List NodoAsignacion :=
  match buscarNodo g.aristas nodo with
  | some vecinos => vecinos
  | none => []

/-- Model of `obtenerGrado`. -/
def GrafoConflictos.obtenerGrado (g : GrafoConflictos) (nodo : NodoAsignacion) : Int :=
  ((g.obtenerVecinos nodo).length : Int)

/-- Model of `getNumNodos`. -/
def GrafoConflictos.getNumNodos (g : GrafoConflictos) : Nat := g.nodos.length

/-- Model of `getNumAristas`. -/
def GrafoConflictos.getNumAristas (g : GrafoConflictos) : Nat :=
  (g.aristas.foldl (fun total pair => total + pair.2.length) 0) / 2

/-- The pairs `(l[i], l[j])` with `i < j`, in the order of the two nested
loops of `construirDesdeDatos`. -/
def paresOrdenados {α : Type} : List α → List (α × α)
  | [] => []
  | x :: t => t.map (fun y => (x, y)) ++ paresOrdenados t

/-- Model of `construirDesdeDatos`; the argument `grupos` is not read. -/
def GrafoConflictos.construirDesdeDatos (g : GrafoConflictos) (_grupos : List Grupo)
    (materias : List Materia) (profesores : List Profesor) : GrafoConflictos :=
  let g1 := g.construirMapeoProfesores profesores
  let g2 := materias.foldl (fun g materia =>
    materia.grupos_que_cursan.foldl (fun g grupo_nombre =>
      g.agregarNodo ⟨grupo_nombre, materia.nombre, materia.cuatrimestre⟩) g) g1
  (paresOrdenados g2.nodos).foldl (fun g p =>
    if g.tieneConflicto p.1 p.2 then g.agregarArista p.1 p.2 else g) g2

/-- A call of one of the public mutating methods of `GrafoConflictos`. -/
inductive Llamada where
  | agregarNodo (nodo : NodoAsignacion)
  | agregarArista (n1 n2 : NodoAsignacion)
  | construirDesdeDatos (grupos : List Grupo) (materias : List Materia)
      (profesores : List Profesor)

/-- The graph after one call. -/
def GrafoConflictos.llamar (g : GrafoConflictos) : Llamada → GrafoConflictos
  | Llamada.agregarNodo nodo => g.agregarNodo nodo
  | Llamada.agregarArista n1 n2 => g.agregarArista n1 n2
  | Llamada.construirDesdeDatos grupos materias profesores =>
    g.construirDesdeDatos grupos materias profesores

/-- The graph after a sequence of calls on a fresh graph. -/
def ejecutar (llamadas : List Llamada) : GrafoConflictos :=
  llamadas.foldl GrafoConflictos.llamar GrafoConflictos.nuevo

/-! ## Result output (`utils/json_io.cpp`) -/

/-- The JSON value `j["horario"]`: an object per group, holding an object per
day, holding an object per slot key, holding string fields. An object is the
map from its keys to its values. -/
abbrev JsonHorario := Mapa (Mapa (Mapa (Mapa String)))

/-- The part of the document `escribirJSON` builds that comes from the fields
`exito` and `horario` of the result. -/
structure DocumentoJson where
  exito : Bool
  horario : JsonHorario
deriving DecidableEq, Repr

/-- The two pieces `escribirJSON` cuts a stored value into: the text before
the first `'|'` and the text after it; `none` when `find` returns `npos`. -/
def partirValor (valor : String) : Option (String × String) :=
  if '|' ∈ valor.data then
    some (String.mk (valor.data.takeWhile (fun c => c ≠ '|')),
      String.mk ((valor.data.dropWhile (fun c => c ≠ '|')).drop 1))
  else none

/-- The innermost loop of `escribirJSON`, over the slots of one day. -/
def escribirSlots (grupo_nombre dia : String) (slots : Mapa (Mapa Valor)) (j : JsonHorario) :
    JsonHorario :=
  slots.foldl (fun j e =>
    if !e.2.isEmpty then
      match Mapa.buscar e.2 ":valor" with
      | some valor =>
        match partirValor valor.texto with
        | some (materia, profesor) =>
          Mapa.modificar j grupo_nombre [] (fun o =>
            Mapa.modificar o dia [] (fun o2 =>
              Mapa.poner o2 e.1 [("materia", materia), ("profesor", profesor)]))
        | none => j
      | none => j
    else j) j

/-- The middle loop of `escribirJSON`, over the days of one group. -/
def escribirDias (grupo_nombre : String) (dias : Mapa (Mapa (Mapa Valor))) (j : JsonHorario) :
    JsonHorario :=
  dias.foldl (fun j e =>
    escribirSlots grupo_nombre e.1 e.2
      (Mapa.modificar j grupo_nombre [] (fun o => Mapa.poner o e.1 []))) j

/-- Model of `escribirJSON`: the document it builds, without `estadisticas`
and without the write to the file. -/
def escribirJSON (resultado : ResultadoBacktracking) : DocumentoJson :=
  { exito := resultado.exito
    horario :=
      resultado.horario.foldl (fun j e =>
        escribirDias e.1 e.2 (Mapa.poner j e.1 [])) [] }

/-- A second sorting routine in the role of `std::sort`: insertion sort on the
reversed list; equal elements come out in reverse input order. -/
def ordenarAlReves : Ordenador :=
  fun lt l => ordenarInsercion lt l.reverse

/-! ### The loops of `construirAsignacionesPendientes`, statement by statement -/

/-- The loop over `grupos` that sets `grupo_ptr` and breaks at the first group
of the given name. -/
def buscarGrupoBucle : List Grupo → String → Option Grupo
  | [], _ => none
  | g :: resto, grupo_nombre =>
    if g.nombre = grupo_nombre then some g else buscarGrupoBucle resto grupo_nombre

/-- The loop that fills `profesores_capacitados` with `push_back`. -/
def profesoresCapacitados (profesores : List Profesor) (materia : Materia) : List Profesor :=
  profesores.foldl (fun capacitados profesor =>
    if profesor.puedeImpartir materia.nombre then capacitados ++ [profesor]
    else capacitados) []

/-- The two nested loops of `construirAsignacionesPendientes` with their
`continue` and `push_back`, on the cleared list. -/
def construirAsignacionesPendientesBucle (grupos : List Grupo) (materias : List Materia)
    (profesores : List Profesor) : List AsignacionPendiente :=
  materias.foldl (fun pendientes materia =>
    materia.grupos_que_cursan.foldl (fun pendientes grupo_nombre =>
      match buscarGrupoBucle grupos grupo_nombre with
      | none => pendientes
      | some grupo =>
        pendientes ++
          [⟨grupo, materia, materia.horas_semana, profesoresCapacitados profesores materia⟩])
      pendientes) []

/-! ## Decision tree (`algoritmo/arbol_decisiones.h`, `algoritmo/arbol_decisiones.cpp`) -/

structure NodoArbol where
  id : String
  tipo : String
  estado : String
  profundidad : Int
  datos : Mapa String
  hijos_ids : List String
  padre_id : String
deriving DecidableEq, Repr

/-- The constructor `NodoArbol(id, tipo, prof)`. -/
def NodoArbol.nuevo (id tipo : String) (prof : Int) : NodoArbol :=
  ⟨id, tipo, "explorando", prof, [], [], ""⟩

/-- The default constructor `NodoArbol()`, which `operator[]` uses for a
missing key. -/
def NodoArbol.vacio : NodoArbol := ⟨"", "", "explorando", 0, [], [], ""⟩

/-- The members of `ArbolDecisiones`. -/
structure ArbolDecisiones where
  nodos : Mapa NodoArbol
  nodo_raiz_id : String
  nodo_actual_id : String
  contador_nodos : Int
deriving DecidableEq, Repr

/-- Model of `ArbolDecisiones::agregarNodo`: the tree after the call and the
id it returns. -/
def ArbolDecisiones.agregarNodo (a : ArbolDecisiones) (tipo : String) (profundidad : Int)
    (datos : Mapa String) (padre_id : String) : ArbolDecisiones × String :=
  let nuevo_id := "nodo_" ++ toString a.contador_nodos
  let nuevo_nodo : NodoArbol :=
    { NodoArbol.nuevo nuevo_id tipo profundidad with datos := datos, padre_id := padre_id }
  let nodos1 := Mapa.poner a.nodos nuevo_id nuevo_nodo
  let nodos2 :=
    if padre_id ≠ "" ∧ (Mapa.buscar nodos1 padre_id).isSome then
      Mapa.modificar nodos1 padre_id NodoArbol.vacio
        (fun n => { n with hijos_ids := n.hijos_ids ++ [nuevo_id] })
    else nodos1
  ({ nodos := nodos2
     nodo_raiz_id := a.nodo_raiz_id
     nodo_actual_id := nuevo_id
     contador_nodos := a.contador_nodos + 1 }, nuevo_id)

/-- The constructor of `ArbolDecisiones`: it adds the root node. -/
def ArbolDecisiones.nuevo : ArbolDecisiones :=
  let r := ArbolDecisiones.agregarNodo ⟨[], "", "", 0⟩ "raiz" 0
    [("descripcion", "Estado inicial")] ""
  { r.1 with nodo_raiz_id := r.2, nodo_actual_id := r.2 }

/-- Model of `getTotalNodos`. -/
def ArbolDecisiones.getTotalNodos (a : ArbolDecisiones) : Nat := a.nodos.length

/-- The value `resolver` stores under `"nodos_explorados"`, before the
conversion to `double`: `getTotalNodos()` of the member `arbol`. The member is
built by the constructor of `ArbolDecisiones` when the solver is constructed,
and no method of the solver calls a method of it before this read. `none` when
`resolver` ends in an exception. -/
def nodosExplorados (ordenar : Ordenador) (grupos : List Grupo) (materias : List Materia)
    (profesores : List Profesor) : Option Nat :=
  (resolver ordenar grupos materias profesores).map
    (fun _ => ArbolDecisiones.nuevo.getTotalNodos)

/-! ## Vocabulary of the properties -/

/-- Two states that every read of the solver tells apart in nothing: the same
innermost maps, occupancy flags and counters at every key. -/
structure MismoContenido (a b : Estado) : Prop where
  hCelda : ∀ g d k, celda a.horario g d k = celda b.horario g d k
  hOcupado : ∀ p d k,
    ocupadoEn a.profesor_ocupado p d k = ocupadoEn b.profesor_ocupado p d k
  hProfesor : ∀ p,
    Mapa.obtener a.horas_asignadas_profesor p 0 = Mapa.obtener b.horas_asignadas_profesor p 0
  hMateria : ∀ g m,
    horasMateria a.horas_asignadas_materia g m = horasMateria b.horas_asignadas_materia g m

/-- The mutations `t` lead from state `st` to state `fin`, each applied to the
state the previous one left. -/
def Cadena : Estado → List Paso → Estado → Prop
  | st, [], fin => fin = st
  | st, p :: ps, fin => p.antes = st ∧ Cadena p.despues ps fin

/-- What holds of every mutation made while the pending unit `asignacion` is
being placed: a `hacerAsignacion` follows a positive verdict of the validator
in that very state, for a slot of the ordered catalog and while hours are still
missing; a `deshacerAsignacion` removes the entry its `hacerAsignacion` wrote. -/
def PasoLegal (ordenar : Ordenador) (asignacion : AsignacionPendiente) (paso : Paso) : Prop :=
  paso.grupo = asignacion.grupo ∧ paso.materia = asignacion.materia ∧
  paso.profesor ∈ asignacion.profesores_disponibles ∧
  match paso.op with
  | Operacion.hacer =>
    (∃ razon, validarRestriccionesDuras paso.antes.horario paso.grupo paso.materia
        paso.profesor paso.slot paso.antes.profesor_ocupado
        paso.antes.horas_asignadas_profesor = some (true, razon)) ∧
    0 < horasNecesarias asignacion paso.antes ∧
    (∃ h l, seleccionarMejorSlot ordenar (getAllSlots asignacion.grupo.turno) h
        asignacion.grupo = some l ∧ paso.slot ∈ l)
  | Operacion.deshacer =>
    celda paso.antes.horario paso.grupo.nombre paso.slot.dia paso.slot.getKey
        = [(":valor", ⟨paso.materia.nombre, paso.profesor.nombre⟩)] ∧
    ocupadoEn paso.antes.profesor_ocupado paso.profesor.nombre paso.slot.dia
        paso.slot.getKey = true

/-- A call that started in `st` behaved well: its mutations form a chain from
`st` to the state it left, each of them is legal, the recursion bound was not
reached, and a failed call left the content of `st` as it was. -/
structure CorridaBuena (legal : Paso → Prop) (st : Estado) (r : Corrida) : Prop where
  cadena : Cadena st r.traza r.estado
  legales : ∀ paso ∈ r.traza, legal paso
  conCombustible : r.salida ≠ Salida.sinCombustible
  atomica : r.salida = Salida.fallo → MismoContenido r.estado st

/-- The range `r` covers the slot `s`, comparing the hours read from the first
two characters of each text. -/
def CubreRango (r : String × String) (s : Slot) : Prop :=
  ∃ x y a b, horaDe r.1 = some x ∧ horaDe r.2 = some y ∧
    horaDe s.hora_inicio = some a ∧ horaDe s.hora_fin = some b ∧ x ≤ a ∧ b ≤ y

/-- The six checks of the validator, each as a condition on its arguments. -/
def SeisCondiciones (horario : Horario) (g : Grupo) (p : Profesor) (s : Slot)
    (po : Ocupacion) (hp : Mapa Int) : Prop :=
  s.turno = g.turno ∧
  celda horario g.nombre s.dia s.getKey = [] ∧
  ocupadoEn po p.nombre s.dia s.getKey = false ∧
  Mapa.obtener hp p.nombre 0 < p.horas_disponibles ∧
  (p.turno_preferido = "Ambos" ∨ p.turno_preferido = s.turno) ∧
  (p.disponibilidad_horaria = [] ∨
    ∃ rangos, Mapa.buscar p.disponibilidad_horaria s.dia = some rangos ∧
      ∃ r ∈ rangos, CubreRango r s)

/-- Every hour text the availability check may read for this slot starts with
digits, so that `std::stoi` does not throw. -/
def HorasLegibles (p : Profesor) (s : Slot) : Prop :=
  (horaDe s.hora_inicio).isSome = true ∧ (horaDe s.hora_fin).isSome = true ∧
  ∀ rangos, Mapa.buscar p.disponibilidad_horaria s.dia = some rangos →
    ∀ r ∈ rangos, (horaDe r.1).isSome = true ∧ (horaDe r.2).isSome = true

/-- The slot keys of a table of hourly ranges. -/
def clavesDe (rangos : List (String × String)) : List String :=
  rangos.map (fun h => h.1 ++ "-" ++ h.2)

/-- One placed hour: the group name, day and slot key it is stored under,
and the stored entry. -/
structure Entrada where
  grupo : String
  dia : String
  clave : String
  valor : Valor
deriving DecidableEq, Repr

/-- What one slot key of one day contributes to the list of placed hours. -/
def entradaDe (g d k : String) (c : Mapa Valor) : List Entrada :=
  match Mapa.buscar c ":valor" with
  | some v => [⟨g, d, k, v⟩]
  | none => []

/-- The placed hours of one day of one group. -/
def entradasDia (g d : String) (slots : Mapa (Mapa Valor)) : List Entrada :=
  slots.flatMap (fun e => entradaDe g d e.1 e.2)

/-- The placed hours of one group. -/
def entradasGrupo (g : String) (dias : Mapa (Mapa (Mapa Valor))) : List Entrada :=
  dias.flatMap (fun e => entradasDia g e.1 e.2)

/-- All placed hours of a schedule, one per `(group, day, slot key)` that
holds an entry. -/
def entradas (h : Horario) : List Entrada :=
  h.flatMap (fun e => entradasGrupo e.1 e.2)

/-- Number of schedule entries whose professor is `p`. -/
def horasPuestasProfesor (h : Horario) (p : String) : Nat :=
  (entradas h).countP (fun e => decide (e.valor.profesor = p))

/-- Number of schedule entries of group `g` whose subject is `m`. -/
def horasPuestasMateria (h : Horario) (g m : String) : Nat :=
  (entradas h).countP (fun e => decide (e.grupo = g ∧ e.valor.materia = m))

/-- Keys are pairwise different in the day maps of a group. -/
def BienFormadoGrupo (dias : Mapa (Mapa (Mapa Valor))) : Prop :=
  Mapa.SinRepetir dias ∧ ∀ e ∈ dias, Mapa.SinRepetir e.2

/-- Keys are pairwise different at the three outer levels of the schedule. -/
def BienFormado (h : Horario) : Prop :=
  Mapa.SinRepetir h ∧ ∀ e ∈ h, BienFormadoGrupo e.2

/-- The hour counters agree with the schedule: each counter, read as 0 when
its key is missing, is the number of entries it stands for; and the keys of the
schedule are pairwise different at every level. -/
structure Cuentas (st : Estado) : Prop where
  formado : BienFormado st.horario
  profesor : ∀ p, Mapa.obtener st.horas_asignadas_profesor p 0
    = (horasPuestasProfesor st.horario p : Int)
  materia : ∀ g m, horasMateria st.horas_asignadas_materia g m
    = (horasPuestasMateria st.horario g m : Int)

/-- The counter of `(grupo, materia)` exists as a key of the nested map. -/
def TieneContador (hm : Mapa (Mapa Int)) (grupo materia : String) : Prop :=
  ∃ ms, Mapa.buscar hm grupo = some ms ∧ (Mapa.buscar ms materia).isSome = true

/-- The state after `intentarAsignar` was called on each unit of the list in
turn. -/
def colocarUnidades (ordenar : Ordenador) : List AsignacionPendiente → Estado → Estado
  | [], st => st
  | a :: resto, st => colocarUnidades ordenar resto (intentarAsignar ordenar a st).estado

/-- Each of those calls returned `true`. -/
def TodasColocadas (ordenar : Ordenador) : List AsignacionPendiente → Estado → Prop
  | [], _ => True
  | a :: resto, st =>
    (intentarAsignar ordenar a st).salida = Salida.exito ∧
    TodasColocadas ordenar resto (intentarAsignar ordenar a st).estado

/-- A way of placing hours of a pending unit on top of the state `st`: slot
and professor pairs at pairwise different `(day, slot key)`, each slot from the
catalog of the group's shift, each professor from the unit's qualified list,
the group and the professor free there, the professor's preference and
availability met, and the professor's hour budget enough for all the pairs
that use that professor. -/
def PlanFactible (asig : AsignacionPendiente) (st : Estado) (plan : List (Slot × Profesor)) :
    Prop :=
  (plan.map (fun x => (x.1.dia, x.1.getKey))).Nodup ∧
  ∀ x ∈ plan,
    x.1 ∈ getAllSlots asig.grupo.turno ∧
    x.2 ∈ asig.profesores_disponibles ∧
    celda st.horario asig.grupo.nombre x.1.dia x.1.getKey = [] ∧
    ocupadoEn st.profesor_ocupado x.2.nombre x.1.dia x.1.getKey = false ∧
    (x.2.turno_preferido = "Ambos" ∨ x.2.turno_preferido = x.1.turno) ∧
    x.2.estaDisponibleEnSlot x.1.dia x.1.hora_inicio x.1.hora_fin = some true ∧
    Mapa.obtener st.horas_asignadas_profesor x.2.nombre 0
        + (plan.countP (fun y => decide (y.2.nombre = x.2.nombre)) : Int)
      ≤ x.2.horas_disponibles

instance instDecidablePlanFactible (asig : AsignacionPendiente) (st : Estado)
    (plan : List (Slot × Profesor)) : Decidable (PlanFactible asig st plan) := by
  unfold PlanFactible
  infer_instance

/-- The plan without one of its pairs. -/
def quitarPar (plan : List (Slot × Profesor)) (x : Slot × Profesor) : List (Slot × Profesor) :=
  @List.erase (Slot × Profesor) instBEqOfDecidableEq plan x

/-- The state after the pairs of a plan were committed in order. -/
def aplicarPlan (asig : AsignacionPendiente) : Estado → List (Slot × Profesor) → Estado
  | st, [] => st
  | st, x :: xs => aplicarPlan asig (hacerAsignacion st asig.grupo asig.materia x.2 x.1) xs

/-- A complete schedule exists: one feasible plan per pending unit, of as
many pairs as the unit has hours missing, each on top of the plans of the units
before it. -/
def PlanesFactibles : Estado → List AsignacionPendiente → List (List (Slot × Profesor)) → Prop
  | _, [], [] => True
  | st, a :: resto, plan :: planes =>
    PlanFactible a st plan ∧ (plan.length : Int) = horasNecesarias a st ∧
    PlanesFactibles (aplicarPlan a st plan) resto planes
  | _, _, _ => False

/-- Every hour text of the availability map of `p` parses. -/
def DisponibilidadLegible (p : Profesor) : Prop :=
  ∀ e ∈ p.disponibilidad_horaria, ∀ r ∈ e.2,
    (horaDe r.1).isSome = true ∧ (horaDe r.2).isSome = true

instance instDecidableDisponibilidadLegible (p : Profesor) : Decidable (DisponibilidadLegible p) := by
  unfold DisponibilidadLegible
  infer_instance

/-- The neighbour relation is symmetric. -/
def Simetrico (g : GrafoConflictos) : Prop :=
  ∀ a b, b ∈ g.obtenerVecinos a → a ∈ g.obtenerVecinos b

/-- The nodes `construirDesdeDatos` adds: one per subject and group name of
its `grupos_que_cursan`. -/
def nodosDe (materias : List Materia) : List NodoAsignacion :=
  materias.flatMap (fun m =>
    m.grupos_que_cursan.map (fun gn => ⟨gn, m.nombre, m.cuatrimestre⟩))

/-- Consistency of the members of a graph: the keys of `aristas` are the
nodes, without repetition, and every neighbour set is a repetition-free set of
nodes other than the key. -/
structure GrafoCoherente (g : GrafoConflictos) : Prop where
  claves : g.aristas.map Prod.fst = g.nodos
  sinRepetir : g.nodos.Nodup
  vecinosSinRepetir : ∀ a, (g.obtenerVecinos a).Nodup
  vecinosNodos : ∀ a b, b ∈ g.obtenerVecinos a → a ∈ g.nodos ∧ b ∈ g.nodos ∧ a ≠ b

/-- A property of the slot objects of a JSON schedule, by group, day and slot
key. -/
def CadaSlot (Q : String → String → String → Mapa String → Prop) (j : JsonHorario) : Prop :=
  ∀ e ∈ j, ∀ e2 ∈ e.2, ∀ e3 ∈ e2.2, Q e.1 e2.1 e3.1 e3.2

/-- The JSON schedule has the key `g`. -/
def GrupoEn (j : JsonHorario) (g : String) : Prop :=
  (Mapa.buscar j g).isSome = true

/-- The object of group `g` in the JSON schedule has the key `d`. -/
def DiaEn (j : JsonHorario) (g d : String) : Prop :=
  (Mapa.buscar (Mapa.obtener j g []) d).isSome = true

/-- In the words of the specification: the bonus of a start hour. -/
def bonusEspecificado (hora : Int) : Int :=
  if hora < 10 then -3 else if hora > 18 then 3 else 0

/-- In the words of the specification: the number of occupied slot entries of
the group on a day, an entry being occupied when its innermost map is not
empty. -/
def ocupadosEnDia (horario : Horario) (grupo_nombre dia : String) : Nat :=
  ((Mapa.obtener (Mapa.obtener horario grupo_nombre []) dia []).filter
    (fun e => !e.2.isEmpty)).length

/-- In the words of the specification: the score of a slot of day `dia` that
starts at hour `hora`. -/
def puntajeEspecificado (horario : Horario) (grupo : Grupo) (dia : String) (hora : Int) : Int :=
  2 * (ocupadosEnDia horario grupo.nombre dia : Int) + bonusEspecificado hora

/-- Stability of a reordering with respect to the compared value `f`: for each
value, the slots with that value appear in the output in the order they have
in the input. -/
def Estable (f : Slot → Int) (entrada salida : List Slot) : Prop :=
  ∀ v, salida.filter (fun s => decide (f s = v)) = entrada.filter (fun s => decide (f s = v))

/-- A morning group. -/
def ejGrupoA : Grupo := ⟨1, "Matutino", "A"⟩

/-- A second morning group. -/
def ejGrupoB : Grupo := ⟨1, "Matutino", "B"⟩

/-- Monday 07:00-08:00 of the morning catalog. -/
def ejSlotLunes7 : Slot := ⟨"Lunes", "07:00", "08:00", "Matutino"⟩

/-- A subject of one weekly hour taken by group `A`. -/
def ejMateriaUna : Materia := ⟨"Algebra", 1, 1, ["A"]⟩

/-- A professor whose Monday availability lists an unreadable range before a
range that covers the whole morning. -/
def ejProfesorIlegible : Profesor :=
  ⟨"Ana", ["Algebra"], 5, "Matutino", [("Lunes", [("xx", "yy"), ("07:00", "14:00")])]⟩

/-- A professor available on Monday mornings. -/
def ejProfesorLunes : Profesor :=
  ⟨"Ana", ["Algebra"], 5, "Matutino", [("Lunes", [("07:00", "14:00")])]⟩

/-- Scenario S5: the subject both groups take, one hour a week. -/
def ejMateriaCompartida : Materia := ⟨"Algebra", 1, 1, ["A", "B"]⟩

/-- Scenario S5: the only qualified professor, with two hours. -/
def ejProfesorDosHoras : Profesor := ⟨"Ana", ["Algebra"], 2, "Matutino", []⟩

/-- A professor whose `horas_disponibles` is negative. -/
def ejProfesorNegativo : Profesor := ⟨"Ana", ["Algebra"], -1, "Matutino", []⟩

/-- Scenario S6: a professor qualified for both subjects, with twelve hours. -/
def ejProfesorS6 : Profesor := ⟨"Ana", ["Algebra", "Fisica"], 12, "Matutino", []⟩

/-- The result of `resolver` in that scenario, insertion sort in the role of
`std::sort`: failure, with the hour placed for the first subject. -/
def ejResultadoSinProfesor : ResultadoBacktracking :=
  ⟨false, [("A", [("Lunes", [("07:00-08:00", [(":valor", ⟨"Algebra", "Ana"⟩)])])])]⟩

/-- Scenario for exhaustiveness: `Ana` may teach both subjects but has one
hour; `Luis` may teach `"Algebra"` only. -/
def ejProfesoresDosMaterias : List Profesor :=
  [⟨"Ana", ["Algebra", "Fisica"], 1, "Matutino", []⟩, ⟨"Luis", ["Algebra"], 1, "Matutino", []⟩]

/-- A complete schedule of that scenario: `"Algebra"` with `Luis` on Monday
07:00-08:00, `"Fisica"` with `Ana` on Monday 08:00-09:00. -/
def ejPlanes : List (List (Slot × Profesor)) :=
  [[(⟨"Lunes", "07:00", "08:00", "Matutino"⟩, ⟨"Luis", ["Algebra"], 1, "Matutino", []⟩)],
   [(⟨"Lunes", "08:00", "09:00", "Matutino"⟩,
     ⟨"Ana", ["Algebra", "Fisica"], 1, "Matutino", []⟩)]]

/-- The two pending units of that scenario. -/
def ejPendientes : List AsignacionPendiente :=
  [⟨ejGrupoA, ⟨"Algebra", 1, 1, ["A"]⟩, 1, ejProfesoresDosMaterias⟩,
   ⟨ejGrupoA, ⟨"Fisica", 1, 1, ["A"]⟩, 1, [⟨"Ana", ["Algebra", "Fisica"], 1, "Matutino", []⟩]⟩]

/-- The state with four empty maps. -/
def estadoVacio : Estado := ⟨[], [], [], []⟩

/-- The state scenario S5 ends in, with insertion sort in the role of
`std::sort`. -/
def ejEstadoFinalS5 : Estado :=
  (correr ordenarInsercion [ejGrupoA, ejGrupoB] [ejMateriaCompartida]
    [ejProfesorDosHoras]).estado

/-- Scenario for the failure semantics: two subjects of one hour for group
`A`, the second one with no qualified professor. -/
def ejMateriasSinProfesor : List Materia :=
  [⟨"Algebra", 1, 1, ["A"]⟩, ⟨"Fisica", 1, 1, ["A"]⟩]

/-- A professor qualified for `"Algebra"` only. -/
def ejProfesorAlgebra : Profesor := ⟨"Ana", ["Algebra"], 5, "Matutino", []⟩

/-- Scenario S4: a two-hour subject for group `A`. -/
def ejMateriaDosHoras : Materia := ⟨"Algebra", 1, 2, ["A"]⟩

/-- Scenario S4: a professor available on Tuesday from 08:00 to 10:00 only. -/
def ejProfesorMartes : Profesor :=
  ⟨"Ana", ["Algebra"], 10, "Matutino", [("Martes", [("08:00", "10:00")])]⟩

/-- Scenario S4: the result of `resolver`, insertion sort in the role of
`std::sort`. -/
def ejResultadoS4 : ResultadoBacktracking :=
  ⟨true,
    [("A",
      [("Martes",
        [("08:00-09:00", [(":valor", ⟨"Algebra", "Ana"⟩)]),
         ("09:00-10:00", [(":valor", ⟨"Algebra", "Ana"⟩)])])])]⟩

/-- Scenario S1: a professor with 10 hours, preferred shift Matutino, always
available. -/
def ejProfesorDiezHoras : Profesor := ⟨"Ana", ["Algebra"], 10, "Matutino", []⟩

/-- Scenario S1: the pending unit. -/
def ejUnidadS1 : AsignacionPendiente :=
  ⟨ejGrupoA, ejMateriaDosHoras, 2, [ejProfesorDiezHoras]⟩

/-- Scenario S1: the state after `inicializarEstado`. -/
def ejEstadoS1 : Estado := inicializarEstado [ejMateriaDosHoras] [ejProfesorDiezHoras]

/-- Scenario S1: the state after placing the unit at `s`. -/
def ejPonerS1 (st : Estado) (s : Slot) : Estado :=
  hacerAsignacion st ejGrupoA ejMateriaDosHoras ejProfesorDiezHoras s

/-- S1: start hour before 10:00. -/
def antesDeLasDiez (s : Slot) : Bool :=
  match horaDe s.hora_inicio with
  | some a => decide (a < 10)
  | none => false

/-- A professor with a negative number of available hours. -/
def ejProfesorDeuda : Profesor := ⟨"Luis", ["Algebra"], -10, "Matutino", []⟩

/-- Scenario S2: a subject of four hours for group `A`. -/
def ejMateriaCuatroHoras : Materia := ⟨"Algebra", 1, 4, ["A"]⟩

/-- Scenario S2: a professor with three hours. -/
def ejProfesorTresHoras : Profesor := ⟨"Ana", ["Algebra"], 3, "Matutino", []⟩

/-- Scenario S2: the pending unit. -/
def ejUnidadS2 : AsignacionPendiente :=
  ⟨ejGrupoA, ejMateriaCuatroHoras, 4, [ejProfesorTresHoras]⟩

/-- An evening group. -/
def ejGrupoTarde : Grupo := ⟨1, "Vespertino", "T"⟩

/-- A subject of one weekly hour taken by the morning group `A` and the
evening group `T`. -/
def ejMateriaDosTurnos : Materia := ⟨"Algebra", 1, 1, ["A", "T"]⟩

/-- Scenario S3: a subject of one weekly hour taken by the evening group. -/
def ejMateriaTarde : Materia := ⟨"Algebra", 1, 1, ["T"]⟩

/-- Scenario S3: the pending unit. -/
def ejUnidadS3 : AsignacionPendiente := ⟨ejGrupoTarde, ejMateriaTarde, 1, [ejProfesorAlgebra]⟩

/-- Three subjects for the conflict graph: `B` takes two of them. -/
def ejMateriasGrafo : List Materia :=
  [⟨"Fisica", 1, 1, ["B"]⟩, ⟨"Algebra", 1, 1, ["A", "B"]⟩, ⟨"Quimica", 2, 1, ["C"]⟩]

/-- Two professors for the conflict graph: `Luis` teaches two of the subjects. -/
def ejProfesoresGrafo : List Profesor :=
  [⟨"Ana", ["Algebra"], 5, "Matutino", []⟩, ⟨"Luis", ["Quimica", "Fisica"], 5, "Matutino", []⟩]

/-- A professor available on Tuesday from 08:00 to 09:00 only. -/
def ejProfesorUnaFranja : Profesor :=
  ⟨"Ana", ["Algebra"], 10, "Matutino", [("Martes", [("08:00", "09:00")])]⟩

/-- The state `inicializarEstado` builds for one subject and one professor. -/
def ejEstadoUna : Estado := inicializarEstado [ejMateriaUna] [ejProfesorAlgebra]

/-- A state in which group `A` already has a class on Monday at 08:00. -/
def ejEstadoConClase : Estado :=
  hacerAsignacion ejEstadoUna ejGrupoA ejMateriaUna ejProfesorAlgebra
    ⟨"Lunes", "08:00", "09:00", "Matutino"⟩

/-- A slot whose start hour is not a number. -/
def ejSlotIlegible : Slot := ⟨"Lunes", "xx:00", "08:00", "Matutino"⟩

/-- A two-hour unit whose only professor is available for a single slot. -/
def ejUnidadUnaFranja : AsignacionPendiente :=
  ⟨ejGrupoA, ejMateriaDosHoras, 2, [ejProfesorUnaFranja]⟩

/-- The state `inicializarEstado` builds for that unit. -/
def ejEstadoUnaFranja : Estado := inicializarEstado [ejMateriaDosHoras] [ejProfesorUnaFranja]

/-- A subject of 36 weekly hours for group `A`: one more than the slots of a
shift. -/
def ejMateria36 : Materia := ⟨"Algebra", 1, 36, ["A"]⟩

/-- Two subjects for the conflict graph, taken by different groups. -/
def ejMateriasHomonimos : List Materia :=
  [⟨"Algebra", 1, 1, ["A"]⟩, ⟨"Fisica", 1, 1, ["B"]⟩]

/-- Two professors of one name, each teaching one of the two subjects. -/
def ejProfesoresHomonimos : List Profesor :=
  [⟨"Ana", ["Algebra"], 5, "Matutino", []⟩, ⟨"Ana", ["Fisica"], 5, "Matutino", []⟩]

/-! # Properties -/

/-! ## Maps -/

namespace Mapa

theorem buscar_poner_mismo {V : Type} (m : Mapa V) (k : String) (v : V) :
    buscar (poner m k v) k = some v := by
  induction m with
  | nil => simp [poner, buscar]
  | cons e r ih =>
    obtain ⟨c, w⟩ := e
    by_cases h : c = k
    · simp [poner, buscar, h]
    · simp [poner, buscar, h, ih]

theorem buscar_poner_otro {V : Type} (m : Mapa V) (k k2 : String) (v : V) (h : k2 ≠ k) :
    buscar (poner m k v) k2 = buscar m k2 := by
  induction m with
  | nil => simp [poner, buscar, Ne.symm h]
  | cons e r ih =>
    obtain ⟨c, w⟩ := e
    by_cases hc : c = k
    · subst hc
      simp [poner, buscar, Ne.symm h]
    · by_cases hc2 : c = k2
      · subst hc2
        simp [poner, buscar, h]
      · simp [poner, buscar, hc, hc2, ih]

theorem buscar_borrar_mismo {V : Type} (m : Mapa V) (k : String) :
    buscar (borrar m k) k = none := by
  induction m with
  | nil => simp [borrar, buscar]
  | cons e r ih =>
    obtain ⟨c, w⟩ := e
    by_cases h : c = k
    · simpa [borrar, List.filter_cons, h] using ih
    · simpa [borrar, List.filter_cons, h, buscar] using ih

theorem buscar_borrar_otro {V : Type} (m : Mapa V) (k k2 : String) (h : k2 ≠ k) :
    buscar (borrar m k) k2 = buscar m k2 := by
  induction m with
  | nil => simp [borrar, buscar]
  | cons e r ih =>
    obtain ⟨c, w⟩ := e
    by_cases hc : c = k
    · subst hc
      simpa [borrar, List.filter_cons, buscar, Ne.symm h] using ih
    · by_cases hc2 : c = k2
      · subst hc2
        simp [borrar, List.filter_cons, h, buscar]
      · simpa [borrar, List.filter_cons, hc, buscar, hc2] using ih

theorem obtener_poner {V : Type} (m : Mapa V) (k k2 : String) (v dflt : V) :
    obtener (poner m k v) k2 dflt = if k2 = k then v else obtener m k2 dflt := by
  by_cases h : k2 = k
  · subst h
    simp [obtener, buscar_poner_mismo]
  · simp [obtener, buscar_poner_otro m k k2 v h, h]

theorem obtener_borrar {V : Type} (m : Mapa V) (k k2 : String) (dflt : V) :
    obtener (borrar m k) k2 dflt = if k2 = k then dflt else obtener m k2 dflt := by
  by_cases h : k2 = k
  · subst h
    simp [obtener, buscar_borrar_mismo]
  · simp [obtener, buscar_borrar_otro m k k2 h, h]

theorem obtener_modificar {V : Type} (m : Mapa V) (k k2 : String) (dflt : V) (f : V → V) :
    obtener (modificar m k dflt f) k2 dflt
      = if k2 = k then f (obtener m k dflt) else obtener m k2 dflt := by
  simp [modificar, obtener_poner]

theorem obtener_nil {V : Type} (k : String) (dflt : V) :
    obtener ([] : Mapa V) k dflt = dflt := rfl

theorem claves_poner {V : Type} (m : Mapa V) (k : String) (v : V) :
    (poner m k v).map Prod.fst
      = if k ∈ m.map Prod.fst then m.map Prod.fst else m.map Prod.fst ++ [k] := by
  induction m with
  | nil => simp [poner]
  | cons e r ih =>
    obtain ⟨c, w⟩ := e
    by_cases h : c = k
    · subst h
      simp [poner]
    · have h2 : ¬ k = c := fun x => h x.symm
      by_cases hk : k ∈ r.map Prod.fst
      · simp only [poner, h, if_false, List.map_cons, ih, hk, if_true, List.mem_cons, or_true]
      · simp only [poner, h, if_false, List.map_cons, ih, hk, List.mem_cons, h2, or_self,
          List.cons_append]

theorem sinRepetir_poner {V : Type} (m : Mapa V) (k : String) (v : V) (h : SinRepetir m) :
    SinRepetir (poner m k v) := by
  unfold SinRepetir at *
  rw [claves_poner]
  split
  · exact h
  · rename_i hk
    rw [List.nodup_append]
    refine ⟨h, List.nodup_singleton k, ?_⟩
    intro a ha hb
    simp only [List.mem_singleton] at hb
    subst hb
    exact hk ha

theorem sinRepetir_borrar {V : Type} (m : Mapa V) (k : String) (h : SinRepetir m) :
    SinRepetir (borrar m k) := by
  unfold SinRepetir at *
  exact (List.Sublist.map Prod.fst (List.filter_sublist m)).nodup h

theorem sinRepetir_modificar {V : Type} (m : Mapa V) (k : String) (dflt : V) (f : V → V)
    (h : SinRepetir m) : SinRepetir (modificar m k dflt f) :=
  sinRepetir_poner m k _ h

theorem buscar_eq_some_of_mem {V : Type} (m : Mapa V) (k : String) (v : V)
    (h : SinRepetir m) (hm : (k, v) ∈ m) : buscar m k = some v := by
  induction m with
  | nil => simp at hm
  | cons e r ih =>
    obtain ⟨c, w⟩ := e
    unfold SinRepetir at h
    simp only [List.map_cons, List.nodup_cons] at h
    simp only [List.mem_cons, Prod.mk.injEq] at hm
    rcases hm with ⟨h1, h2⟩ | hm
    · subst h1 h2
      simp [buscar]
    · have hne : c ≠ k := by
        intro hc
        subst hc
        exact h.1 (List.mem_map_of_mem Prod.fst hm)
      simp only [buscar, hne, if_false]
      exact ih h.2 hm

theorem mem_of_buscar_eq_some {V : Type} (m : Mapa V) (k : String) (v : V)
    (h : buscar m k = some v) : (k, v) ∈ m := by
  induction m with
  | nil => simp [buscar] at h
  | cons e r ih =>
    obtain ⟨c, w⟩ := e
    by_cases hc : c = k
    · subst hc
      simp only [buscar, if_true, Option.some.injEq] at h
      subst h
      exact List.mem_cons_self _ _
    · simp only [buscar, hc, if_false] at h
      exact List.mem_cons_of_mem _ (ih h)

theorem mem_poner {V : Type} (m : Mapa V) (k : String) (v : V) (e : String × V)
    (h : e ∈ poner m k v) : e = (k, v) ∨ e ∈ m := by
  induction m with
  | nil =>
    simp only [poner, List.mem_singleton] at h
    exact Or.inl h
  | cons a r ih =>
    obtain ⟨c, w⟩ := a
    by_cases hc : c = k
    · subst hc
      simp only [poner, if_true, List.mem_cons] at h
      rcases h with h | h
      · exact Or.inl h
      · exact Or.inr (List.mem_cons_of_mem _ h)
    · simp only [poner, hc, if_false, List.mem_cons] at h
      rcases h with h | h
      · exact Or.inr (h ▸ List.mem_cons_self _ _)
      · rcases ih h with h2 | h2
        · exact Or.inl h2
        · exact Or.inr (List.mem_cons_of_mem _ h2)

theorem mem_borrar {V : Type} (m : Mapa V) (k : String) (e : String × V)
    (h : e ∈ borrar m k) : e ∈ m :=
  List.mem_of_mem_filter h

end Mapa

/-! ## What `hacerAsignacion` and `deshacerAsignacion` change -/

theorem celda_hacer (st : Estado) (g : Grupo) (m : Materia) (p : Profesor) (s : Slot)
    (gn d k : String) :
    celda (hacerAsignacion st g m p s).horario gn d k
      = if gn = g.nombre ∧ d = s.dia ∧ k = s.getKey
        then Mapa.poner (celda st.horario gn d k) ":valor" ⟨m.nombre, p.nombre⟩
        else celda st.horario gn d k := by
  simp only [celda, hacerAsignacion, Mapa.obtener_modificar]
  by_cases h1 : gn = g.nombre
  · by_cases h2 : d = s.dia
    · by_cases h3 : k = s.getKey
      · simp [h1, h2, h3, Mapa.obtener_modificar]
      · simp [h1, h2, h3, Mapa.obtener_modificar]
    · simp [h1, h2, Mapa.obtener_modificar]
  · simp [h1]

theorem obtener_quitarDeDia (slots : Mapa (Mapa Valor)) (key k : String) :
    Mapa.obtener (quitarDeDia slots key) k []
      = if k = key then Mapa.borrar (Mapa.obtener slots key []) ":valor"
        else Mapa.obtener slots k [] := by
  unfold quitarDeDia
  simp only [Mapa.obtener_modificar, if_true]
  by_cases hv : (Mapa.borrar (Mapa.obtener slots key []) ":valor").isEmpty = true
  · simp only [hv, if_true, Mapa.obtener_borrar, Mapa.obtener_modificar]
    by_cases hk : k = key
    · simp only [hk, if_true]
      exact (List.isEmpty_iff.mp hv).symm
    · simp [hk]
  · simp only [hv, Mapa.obtener_modificar]
    simp [Mapa.obtener_modificar]

theorem celda_deshacer (st : Estado) (g : Grupo) (m : Materia) (p : Profesor) (s : Slot)
    (gn d k : String) :
    celda (deshacerAsignacion st g m p s).horario gn d k
      = if gn = g.nombre ∧ d = s.dia ∧ k = s.getKey
        then Mapa.borrar (celda st.horario gn d k) ":valor"
        else celda st.horario gn d k := by
  simp only [celda, deshacerAsignacion, Mapa.obtener_modificar]
  by_cases h1 : gn = g.nombre
  · by_cases h2 : d = s.dia
    · by_cases h3 : k = s.getKey
      · simp [h1, h2, h3, obtener_quitarDeDia, Mapa.obtener_modificar]
      · simp [h1, h2, h3, obtener_quitarDeDia, Mapa.obtener_modificar]
    · simp [h1, h2, Mapa.obtener_modificar]
  · simp [h1]

theorem ocupadoEn_hacer (st : Estado) (g : Grupo) (m : Materia) (p : Profesor) (s : Slot)
    (pn d k : String) :
    ocupadoEn (hacerAsignacion st g m p s).profesor_ocupado pn d k
      = if pn = p.nombre ∧ d = s.dia ∧ k = s.getKey then true
        else ocupadoEn st.profesor_ocupado pn d k := by
  simp only [ocupadoEn, hacerAsignacion, Mapa.obtener_modificar]
  by_cases h1 : pn = p.nombre
  · by_cases h2 : d = s.dia
    · by_cases h3 : k = s.getKey
      · simp [h1, h2, h3, Mapa.obtener_poner, Mapa.obtener_modificar]
      · simp [h1, h2, h3, Mapa.obtener_poner, Mapa.obtener_modificar]
    · simp [h1, h2, Mapa.obtener_modificar]
  · simp [h1]

theorem ocupadoEn_deshacer (st : Estado) (g : Grupo) (m : Materia) (p : Profesor) (s : Slot)
    (pn d k : String) :
    ocupadoEn (deshacerAsignacion st g m p s).profesor_ocupado pn d k
      = if pn = p.nombre ∧ d = s.dia ∧ k = s.getKey then false
        else ocupadoEn st.profesor_ocupado pn d k := by
  simp only [ocupadoEn, deshacerAsignacion, Mapa.obtener_modificar]
  by_cases h1 : pn = p.nombre
  · by_cases h2 : d = s.dia
    · by_cases h3 : k = s.getKey
      · simp [h1, h2, h3, Mapa.obtener_borrar, Mapa.obtener_modificar]
      · simp [h1, h2, h3, Mapa.obtener_borrar, Mapa.obtener_modificar]
    · simp [h1, h2, Mapa.obtener_modificar]
  · simp [h1]

theorem horasProfesor_hacer (st : Estado) (g : Grupo) (m : Materia) (p : Profesor) (s : Slot)
    (pn : String) :
    Mapa.obtener (hacerAsignacion st g m p s).horas_asignadas_profesor pn 0
      = if pn = p.nombre then Mapa.obtener st.horas_asignadas_profesor pn 0 + 1
        else Mapa.obtener st.horas_asignadas_profesor pn 0 := by
  simp only [hacerAsignacion, Mapa.obtener_modificar]
  by_cases h1 : pn = p.nombre <;> simp [h1]

theorem horasProfesor_deshacer (st : Estado) (g : Grupo) (m : Materia) (p : Profesor)
    (s : Slot) (pn : String) :
    Mapa.obtener (deshacerAsignacion st g m p s).horas_asignadas_profesor pn 0
      = if pn = p.nombre then Mapa.obtener st.horas_asignadas_profesor pn 0 - 1
        else Mapa.obtener st.horas_asignadas_profesor pn 0 := by
  simp only [deshacerAsignacion, Mapa.obtener_modificar]
  by_cases h1 : pn = p.nombre <;> simp [h1]

theorem horasMateria_hacer (st : Estado) (g : Grupo) (m : Materia) (p : Profesor) (s : Slot)
    (gn mn : String) :
    horasMateria (hacerAsignacion st g m p s).horas_asignadas_materia gn mn
      = if gn = g.nombre ∧ mn = m.nombre then horasMateria st.horas_asignadas_materia gn mn + 1
        else horasMateria st.horas_asignadas_materia gn mn := by
  simp only [horasMateria, hacerAsignacion, Mapa.obtener_modificar]
  by_cases h1 : gn = g.nombre
  · by_cases h2 : mn = m.nombre <;> simp [h1, h2, Mapa.obtener_modificar]
  · simp [h1]

theorem horasMateria_deshacer (st : Estado) (g : Grupo) (m : Materia) (p : Profesor)
    (s : Slot) (gn mn : String) :
    horasMateria (deshacerAsignacion st g m p s).horas_asignadas_materia gn mn
      = if gn = g.nombre ∧ mn = m.nombre then horasMateria st.horas_asignadas_materia gn mn - 1
        else horasMateria st.horas_asignadas_materia gn mn := by
  simp only [horasMateria, deshacerAsignacion, Mapa.obtener_modificar]
  by_cases h1 : gn = g.nombre
  · by_cases h2 : mn = m.nombre <;> simp [h1, h2, Mapa.obtener_modificar]
  · simp [h1]

/-! ## States with the same content -/

theorem MismoContenido.refl (a : Estado) : MismoContenido a a :=
  ⟨fun _ _ _ => rfl, fun _ _ _ => rfl, fun _ => rfl, fun _ _ => rfl⟩

theorem MismoContenido.symm {a b : Estado} (h : MismoContenido a b) : MismoContenido b a :=
  ⟨fun g d k => (h.hCelda g d k).symm, fun p d k => (h.hOcupado p d k).symm,
    fun p => (h.hProfesor p).symm, fun g m => (h.hMateria g m).symm⟩

theorem MismoContenido.trans {a b c : Estado} (h1 : MismoContenido a b)
    (h2 : MismoContenido b c) : MismoContenido a c :=
  ⟨fun g d k => (h1.hCelda g d k).trans (h2.hCelda g d k),
    fun p d k => (h1.hOcupado p d k).trans (h2.hOcupado p d k),
    fun p => (h1.hProfesor p).trans (h2.hProfesor p),
    fun g m => (h1.hMateria g m).trans (h2.hMateria g m)⟩

theorem MismoContenido.horasNecesarias {a b : Estado} (h : MismoContenido a b)
    (asig : AsignacionPendiente) : horasNecesarias asig a = horasNecesarias asig b := by
  simp only [Horarios.horasNecesarias, h.hMateria]

/-- The facts a positive verdict of the validator carries. -/
theorem validar_ok {horario : Horario} {g : Grupo} {m : Materia} {p : Profesor} {s : Slot}
    {po : Ocupacion} {hp : Mapa Int} {razon : String}
    (h : validarRestriccionesDuras horario g m p s po hp = some (true, razon)) :
    s.turno = g.turno ∧ celda horario g.nombre s.dia s.getKey = [] ∧
    ocupadoEn po p.nombre s.dia s.getKey = false ∧
    Mapa.obtener hp p.nombre 0 < p.horas_disponibles ∧
    (p.turno_preferido = "Ambos" ∨ p.turno_preferido = s.turno) ∧
    p.estaDisponibleEnSlot s.dia s.hora_inicio s.hora_fin = some true := by
  unfold validarRestriccionesDuras at h
  split at h
  · simp at h
  · rename_i h1
    split at h
    · simp at h
    · rename_i h2
      split at h
      · simp at h
      · rename_i h3
        split at h
        · simp at h
        · rename_i h4
          split at h
          · simp at h
          · rename_i h5
            split at h
            · simp at h
            · simp at h
            · rename_i h6
              refine ⟨by simpa using h1, ?_, by simpa using h3, by simpa using h4, ?_, h6⟩
              · simpa [List.isEmpty_iff] using h2
              · by_cases hA : p.turno_preferido = "Ambos"
                · exact Or.inl hA
                · right
                  by_contra hB
                  exact h5 ⟨hA, hB⟩

/-- Undoing a placement on a state with the content of the state right after
it gives back the content from before the placement. -/
theorem deshacer_tras_hacer {st x : Estado} {g : Grupo} {m : Materia} {p : Profesor} {s : Slot}
    (hc : celda st.horario g.nombre s.dia s.getKey = [])
    (ho : ocupadoEn st.profesor_ocupado p.nombre s.dia s.getKey = false)
    (hx : MismoContenido x (hacerAsignacion st g m p s)) :
    MismoContenido (deshacerAsignacion x g m p s) st := by
  constructor
  · intro gn d k
    rw [celda_deshacer, hx.hCelda, celda_hacer]
    by_cases h : gn = g.nombre ∧ d = s.dia ∧ k = s.getKey
    · obtain ⟨h1, h2, h3⟩ := h
      subst h1 h2 h3
      simp [hc, Mapa.poner, Mapa.borrar]
    · simp [h]
  · intro pn d k
    rw [ocupadoEn_deshacer, hx.hOcupado, ocupadoEn_hacer]
    by_cases h : pn = p.nombre ∧ d = s.dia ∧ k = s.getKey
    · obtain ⟨h1, h2, h3⟩ := h
      subst h1 h2 h3
      simp [ho]
    · simp [h]
  · intro pn
    rw [horasProfesor_deshacer, hx.hProfesor, horasProfesor_hacer]
    by_cases h : pn = p.nombre <;> simp [h]
  · intro gn mn
    rw [horasMateria_deshacer, hx.hMateria, horasMateria_hacer]
    by_cases h : gn = g.nombre ∧ mn = m.nombre <;> simp [h]

theorem cadena_append {a b c : Estado} {t1 t2 : List Paso} (h1 : Cadena a t1 b)
    (h2 : Cadena b t2 c) : Cadena a (t1 ++ t2) c := by
  induction t1 generalizing a with
  | nil =>
    simp only [Cadena] at h1
    subst h1
    simpa using h2
  | cons p ps ih =>
    simp only [Cadena] at h1
    exact ⟨h1.1, ih h1.2⟩

/-! ## The loops of `intentarAsignar` -/

theorem horasNecesarias_hacer (asig : AsignacionPendiente) (st : Estado) (p : Profesor)
    (s : Slot) :
    horasNecesarias asig (hacerAsignacion st asig.grupo asig.materia p s)
      = horasNecesarias asig st - 1 := by
  simp only [horasNecesarias, horasMateria_hacer, and_self, if_true]
  omega

theorem bucleProfesores_buena (ordenar : Ordenador) (rec : Estado → Corrida)
    (asig : AsignacionPendiente) (slot : Slot) (N : Int) (hpos : 0 < N)
    (hslot : ∃ h l, seleccionarMejorSlot ordenar (getAllSlots asig.grupo.turno) h
        asig.grupo = some l ∧ slot ∈ l)
    (hrec : ∀ st2, 0 < horasNecesarias asig st2 → horasNecesarias asig st2 = N - 1 →
      CorridaBuena (PasoLegal ordenar asig) st2 (rec st2))
    (profs : List Profesor) (hsub : ∀ p ∈ profs, p ∈ asig.profesores_disponibles)
    (st : Estado) (hN : horasNecesarias asig st = N) :
    CorridaBuena (PasoLegal ordenar asig) st (bucleProfesores rec asig slot profs st) := by
  induction profs generalizing st with
  | nil =>
    exact ⟨rfl, by simp [bucleProfesores], by simp [bucleProfesores],
      fun _ => MismoContenido.refl st⟩
  | cons p ps ih =>
    have hps : ∀ q ∈ ps, q ∈ asig.profesores_disponibles :=
      fun q hq => hsub q (List.mem_cons_of_mem _ hq)
    have hp : p ∈ asig.profesores_disponibles := hsub p (List.mem_cons_self _ _)
    rw [bucleProfesores]
    cases hv : validarRestriccionesDuras st.horario asig.grupo asig.materia p slot
        st.profesor_ocupado st.horas_asignadas_profesor with
    | none =>
      exact ⟨rfl, by simp, by simp, by simp⟩
    | some res =>
      obtain ⟨b, razon⟩ := res
      cases b with
      | false => exact ih hps st hN
      | true =>
        have hok := validar_ok hv
        have hlegal : PasoLegal ordenar asig
            ⟨Operacion.hacer, st, asig.grupo, asig.materia, p, slot⟩ :=
          ⟨rfl, rfl, hp, ⟨razon, hv⟩, by rw [hN]; exact hpos, hslot⟩
        simp only []
        by_cases hq : horasMateria
            (hacerAsignacion st asig.grupo asig.materia p slot).horas_asignadas_materia
            asig.grupo.nombre asig.materia.nombre ≥ asig.materia.horas_semana
        · rw [if_pos hq]
          refine ⟨⟨rfl, rfl⟩, ?_, by simp, by simp⟩
          intro paso hpaso
          simp only [List.mem_singleton] at hpaso
          subst hpaso
          exact hlegal
        · rw [if_neg hq]
          have hN1 : horasNecesarias asig (hacerAsignacion st asig.grupo asig.materia p slot)
              = N - 1 := by rw [horasNecesarias_hacer, hN]
          have hpos1 : 0 < horasNecesarias asig
              (hacerAsignacion st asig.grupo asig.materia p slot) := by
            simp only [horasNecesarias]
            omega
          have hr := hrec _ hpos1 hN1
          cases hs : (rec (hacerAsignacion st asig.grupo asig.materia p slot)).salida with
          | fallo =>
            simp only []
            have hat := hr.atomica hs
            have hst2 := deshacer_tras_hacer hok.2.1 hok.2.2.1 hat
            have hN2 := (hst2.horasNecesarias asig).trans hN
            have h2 := ih hps _ hN2
            refine ⟨⟨rfl, cadena_append hr.cadena ⟨rfl, h2.cadena⟩⟩, ?_, h2.conCombustible,
              fun hf => (h2.atomica hf).trans hst2⟩
            intro paso hpaso
            dsimp only at hpaso
            simp only [List.mem_cons, List.mem_append] at hpaso
            rcases hpaso with (h | h) | h | h
            · subst h
              exact hlegal
            · exact hr.legales paso h
            · subst h
              refine ⟨rfl, rfl, hp, ?_, ?_⟩
              · show celda _ _ _ _ = _
                rw [hat.hCelda, celda_hacer]
                simp [hok.2.1, Mapa.poner]
              · show ocupadoEn _ _ _ _ = _
                rw [hat.hOcupado, ocupadoEn_hacer]
                simp
            · exact h2.legales paso h
          | exito =>
            simp only []
            refine ⟨⟨rfl, hr.cadena⟩, ?_, by simp, by simp⟩
            intro paso hpaso
            dsimp only at hpaso
            simp only [List.mem_cons] at hpaso
            rcases hpaso with h | h
            · subst h
              exact hlegal
            · exact hr.legales paso h
          | excepcion =>
            simp only []
            refine ⟨⟨rfl, hr.cadena⟩, ?_, by simp, by simp⟩
            intro paso hpaso
            dsimp only at hpaso
            simp only [List.mem_cons] at hpaso
            rcases hpaso with h | h
            · subst h
              exact hlegal
            · exact hr.legales paso h
          | sinCombustible => exact absurd hs hr.conCombustible

theorem bucleSlots_buena (ordenar : Ordenador) (rec : Estado → Corrida)
    (asig : AsignacionPendiente) (N : Int) (hpos : 0 < N)
    (hrec : ∀ st2, 0 < horasNecesarias asig st2 → horasNecesarias asig st2 = N - 1 →
      CorridaBuena (PasoLegal ordenar asig) st2 (rec st2))
    (slots : List Slot)
    (hslots : ∀ s ∈ slots, ∃ h l, seleccionarMejorSlot ordenar (getAllSlots asig.grupo.turno) h
        asig.grupo = some l ∧ s ∈ l)
    (st : Estado) (hN : horasNecesarias asig st = N) :
    CorridaBuena (PasoLegal ordenar asig) st (bucleSlots rec asig slots st) := by
  induction slots generalizing st with
  | nil =>
    exact ⟨rfl, by simp [bucleSlots], by simp [bucleSlots], fun _ => MismoContenido.refl st⟩
  | cons s ss ih =>
    have hss : ∀ x ∈ ss, ∃ h l, seleccionarMejorSlot ordenar (getAllSlots asig.grupo.turno) h
        asig.grupo = some l ∧ x ∈ l := fun x hx => hslots x (List.mem_cons_of_mem _ hx)
    have h1 := bucleProfesores_buena ordenar rec asig s N hpos
      (hslots s (List.mem_cons_self _ _)) hrec asig.profesores_disponibles (fun _ hp => hp) st hN
    rw [bucleSlots]
    cases hs : (bucleProfesores rec asig s asig.profesores_disponibles st).salida with
    | fallo =>
      simp only []
      have hat := h1.atomica hs
      have h2 := ih hss _ ((hat.horasNecesarias asig).trans hN)
      refine ⟨cadena_append h1.cadena h2.cadena, ?_, h2.conCombustible,
        fun hf => (h2.atomica hf).trans hat⟩
      intro paso hpaso
      dsimp only at hpaso
      rcases List.mem_append.mp hpaso with h | h
      · exact h1.legales paso h
      · exact h2.legales paso h
    | exito => simpa only [] using h1
    | excepcion => simpa only [] using h1
    | sinCombustible => exact absurd hs h1.conCombustible

theorem intentarAsignarAux_buena (ordenar : Ordenador) (asig : AsignacionPendiente) (n : Nat)
    (st : Estado) (hn : horasNecesarias asig st ≤ n) :
    CorridaBuena (PasoLegal ordenar asig) st (intentarAsignarAux ordenar asig n st) := by
  induction n generalizing st with
  | zero =>
    rw [intentarAsignarAux]
    have h0 : horasNecesarias asig st ≤ 0 := by simpa using hn
    rw [if_pos h0]
    exact ⟨rfl, by simp, by simp, by simp⟩
  | succ n ih =>
    rw [intentarAsignarAux]
    by_cases h0 : horasNecesarias asig st ≤ 0
    · rw [if_pos h0]
      exact ⟨rfl, by simp, by simp, by simp⟩
    · rw [if_neg h0]
      cases hsel : seleccionarMejorSlot ordenar (getAllSlots asig.grupo.turno) st.horario
          asig.grupo with
      | none => exact ⟨rfl, by simp, by simp, by simp⟩
      | some l =>
        simp only []
        refine bucleSlots_buena ordenar _ asig (horasNecesarias asig st) (by omega) ?_ l ?_ st rfl
        · intro st2 _ h2
          apply ih
          push_cast at hn
          omega
        · intro s hs
          exact ⟨st.horario, l, hsel, hs⟩

theorem intentarAsignar_buena (ordenar : Ordenador) (asig : AsignacionPendiente) (st : Estado) :
    CorridaBuena (PasoLegal ordenar asig) st (intentarAsignar ordenar asig st) := by
  unfold intentarAsignar
  apply intentarAsignarAux_buena
  omega

/-- A run of `backtrackRecursivo`: its mutations form a chain, each is legal
for one of the pending units, and the recursion bound is never reached. -/
theorem backtrackRecursivo_buena (ordenar : Ordenador) (materias : List Materia)
    (pend : List AsignacionPendiente) (st : Estado) :
    Cadena st (backtrackRecursivo ordenar materias pend st).traza
        (backtrackRecursivo ordenar materias pend st).estado ∧
    (∀ paso ∈ (backtrackRecursivo ordenar materias pend st).traza,
      ∃ asig ∈ pend, PasoLegal ordenar asig paso) ∧
    (backtrackRecursivo ordenar materias pend st).salida ≠ Salida.sinCombustible := by
  induction pend generalizing st with
  | nil =>
    rw [backtrackRecursivo]
    refine ⟨rfl, by simp, ?_⟩
    dsimp only
    split <;> simp
  | cons a as ih =>
    have h1 := intentarAsignar_buena ordenar a st
    rw [backtrackRecursivo]
    cases hs : (intentarAsignar ordenar a st).salida with
    | exito =>
      simp only []
      obtain ⟨c2, l2, n2⟩ := ih (intentarAsignar ordenar a st).estado
      refine ⟨cadena_append h1.cadena c2, ?_, n2⟩
      intro paso hpaso
      rcases List.mem_append.mp hpaso with h | h
      · exact ⟨a, List.mem_cons_self _ _, h1.legales paso h⟩
      · obtain ⟨b, hb, hl⟩ := l2 paso h
        exact ⟨b, List.mem_cons_of_mem _ hb, hl⟩
    | fallo =>
      simp only []
      exact ⟨h1.cadena, fun paso h => ⟨a, List.mem_cons_self _ _, h1.legales paso h⟩,
        by simp [hs]⟩
    | excepcion =>
      simp only []
      exact ⟨h1.cadena, fun paso h => ⟨a, List.mem_cons_self _ _, h1.legales paso h⟩,
        by simp [hs]⟩
    | sinCombustible => exact absurd hs h1.conCombustible

/-! ## The validator -/

theorem cubreAlguno_legible (rangos : List (String × String)) (a b : Int)
    (h : ∀ r ∈ rangos, (horaDe r.1).isSome = true ∧ (horaDe r.2).isSome = true) :
    (cubreAlguno rangos a b = some true ∨ cubreAlguno rangos a b = some false) ∧
    (cubreAlguno rangos a b = some true ↔
      ∃ r ∈ rangos, ∃ x y, horaDe r.1 = some x ∧ horaDe r.2 = some y ∧ x ≤ a ∧ b ≤ y) := by
  induction rangos with
  | nil => simp [cubreAlguno]
  | cons r rs ih =>
    obtain ⟨ini, fin⟩ := r
    have hr := h (ini, fin) (List.mem_cons_self _ _)
    have ih2 := ih (fun r hr => h r (List.mem_cons_of_mem _ hr))
    obtain ⟨x, hx⟩ := Option.isSome_iff_exists.mp hr.1
    obtain ⟨y, hy⟩ := Option.isSome_iff_exists.mp hr.2
    simp only at hx hy
    by_cases hc : x ≤ a ∧ b ≤ y
    · have e : cubreAlguno ((ini, fin) :: rs) a b = some true := by
        simp [cubreAlguno, hx, hy, hc]
      refine ⟨Or.inl e, fun _ => ?_, fun _ => e⟩
      exact ⟨(ini, fin), List.mem_cons_self _ _, x, y, hx, hy, hc.1, hc.2⟩
    · have e : cubreAlguno ((ini, fin) :: rs) a b = cubreAlguno rs a b := by
        simp only [cubreAlguno, hx, hy, if_neg hc]
      rw [e]
      refine ⟨ih2.1, ?_⟩
      rw [ih2.2]
      constructor
      · rintro ⟨r, hr, rest⟩
        exact ⟨r, List.mem_cons_of_mem _ hr, rest⟩
      · rintro ⟨r, hr, x2, y2, hx2, hy2, hle⟩
        rcases List.mem_cons.mp hr with h1 | h1
        · subst h1
          simp only at hx2 hy2
          rw [hx] at hx2
          rw [hy] at hy2
          simp only [Option.some.injEq] at hx2 hy2
          subst hx2 hy2
          exact absurd hle hc
        · exact ⟨r, h1, x2, y2, hx2, hy2, hle⟩

theorem estaDisponible_legible (p : Profesor) (s : Slot) (hl : HorasLegibles p s) :
    p.estaDisponibleEnSlot s.dia s.hora_inicio s.hora_fin = some true ↔
      (p.disponibilidad_horaria = [] ∨
        ∃ rangos, Mapa.buscar p.disponibilidad_horaria s.dia = some rangos ∧
          ∃ r ∈ rangos, CubreRango r s) := by
  obtain ⟨a, ha⟩ := Option.isSome_iff_exists.mp hl.1
  obtain ⟨b, hb⟩ := Option.isSome_iff_exists.mp hl.2.1
  unfold Profesor.estaDisponibleEnSlot
  by_cases he : p.disponibilidad_horaria = []
  · simp [he]
  · have he2 : p.disponibilidad_horaria.isEmpty = false := by
      simpa [List.isEmpty_iff] using he
    simp only [he2, Bool.false_eq_true, if_false, he, false_or]
    cases hb2 : Mapa.buscar p.disponibilidad_horaria s.dia with
    | none => simp
    | some rangos =>
      have hc := cubreAlguno_legible rangos a b (hl.2.2 rangos hb2)
      simp only [ha, hb, hc.2, Option.some.injEq, exists_eq_left']
      constructor
      · rintro ⟨r, hr, x, y, hx, hy, h1, h2⟩
        exact ⟨r, hr, x, y, a, b, hx, hy, ha, hb, h1, h2⟩
      · rintro ⟨r, hr, x, y, a2, b2, hx, hy, ha2, hb2, h1, h2⟩
        rw [ha] at ha2
        rw [hb] at hb2
        simp only [Option.some.injEq] at ha2 hb2
        subst ha2 hb2
        exact ⟨r, hr, x, y, hx, hy, h1, h2⟩

theorem estaDisponible_legible_total (p : Profesor) (s : Slot) (hl : HorasLegibles p s) :
    p.estaDisponibleEnSlot s.dia s.hora_inicio s.hora_fin ≠ none := by
  obtain ⟨a, ha⟩ := Option.isSome_iff_exists.mp hl.1
  obtain ⟨b, hb⟩ := Option.isSome_iff_exists.mp hl.2.1
  unfold Profesor.estaDisponibleEnSlot
  split
  · simp
  · cases hb2 : Mapa.buscar p.disponibilidad_horaria s.dia with
    | none => simp
    | some rangos =>
      have hc := (cubreAlguno_legible rangos a b (hl.2.2 rangos hb2)).1
      simp only [ha, hb]
      rcases hc with h | h <;> simp [h]

/-! ## Invariants along a run -/

/-- A property kept by every legal mutation holds before and after each
mutation of a chain, and in the state the chain ends in. -/
theorem cadena_invariante (Inv : Estado → Prop) (legal : Paso → Prop)
    (hpaso : ∀ paso, legal paso → Inv paso.antes → Inv paso.despues)
    (t : List Paso) (st fin : Estado) (hc : Cadena st t fin) (hl : ∀ paso ∈ t, legal paso)
    (h0 : Inv st) : (∀ paso ∈ t, Inv paso.antes ∧ Inv paso.despues) ∧ Inv fin := by
  induction t generalizing st with
  | nil =>
    simp only [Cadena] at hc
    subst hc
    exact ⟨by simp, h0⟩
  | cons p ps ih =>
    simp only [Cadena] at hc
    obtain ⟨h1, h2⟩ := hc
    have ha : Inv p.antes := h1 ▸ h0
    have hd : Inv p.despues := hpaso p (hl p (List.mem_cons_self _ _)) ha
    obtain ⟨r1, r2⟩ := ih p.despues h2 (fun q hq => hl q (List.mem_cons_of_mem _ hq)) hd
    refine ⟨?_, r2⟩
    intro q hq
    rcases List.mem_cons.mp hq with h | h
    · subst h
      exact ⟨ha, hd⟩
    · exact r1 q h

/-- A mutation is legal for the instance when it is legal for one of its
pending units. -/
theorem correr_legal (ordenar : Ordenador) (grupos : List Grupo) (materias : List Materia)
    (profesores : List Profesor) :
    Cadena (inicializarEstado materias profesores)
        (correr ordenar grupos materias profesores).traza
        (correr ordenar grupos materias profesores).estado ∧
    (∀ paso ∈ (correr ordenar grupos materias profesores).traza,
      ∃ asig ∈ construirAsignacionesPendientes grupos materias profesores,
        PasoLegal ordenar asig paso) ∧
    (correr ordenar grupos materias profesores).salida ≠ Salida.sinCombustible :=
  backtrackRecursivo_buena ordenar materias _ _

/-- A property that holds of the initial state and is kept by every legal
mutation holds in every state of the run. -/
theorem alcanzados_invariante (ordenar : Ordenador) (grupos : List Grupo)
    (materias : List Materia) (profesores : List Profesor) (Inv : Estado → Prop)
    (h0 : Inv (inicializarEstado materias profesores))
    (hpaso : ∀ paso,
      (∃ asig ∈ construirAsignacionesPendientes grupos materias profesores,
        PasoLegal ordenar asig paso) → Inv paso.antes → Inv paso.despues) :
    (∀ st ∈ estadosAlcanzados ordenar grupos materias profesores, Inv st) ∧
    (∀ paso ∈ (correr ordenar grupos materias profesores).traza, Inv paso.antes) ∧
    Inv (correr ordenar grupos materias profesores).estado := by
  obtain ⟨hc, hl, _⟩ := correr_legal ordenar grupos materias profesores
  obtain ⟨h1, h2⟩ := cadena_invariante Inv _ hpaso _ _ _ hc hl h0
  refine ⟨?_, fun paso hp => (h1 paso hp).1, h2⟩
  intro st hst
  simp only [estadosAlcanzados, List.mem_cons, List.mem_map] at hst
  rcases hst with h | ⟨paso, hp, h⟩
  · exact h ▸ h0
  · exact h ▸ (h1 paso hp).2

theorem buscarGrupo_nombre {grupos : List Grupo} {gn : String} {g : Grupo}
    (h : buscarGrupo grupos gn = some g) : g.nombre = gn := by
  have := List.find?_some h
  simpa using this

/-- What `construirAsignacionesPendientes` guarantees of each pending unit. -/
theorem pendiente_datos {grupos : List Grupo} {materias : List Materia}
    {profesores : List Profesor} {asig : AsignacionPendiente}
    (h : asig ∈ construirAsignacionesPendientes grupos materias profesores) :
    asig.materia ∈ materias ∧
    buscarGrupo grupos asig.grupo.nombre = some asig.grupo ∧
    asig.grupo.nombre ∈ asig.materia.grupos_que_cursan ∧
    asig.horas_restantes = asig.materia.horas_semana ∧
    asig.profesores_disponibles
      = profesores.filter (fun p => p.puedeImpartir asig.materia.nombre) := by
  simp only [construirAsignacionesPendientes, List.mem_flatMap, List.mem_filterMap,
    Option.map_eq_some'] at h
  obtain ⟨m, hm, gn, hgn, g, hg, rfl⟩ := h
  have hn := buscarGrupo_nombre hg
  refine ⟨hm, ?_, ?_, rfl, rfl⟩
  · simp only [hn]
    exact hg
  · simp only [hn]
    exact hgn

theorem valorEn_hacer (st : Estado) (g : Grupo) (m : Materia) (p : Profesor) (s : Slot)
    (gn d k : String) :
    valorEn (hacerAsignacion st g m p s).horario gn d k
      = if gn = g.nombre ∧ d = s.dia ∧ k = s.getKey then some ⟨m.nombre, p.nombre⟩
        else valorEn st.horario gn d k := by
  simp only [valorEn, celda_hacer]
  split
  · exact Mapa.buscar_poner_mismo _ _ _
  · rfl

theorem valorEn_deshacer (st : Estado) (g : Grupo) (m : Materia) (p : Profesor) (s : Slot)
    (gn d k : String) :
    valorEn (deshacerAsignacion st g m p s).horario gn d k
      = if gn = g.nombre ∧ d = s.dia ∧ k = s.getKey then none
        else valorEn st.horario gn d k := by
  simp only [valorEn, celda_deshacer]
  split
  · exact Mapa.buscar_borrar_mismo _ _
  · rfl

theorem valorEn_inicial (materias : List Materia) (profesores : List Profesor)
    (g d k : String) : valorEn (inicializarEstado materias profesores).horario g d k = none :=
  rfl

/-- What `resolver` returns, in terms of the run. -/
theorem resolver_eq_some (ordenar : Ordenador) (grupos : List Grupo) (materias : List Materia)
    (profesores : List Profesor) (r : ResultadoBacktracking)
    (h : resolver ordenar grupos materias profesores = some r) :
    r.horario = (correr ordenar grupos materias profesores).estado.horario ∧
    ((r.exito = true ∧ (correr ordenar grupos materias profesores).salida = Salida.exito) ∨
     (r.exito = false ∧ (correr ordenar grupos materias profesores).salida = Salida.fallo)) := by
  unfold resolver at h
  cases hs : (correr ordenar grupos materias profesores).salida <;>
    simp only [hs] at h
  · have e := Option.some.inj h
    subst e
    exact ⟨rfl, Or.inl ⟨rfl, rfl⟩⟩
  · have e := Option.some.inj h
    subst e
    exact ⟨rfl, Or.inr ⟨rfl, rfl⟩⟩
  · exact Option.noConfusion h
  · exact Option.noConfusion h

/-! ## Sorting -/

theorem ordenarInsercion_valido : OrdenadorValido ordenarInsercion := by
  constructor
  · intro lt l
    exact List.perm_insertionSort _ l
  · intro f l
    have key : ∀ a b : Slot, (decide (f b < f a) = false) ↔ f a ≤ f b := by
      intro a b
      simp
    haveI : IsTotal Slot (fun a b => decide (f b < f a) = false) :=
      ⟨fun a b => by
        simp only [key]
        exact le_total (f a) (f b)⟩
    haveI : IsTrans Slot (fun a b => decide (f b < f a) = false) :=
      ⟨fun a b c hab hbc => by
        simp only [key] at hab hbc ⊢
        exact le_trans hab hbc⟩
    have hs := List.sorted_insertionSort (fun a b : Slot => decide (f b < f a) = false) l
    exact List.Pairwise.imp (fun {a b} h => (key a b).mp h) hs

theorem seleccionar_mem {ordenar : Ordenador} (hord : OrdenadorValido ordenar)
    {slots l : List Slot} {h : Horario} {g : Grupo}
    (hsel : seleccionarMejorSlot ordenar slots h g = some l) (s : Slot) :
    s ∈ l ↔ s ∈ slots := by
  unfold seleccionarMejorSlot at hsel
  split at hsel
  · rw [← Option.some.inj hsel]
  · split at hsel
    · rw [← Option.some.inj hsel]
      exact (hord.perm _ _).mem_iff
    · exact Option.noConfusion hsel

/-! ## Properties of the placed entries -/

/-- A property of entries that every `hacerAsignacion` of the run gives to
the entry it writes holds of every entry of every state of the run, and of the
state the run ends in. -/
theorem entradas_invariante (ordenar : Ordenador) (grupos : List Grupo)
    (materias : List Materia) (profesores : List Profesor)
    (Q : String → String → String → Valor → Prop)
    (hQ : ∀ asig ∈ construirAsignacionesPendientes grupos materias profesores,
      ∀ paso, PasoLegal ordenar asig paso → paso.op = Operacion.hacer →
        Q paso.grupo.nombre paso.slot.dia paso.slot.getKey
          ⟨paso.materia.nombre, paso.profesor.nombre⟩) :
    (∀ st ∈ estadosAlcanzados ordenar grupos materias profesores,
      ∀ gn d k v, valorEn st.horario gn d k = some v → Q gn d k v) ∧
    (∀ gn d k v, valorEn (correr ordenar grupos materias profesores).estado.horario gn d k
      = some v → Q gn d k v) := by
  have h := alcanzados_invariante ordenar grupos materias profesores
    (fun st => ∀ gn d k v, valorEn st.horario gn d k = some v → Q gn d k v)
    (fun gn d k v hv => by
      rw [valorEn_inicial] at hv
      exact Option.noConfusion hv)
    (by
      rintro ⟨op, antes, g, m, p, s⟩ ⟨asig, hasig, hl⟩ hinv gn d k v hv
      cases op with
      | hacer =>
        have hq := hQ asig hasig _ hl rfl
        simp only [Paso.despues] at hv
        rw [valorEn_hacer] at hv
        by_cases hm : gn = g.nombre ∧ d = s.dia ∧ k = s.getKey
        · rw [if_pos hm] at hv
          obtain ⟨e1, e2, e3⟩ := hm
          subst e1 e2 e3
          rw [← Option.some.inj hv]
          exact hq
        · rw [if_neg hm] at hv
          exact hinv gn d k v hv
      | deshacer =>
        simp only [Paso.despues] at hv
        rw [valorEn_deshacer] at hv
        by_cases hm : gn = g.nombre ∧ d = s.dia ∧ k = s.getKey
        · rw [if_pos hm] at hv
          exact Option.noConfusion hv
        · rw [if_neg hm] at hv
          exact hinv gn d k v hv)
  exact ⟨h.1, h.2.2⟩

theorem getAllSlots_clave (t : String) (s : Slot) (hs : s ∈ getAllSlots t) :
    s.getKey ∈ clavesDe (if t = "Matutino" then SLOTS_MATUTINO else SLOTS_VESPERTINO) := by
  simp only [getAllSlots, List.mem_flatMap, List.mem_map] at hs
  obtain ⟨dia, _, h, hh, rfl⟩ := hs
  simp only [clavesDe, List.mem_map]
  exact ⟨h, hh, rfl⟩

/-! ## Hour counters of the professors -/

theorem horasProfesor_inicial_aux (profesores : List Profesor) (acc : Mapa Int)
    (hacc : ∀ k, Mapa.obtener acc k 0 = 0) (k : String) :
    Mapa.obtener (profesores.foldl (fun hp p => Mapa.poner hp p.nombre 0) acc) k 0 = 0 := by
  induction profesores generalizing acc with
  | nil => exact hacc k
  | cons p ps ih =>
    simp only [List.foldl_cons]
    apply ih
    intro k2
    rw [Mapa.obtener_poner]
    split
    · rfl
    · exact hacc k2

theorem horasProfesor_inicial (materias : List Materia) (profesores : List Profesor)
    (k : String) :
    Mapa.obtener (inicializarEstado materias profesores).horas_asignadas_profesor k 0 = 0 :=
  horasProfesor_inicial_aux profesores [] (fun _ => rfl) k

/-- With professor names pairwise different and no negative
`horas_disponibles`, no counter exceeds its professor's maximum in any state of
the run. -/
theorem presupuesto_alcanzados (ordenar : Ordenador) (grupos : List Grupo)
    (materias : List Materia) (profesores : List Profesor)
    (hnom : (profesores.map (fun p => p.nombre)).Nodup)
    (hpos : ∀ p ∈ profesores, 0 ≤ p.horas_disponibles) :
    ∀ st ∈ estadosAlcanzados ordenar grupos materias profesores,
      ∀ p ∈ profesores,
        Mapa.obtener st.horas_asignadas_profesor p.nombre 0 ≤ p.horas_disponibles := by
  refine (alcanzados_invariante ordenar grupos materias profesores
    (fun st => ∀ p ∈ profesores,
      Mapa.obtener st.horas_asignadas_profesor p.nombre 0 ≤ p.horas_disponibles) ?_ ?_).1
  · intro p hp
    rw [horasProfesor_inicial]
    exact hpos p hp
  · rintro ⟨op, antes, g, m, q, s⟩ ⟨asig, hasig, hl⟩ hinv p hp
    obtain ⟨_, _, _, _, hprofs⟩ := pendiente_datos hasig
    obtain ⟨_, _, hq, hmatch⟩ := hl
    rw [hprofs, List.mem_filter] at hq
    have hold := hinv p hp
    dsimp only at hold hq
    cases op with
    | hacer =>
      obtain ⟨⟨razon, hv⟩, _, _⟩ := hmatch
      dsimp only at hv
      have hok := validar_ok hv
      simp only [Paso.despues]
      rw [horasProfesor_hacer]
      by_cases hn : p.nombre = q.nombre
      · have e : p = q := List.inj_on_of_nodup_map hnom hp hq.1 hn
        subst e
        rw [if_pos rfl]
        have := hok.2.2.2.1
        omega
      · rw [if_neg hn]
        exact hold
    | deshacer =>
      simp only [Paso.despues]
      rw [horasProfesor_deshacer]
      split
      · omega
      · exact hold

/-! ## Counting placed hours -/

namespace Mapa

theorem countP_flatMap_poner {V β : Type} (F : String → V → List β) (q : β → Bool)
    (m : Mapa V) (k : String) (v : V) :
    ((poner m k v).flatMap (fun e => F e.1 e.2)).countP q
        + ((buscar m k).map (fun w => (F k w).countP q)).getD 0
      = (m.flatMap (fun e => F e.1 e.2)).countP q + (F k v).countP q := by
  induction m with
  | nil => simp [poner, buscar]
  | cons e r ih =>
    obtain ⟨c, w⟩ := e
    by_cases h : c = k
    · subst h
      simp only [poner, buscar, if_true, List.flatMap_cons, List.countP_append, Option.map_some',
        Option.getD_some]
      omega
    · simp only [poner, buscar, h, if_false, List.flatMap_cons, List.countP_append]
      omega

theorem countP_flatMap_borrar {V β : Type} (F : String → V → List β) (q : β → Bool)
    (m : Mapa V) (k : String) (hm : SinRepetir m) :
    ((borrar m k).flatMap (fun e => F e.1 e.2)).countP q
        + ((buscar m k).map (fun w => (F k w).countP q)).getD 0
      = (m.flatMap (fun e => F e.1 e.2)).countP q := by
  induction m with
  | nil => simp [borrar, buscar]
  | cons e r ih =>
    obtain ⟨c, w⟩ := e
    unfold SinRepetir at hm
    simp only [List.map_cons, List.nodup_cons] at hm
    have ih2 := ih hm.2
    by_cases h : c = k
    · subst h
      have hno : buscar r c = none := by
        cases hb : buscar r c with
        | none => rfl
        | some x => exact absurd (List.mem_map_of_mem Prod.fst (mem_of_buscar_eq_some r c x hb)) hm.1
      rw [hno] at ih2
      simp only [Option.map_none', Option.getD_none, Nat.add_zero] at ih2
      simp only [borrar, List.filter_cons, decide_True, Bool.not_true, Bool.false_eq_true,
        if_false, buscar, if_true, Option.map_some', Option.getD_some, List.flatMap_cons,
        List.countP_append]
      simp only [borrar] at ih2
      omega
    · simp only [borrar, List.filter_cons, h, decide_False, Bool.not_false, if_true, buscar,
        if_false, List.flatMap_cons, List.countP_append]
      simp only [borrar] at ih2
      omega

theorem countP_flatMap_modificar {V β : Type} (F : String → V → List β) (q : β → Bool)
    (m : Mapa V) (k : String) (dflt : V) (f : V → V) (hd : F k dflt = []) :
    ((modificar m k dflt f).flatMap (fun e => F e.1 e.2)).countP q
        + (F k (obtener m k dflt)).countP q
      = (m.flatMap (fun e => F e.1 e.2)).countP q + (F k (f (obtener m k dflt))).countP q := by
  have h := countP_flatMap_poner F q m k (f (obtener m k dflt))
  unfold modificar
  cases hb : buscar m k with
  | none =>
    rw [hb] at h
    simp only [obtener, hb, Option.getD_none, hd, List.countP_nil] at h ⊢
    exact h
  | some w =>
    rw [hb] at h
    simp only [obtener, hb, Option.getD_some] at h ⊢
    exact h

theorem obtener_prop {V : Type} (P : V → Prop) (m : Mapa V) (k : String) (dflt : V)
    (hall : ∀ e ∈ m, P e.2) (hd : P dflt) : P (obtener m k dflt) := by
  unfold obtener
  cases hb : buscar m k with
  | none => exact hd
  | some w => exact hall (k, w) (mem_of_buscar_eq_some m k w hb)

theorem todos_modificar {V : Type} (P : V → Prop) (m : Mapa V) (k : String) (dflt : V)
    (f : V → V) (hall : ∀ e ∈ m, P e.2) (hnew : P (f (obtener m k dflt))) :
    ∀ e ∈ modificar m k dflt f, P e.2 := by
  intro e he
  rcases mem_poner m k _ e he with h | h
  · rw [h]
    exact hnew
  · exact hall e h

end Mapa

theorem entradaDe_nil (g d k : String) : entradaDe g d k [] = [] := rfl

theorem entradasDia_nil (g d : String) : entradasDia g d [] = [] := rfl

theorem entradasGrupo_nil (g : String) : entradasGrupo g [] = [] := rfl

/-- Counting over the schedule after `hacerAsignacion` on a free cell: one
more entry, the one written. -/
theorem countP_entradas_hacer (q : Entrada → Bool) (st : Estado) (g : Grupo) (m : Materia)
    (p : Profesor) (s : Slot) (hc : celda st.horario g.nombre s.dia s.getKey = []) :
    (entradas (hacerAsignacion st g m p s).horario).countP q
      = (entradas st.horario).countP q
        + if q ⟨g.nombre, s.dia, s.getKey, ⟨m.nombre, p.nombre⟩⟩ = true then 1 else 0 := by
  have h1 := Mapa.countP_flatMap_modificar (fun k (dias : Mapa (Mapa (Mapa Valor))) =>
      entradasGrupo k dias) q st.horario g.nombre []
    (fun dias => Mapa.modificar dias s.dia [] (fun slots =>
      Mapa.modificar slots s.getKey [] (fun c =>
        Mapa.poner c ":valor" ⟨m.nombre, p.nombre⟩))) rfl
  have h2 := Mapa.countP_flatMap_modificar (fun k (slots : Mapa (Mapa Valor)) =>
      entradasDia g.nombre k slots) q (Mapa.obtener st.horario g.nombre []) s.dia []
    (fun slots => Mapa.modificar slots s.getKey [] (fun c =>
        Mapa.poner c ":valor" ⟨m.nombre, p.nombre⟩)) rfl
  have h3 := Mapa.countP_flatMap_modificar (fun k (c : Mapa Valor) =>
      entradaDe g.nombre s.dia k c) q
    (Mapa.obtener (Mapa.obtener st.horario g.nombre []) s.dia []) s.getKey []
    (fun c => Mapa.poner c ":valor" ⟨m.nombre, p.nombre⟩) rfl
  simp only [celda] at hc
  rw [hc] at h3
  simp only [entradaDe_nil, List.countP_nil, Nat.add_zero] at h3
  have h4 : (entradaDe g.nombre s.dia s.getKey
      (Mapa.poner [] ":valor" ⟨m.nombre, p.nombre⟩)).countP q
      = if q ⟨g.nombre, s.dia, s.getKey, ⟨m.nombre, p.nombre⟩⟩ = true then 1 else 0 := by
    simp [entradaDe, Mapa.poner, Mapa.buscar, List.countP_singleton]
  rw [h4] at h3
  simp only [entradas, entradasGrupo, entradasDia, hacerAsignacion] at h1 h2 h3 ⊢
  omega

/-- The day map after `quitarDeDia` lost what its cell contributed. -/
theorem countP_entradasDia_quitar (q : Entrada → Bool) (g d : String)
    (slots : Mapa (Mapa Valor)) (key : String) (hs : Mapa.SinRepetir slots) :
    (entradasDia g d (quitarDeDia slots key)).countP q
        + (entradaDe g d key (Mapa.obtener slots key [])).countP q
      = (entradasDia g d slots).countP q := by
  have h1 := Mapa.countP_flatMap_modificar (fun k (c : Mapa Valor) => entradaDe g d k c) q
    slots key [] (fun c => Mapa.borrar c ":valor") rfl
  have h0 : ∀ c : Mapa Valor, entradaDe g d key (Mapa.borrar c ":valor") = [] := by
    intro c
    simp [entradaDe, Mapa.buscar_borrar_mismo]
  beta_reduce at h1
  rw [h0] at h1
  simp only [List.countP_nil, Nat.add_zero] at h1
  unfold quitarDeDia
  simp only []
  split
  · have h2 := Mapa.countP_flatMap_borrar (fun k (c : Mapa Valor) => entradaDe g d k c) q
      (Mapa.modificar slots key [] (fun c => Mapa.borrar c ":valor")) key
      (Mapa.sinRepetir_modificar _ _ _ _ hs)
    have h3 : Mapa.buscar (Mapa.modificar slots key [] (fun c => Mapa.borrar c ":valor")) key
        = some (Mapa.borrar (Mapa.obtener slots key []) ":valor") :=
      Mapa.buscar_poner_mismo _ _ _
    rw [h3] at h2
    beta_reduce at h2
    simp only [Option.map_some', Option.getD_some, h0, List.countP_nil, Nat.add_zero] at h2
    simp only [entradasDia] at h1 h2 ⊢
    omega
  · simp only [entradasDia] at h1 ⊢
    omega

theorem bienFormado_dia (h : Horario) (hb : BienFormado h) (g d : String) :
    Mapa.SinRepetir (Mapa.obtener (Mapa.obtener h g []) d []) := by
  have h1 : BienFormadoGrupo (Mapa.obtener h g []) :=
    Mapa.obtener_prop BienFormadoGrupo h g [] hb.2 ⟨List.nodup_nil, by simp⟩
  exact Mapa.obtener_prop Mapa.SinRepetir _ d [] h1.2 List.nodup_nil

theorem bienFormado_grupo (h : Horario) (hb : BienFormado h) (g : String) :
    BienFormadoGrupo (Mapa.obtener h g []) :=
  Mapa.obtener_prop BienFormadoGrupo h g [] hb.2 ⟨List.nodup_nil, by simp⟩

/-- Counting over the schedule after `deshacerAsignacion` on a cell holding
exactly one entry: that entry is gone, the rest stays. -/
theorem countP_entradas_deshacer (q : Entrada → Bool) (st : Estado) (g : Grupo) (m : Materia)
    (p : Profesor) (s : Slot) (v : Valor) (hb : BienFormado st.horario)
    (hc : celda st.horario g.nombre s.dia s.getKey = [(":valor", v)]) :
    (entradas (deshacerAsignacion st g m p s).horario).countP q
        + (if q ⟨g.nombre, s.dia, s.getKey, v⟩ = true then 1 else 0)
      = (entradas st.horario).countP q := by
  have h1 := Mapa.countP_flatMap_modificar (fun k (dias : Mapa (Mapa (Mapa Valor))) =>
      entradasGrupo k dias) q st.horario g.nombre []
    (fun dias => Mapa.modificar dias s.dia [] (fun slots => quitarDeDia slots s.getKey)) rfl
  have h2 := Mapa.countP_flatMap_modificar (fun k (slots : Mapa (Mapa Valor)) =>
      entradasDia g.nombre k slots) q (Mapa.obtener st.horario g.nombre []) s.dia []
    (fun slots => quitarDeDia slots s.getKey) rfl
  have h3 := countP_entradasDia_quitar q g.nombre s.dia
    (Mapa.obtener (Mapa.obtener st.horario g.nombre []) s.dia []) s.getKey
    (bienFormado_dia st.horario hb g.nombre s.dia)
  simp only [celda] at hc
  rw [hc] at h3
  have h4 : (entradaDe g.nombre s.dia s.getKey [(":valor", v)]).countP q
      = if q ⟨g.nombre, s.dia, s.getKey, v⟩ = true then 1 else 0 := by
    simp [entradaDe, Mapa.buscar, List.countP_singleton]
  rw [h4] at h3
  simp only [entradas, entradasGrupo, deshacerAsignacion] at h1 h2 h3 ⊢
  omega

theorem sinRepetir_quitarDeDia (slots : Mapa (Mapa Valor)) (key : String)
    (hs : Mapa.SinRepetir slots) : Mapa.SinRepetir (quitarDeDia slots key) := by
  unfold quitarDeDia
  simp only []
  split
  · exact Mapa.sinRepetir_borrar _ _ (Mapa.sinRepetir_modificar _ _ _ _ hs)
  · exact Mapa.sinRepetir_modificar _ _ _ _ hs

/-- A schedule update that rewrites one day map of one group keeps the keys
pairwise different when the rewrite does. -/
theorem bienFormado_modificar (h : Horario) (g d : String)
    (f : Mapa (Mapa Valor) → Mapa (Mapa Valor))
    (hf : ∀ slots, Mapa.SinRepetir slots → Mapa.SinRepetir (f slots))
    (hb : BienFormado h) :
    BienFormado (Mapa.modificar h g [] (fun dias => Mapa.modificar dias d [] f)) := by
  refine ⟨Mapa.sinRepetir_modificar _ _ _ _ hb.1, ?_⟩
  apply Mapa.todos_modificar BienFormadoGrupo _ _ _ _ hb.2
  have hg := bienFormado_grupo h hb g
  refine ⟨Mapa.sinRepetir_modificar _ _ _ _ hg.1, ?_⟩
  apply Mapa.todos_modificar Mapa.SinRepetir _ _ _ _ hg.2
  exact hf _ (bienFormado_dia h hb g d)

theorem bienFormado_hacer (st : Estado) (g : Grupo) (m : Materia) (p : Profesor) (s : Slot)
    (hb : BienFormado st.horario) : BienFormado (hacerAsignacion st g m p s).horario :=
  bienFormado_modificar st.horario g.nombre s.dia _
    (fun slots hs => Mapa.sinRepetir_modificar slots _ _ _ hs) hb

theorem bienFormado_deshacer (st : Estado) (g : Grupo) (m : Materia) (p : Profesor) (s : Slot)
    (hb : BienFormado st.horario) : BienFormado (deshacerAsignacion st g m p s).horario :=
  bienFormado_modificar st.horario g.nombre s.dia _
    (fun slots hs => sinRepetir_quitarDeDia slots _ hs) hb

/-- In a schedule with pairwise different keys, the list of placed hours holds
exactly the entries the lookups find. -/
theorem mem_entradas_iff (h : Horario) (hb : BienFormado h) (e : Entrada) :
    e ∈ entradas h ↔ valorEn h e.grupo e.dia e.clave = some e.valor := by
  constructor
  · intro he
    simp only [entradas, entradasGrupo, entradasDia, List.mem_flatMap] at he
    obtain ⟨⟨g, dias⟩, hg, ⟨d, slots⟩, hd, ⟨k, c⟩, hk, hv⟩ := he
    simp only [entradaDe] at hv
    have hbg := hb.2 _ hg
    have e1 := Mapa.buscar_eq_some_of_mem h g dias hb.1 hg
    have e2 := Mapa.buscar_eq_some_of_mem dias d slots hbg.1 hd
    have e3 := Mapa.buscar_eq_some_of_mem slots k c (hbg.2 _ hd) hk
    cases hval : Mapa.buscar c ":valor" with
    | none =>
      rw [hval] at hv
      simp at hv
    | some v =>
      rw [hval] at hv
      simp only [List.mem_singleton] at hv
      subst hv
      simp only [valorEn, celda, Mapa.obtener, e1, e2, e3, Option.getD_some]
      exact hval
  · intro hv
    obtain ⟨g, d, k, v⟩ := e
    simp only [valorEn, celda, Mapa.obtener] at hv
    cases e1 : Mapa.buscar h g with
    | none =>
      rw [e1] at hv
      simp [Mapa.buscar] at hv
    | some dias =>
      rw [e1] at hv
      simp only [Option.getD_some] at hv
      cases e2 : Mapa.buscar dias d with
      | none =>
        rw [e2] at hv
        simp [Mapa.buscar] at hv
      | some slots =>
        rw [e2] at hv
        simp only [Option.getD_some] at hv
        cases e3 : Mapa.buscar slots k with
        | none =>
          rw [e3] at hv
          simp [Mapa.buscar] at hv
        | some c =>
          rw [e3] at hv
          simp only [Option.getD_some] at hv
          simp only [entradas, entradasGrupo, entradasDia, List.mem_flatMap]
          refine ⟨(g, dias), Mapa.mem_of_buscar_eq_some _ _ _ e1, (d, slots),
            Mapa.mem_of_buscar_eq_some _ _ _ e2, (k, c), Mapa.mem_of_buscar_eq_some _ _ _ e3, ?_⟩
          simp [entradaDe, hv]

theorem nodup_flatMap_claves {V β : Type} (F : String → V → List β) (clave : β → String)
    (m : Mapa V) (hclave : ∀ k v b, b ∈ F k v → clave b = k)
    (hF : ∀ e ∈ m, (F e.1 e.2).Nodup) (hm : Mapa.SinRepetir m) :
    (m.flatMap (fun e => F e.1 e.2)).Nodup := by
  rw [List.nodup_flatMap]
  refine ⟨hF, ?_⟩
  unfold Mapa.SinRepetir at hm
  rw [List.Nodup, List.pairwise_map] at hm
  refine List.Pairwise.imp ?_ hm
  intro a b hab
  simp only [Function.onFun]
  intro x hxa hxb
  exact hab ((hclave _ _ x hxa).symm.trans (hclave _ _ x hxb))

theorem mem_entradaDe {g d k : String} {c : Mapa Valor} {e : Entrada}
    (h : e ∈ entradaDe g d k c) : e.grupo = g ∧ e.dia = d ∧ e.clave = k := by
  unfold entradaDe at h
  split at h
  · simp only [List.mem_singleton] at h
    subst h
    exact ⟨rfl, rfl, rfl⟩
  · simp at h

theorem mem_entradasDia {g d : String} {slots : Mapa (Mapa Valor)} {e : Entrada}
    (h : e ∈ entradasDia g d slots) : e.grupo = g ∧ e.dia = d := by
  simp only [entradasDia, List.mem_flatMap] at h
  obtain ⟨a, _, ha⟩ := h
  exact ⟨(mem_entradaDe ha).1, (mem_entradaDe ha).2.1⟩

theorem mem_entradasGrupo {g : String} {dias : Mapa (Mapa (Mapa Valor))} {e : Entrada}
    (h : e ∈ entradasGrupo g dias) : e.grupo = g := by
  simp only [entradasGrupo, List.mem_flatMap] at h
  obtain ⟨a, _, ha⟩ := h
  exact (mem_entradasDia ha).1

theorem nodup_entradaDe (g d k : String) (c : Mapa Valor) : (entradaDe g d k c).Nodup := by
  unfold entradaDe
  split
  · exact List.nodup_singleton _
  · exact List.nodup_nil

/-- In a schedule with pairwise different keys no placed hour is listed
twice. -/
theorem nodup_entradas (h : Horario) (hb : BienFormado h) : (entradas h).Nodup := by
  refine nodup_flatMap_claves (fun g dias => entradasGrupo g dias) Entrada.grupo h
    (fun _ _ _ hb => mem_entradasGrupo hb) ?_ hb.1
  intro e he
  have hbg := hb.2 e he
  refine nodup_flatMap_claves (fun d slots => entradasDia e.1 d slots) Entrada.dia e.2
    (fun _ _ _ hb => (mem_entradasDia hb).2) ?_ hbg.1
  intro e2 he2
  exact nodup_flatMap_claves (fun k c => entradaDe e.1 e2.1 k c) Entrada.clave e2.2
    (fun _ _ _ hb => (mem_entradaDe hb).2.2) (fun e3 _ => nodup_entradaDe _ _ _ _) (hbg.2 e2 he2)

/-! ## Hour counters and the schedule -/

theorem horasMateria_inicial_aux (gqc : List String) (mn : String) (acc : Mapa (Mapa Int))
    (hacc : ∀ g m, horasMateria acc g m = 0) (g m : String) :
    horasMateria (gqc.foldl (fun hm2 gn =>
      Mapa.modificar hm2 gn [] (fun ms => Mapa.poner ms mn 0)) acc) g m = 0 := by
  induction gqc generalizing acc with
  | nil => exact hacc g m
  | cons gn rest ih =>
    simp only [List.foldl_cons]
    apply ih
    intro g2 m2
    simp only [horasMateria, Mapa.obtener_modificar]
    by_cases h1 : g2 = gn
    · simp only [h1, if_true, Mapa.obtener_poner]
      split
      · rfl
      · exact hacc gn m2
    · simp only [h1, if_false]
      exact hacc g2 m2

theorem horasMateria_inicial (materias : List Materia) (profesores : List Profesor)
    (g m : String) :
    horasMateria (inicializarEstado materias profesores).horas_asignadas_materia g m = 0 := by
  simp only [inicializarEstado]
  have aux : ∀ (acc : Mapa (Mapa Int)), (∀ g m, horasMateria acc g m = 0) →
      horasMateria (materias.foldl (fun hm m =>
        m.grupos_que_cursan.foldl (fun hm2 gn =>
          Mapa.modificar hm2 gn [] (fun ms => Mapa.poner ms m.nombre 0)) hm) acc) g m = 0 := by
    induction materias with
    | nil => intro acc hacc; exact hacc g m
    | cons x xs ih =>
      intro acc hacc
      simp only [List.foldl_cons]
      apply ih
      intro g2 m2
      exact horasMateria_inicial_aux _ _ acc hacc g2 m2
  exact aux [] (fun _ _ => rfl)

theorem cuentas_inicial (materias : List Materia) (profesores : List Profesor) :
    Cuentas (inicializarEstado materias profesores) := by
  refine ⟨⟨List.nodup_nil, by simp [inicializarEstado]⟩, ?_, ?_⟩
  · intro p
    rw [horasProfesor_inicial]
    rfl
  · intro g m
    rw [horasMateria_inicial]
    rfl

theorem cuentas_hacer {st : Estado} {g : Grupo} {m : Materia} {p : Profesor} {s : Slot}
    (hc : celda st.horario g.nombre s.dia s.getKey = []) (h : Cuentas st) :
    Cuentas (hacerAsignacion st g m p s) := by
  refine ⟨bienFormado_hacer st g m p s h.formado, ?_, ?_⟩
  · intro pn
    rw [horasProfesor_hacer, h.profesor]
    simp only [horasPuestasProfesor, countP_entradas_hacer _ st g m p s hc, decide_eq_true_eq]
    by_cases hn : pn = p.nombre
    · simp [hn]
    · have hn2 : ¬ p.nombre = pn := fun x => hn x.symm
      simp [hn, hn2]
  · intro gn mn
    rw [horasMateria_hacer, h.materia]
    simp only [horasPuestasMateria, countP_entradas_hacer _ st g m p s hc, decide_eq_true_eq]
    by_cases hn : gn = g.nombre ∧ mn = m.nombre
    · simp [hn.1, hn.2]
    · have hn2 : ¬ (g.nombre = gn ∧ m.nombre = mn) := fun x => hn ⟨x.1.symm, x.2.symm⟩
      simp [hn, hn2]

theorem cuentas_deshacer {st : Estado} {g : Grupo} {m : Materia} {p : Profesor} {s : Slot}
    (hc : celda st.horario g.nombre s.dia s.getKey = [(":valor", ⟨m.nombre, p.nombre⟩)])
    (h : Cuentas st) : Cuentas (deshacerAsignacion st g m p s) := by
  refine ⟨bienFormado_deshacer st g m p s h.formado, ?_, ?_⟩
  · intro pn
    rw [horasProfesor_deshacer, h.profesor]
    have hcnt := countP_entradas_deshacer (fun e => decide (e.valor.profesor = pn)) st g m p s _
      h.formado hc
    simp only [horasPuestasProfesor, decide_eq_true_eq] at hcnt ⊢
    by_cases hn : pn = p.nombre
    · simp only [hn, if_true] at hcnt ⊢
      omega
    · have hn2 : ¬ p.nombre = pn := fun x => hn x.symm
      simp only [hn, hn2, if_false] at hcnt ⊢
      omega
  · intro gn mn
    rw [horasMateria_deshacer, h.materia]
    have hcnt := countP_entradas_deshacer
      (fun e => decide (e.grupo = gn ∧ e.valor.materia = mn)) st g m p s _ h.formado hc
    simp only [horasPuestasMateria, decide_eq_true_eq] at hcnt ⊢
    by_cases hn : gn = g.nombre ∧ mn = m.nombre
    · simp only [hn.1, hn.2, and_self, if_true] at hcnt ⊢
      omega
    · have hn2 : ¬ (g.nombre = gn ∧ m.nombre = mn) := fun x => hn ⟨x.1.symm, x.2.symm⟩
      simp only [hn, hn2, if_false] at hcnt ⊢
      omega

/-- The counters agree with the schedule in every state of the run. -/
theorem cuentas_alcanzados (ordenar : Ordenador) (grupos : List Grupo)
    (materias : List Materia) (profesores : List Profesor) :
    (∀ st ∈ estadosAlcanzados ordenar grupos materias profesores, Cuentas st) ∧
    (∀ paso ∈ (correr ordenar grupos materias profesores).traza, Cuentas paso.antes) ∧
    Cuentas (correr ordenar grupos materias profesores).estado := by
  refine alcanzados_invariante ordenar grupos materias profesores Cuentas
    (cuentas_inicial materias profesores) ?_
  rintro ⟨op, antes, g, m, p, s⟩ ⟨asig, _, hl⟩ h
  obtain ⟨_, _, _, hop⟩ := hl
  cases op with
  | hacer =>
    obtain ⟨⟨razon, hv⟩, _, _⟩ := hop
    exact cuentas_hacer (validar_ok hv).2.1 h
  | deshacer => exact cuentas_deshacer hop.1 h

/-! ## Keys of the counters -/

theorem backtrackRecursivo_exito (ordenar : Ordenador) (materias : List Materia)
    (pend : List AsignacionPendiente) (st : Estado)
    (h : (backtrackRecursivo ordenar materias pend st).salida = Salida.exito) :
    esSolucionCompleta materias (backtrackRecursivo ordenar materias pend st).estado = true := by
  induction pend generalizing st with
  | nil =>
    rw [backtrackRecursivo] at h ⊢
    dsimp only at h ⊢
    by_cases hc : esSolucionCompleta materias st = true
    · exact hc
    · rw [if_neg hc] at h
      exact Salida.noConfusion h
  | cons a as ih =>
    rw [backtrackRecursivo] at h ⊢
    cases hs : (intentarAsignar ordenar a st).salida with
    | exito =>
      simp only [hs] at h ⊢
      exact ih _ h
    | fallo =>
      simp only [hs] at h
      exact Salida.noConfusion h
    | excepcion =>
      simp only [hs] at h
      exact Salida.noConfusion h
    | sinCombustible =>
      simp only [hs] at h
      exact Salida.noConfusion h

theorem esSolucionCompleta_horas (materias : List Materia) (st : Estado)
    (h : esSolucionCompleta materias st = true) :
    ∀ m ∈ materias, ∀ gn ∈ m.grupos_que_cursan,
      m.horas_semana ≤ horasMateria st.horas_asignadas_materia gn m.nombre := by
  intro m hm gn hgn
  simp only [esSolucionCompleta, List.all_eq_true] at h
  have h2 := h m hm gn hgn
  simp only [horasMateria, Mapa.obtener]
  cases e1 : Mapa.buscar st.horas_asignadas_materia gn with
  | none =>
    rw [e1] at h2
    exact Bool.noConfusion h2
  | some ms =>
    rw [e1] at h2
    dsimp only at h2
    cases e2 : Mapa.buscar ms m.nombre with
    | none =>
      rw [e2] at h2
      exact Bool.noConfusion h2
    | some x =>
      rw [e2] at h2
      simp only [e2, Option.getD_some]
      simpa using h2

/-! ## Failed runs -/

/-- A failed run of `backtrackRecursivo` either failed on one pending unit,
after placing the units before it and leaving the content they produced, or
placed every unit and failed the completion check. -/
theorem backtrackRecursivo_fallo (ordenar : Ordenador) (materias : List Materia)
    (pend : List AsignacionPendiente) (st : Estado)
    (h : (backtrackRecursivo ordenar materias pend st).salida = Salida.fallo) :
    (∃ pre a post, pend = pre ++ a :: post ∧ TodasColocadas ordenar pre st ∧
      (intentarAsignar ordenar a (colocarUnidades ordenar pre st)).salida = Salida.fallo ∧
      MismoContenido (backtrackRecursivo ordenar materias pend st).estado
        (colocarUnidades ordenar pre st)) ∨
    (TodasColocadas ordenar pend st ∧
      (backtrackRecursivo ordenar materias pend st).estado = colocarUnidades ordenar pend st ∧
      esSolucionCompleta materias (colocarUnidades ordenar pend st) = false) := by
  induction pend generalizing st with
  | nil =>
    right
    rw [backtrackRecursivo] at h ⊢
    dsimp only at h ⊢
    refine ⟨trivial, rfl, ?_⟩
    by_cases hc : esSolucionCompleta materias st = true
    · rw [if_pos hc] at h
      exact Salida.noConfusion h
    · simpa [colocarUnidades] using hc
  | cons a as ih =>
    have hb := intentarAsignar_buena ordenar a st
    rw [backtrackRecursivo] at h ⊢
    cases hs : (intentarAsignar ordenar a st).salida with
    | exito =>
      simp only [hs] at h ⊢
      rcases ih _ h with ⟨pre, b, post, e, ht, hf, hm⟩ | ⟨ht, he, hc⟩
      · left
        refine ⟨a :: pre, b, post, by rw [e]; rfl, ⟨hs, ht⟩, hf, hm⟩
      · right
        exact ⟨⟨hs, ht⟩, he, hc⟩
    | fallo =>
      simp only [hs] at h ⊢
      left
      exact ⟨[], a, as, rfl, trivial, hs, hb.atomica hs⟩
    | excepcion =>
      simp only [hs] at h
      exact Salida.noConfusion h
    | sinCombustible => exact absurd hs hb.conCombustible

theorem celda_inicial (materias : List Materia) (profesores : List Profesor)
    (g d k : String) : celda (inicializarEstado materias profesores).horario g d k = [] :=
  rfl

/-! ## Exhaustive search within one pending unit -/

theorem getAllSlots_turno (t : String) (s : Slot) (hs : s ∈ getAllSlots t) : s.turno = t := by
  simp only [getAllSlots, List.mem_flatMap, List.mem_map] at hs
  obtain ⟨_, _, _, _, rfl⟩ := hs
  rfl

/-- The validator accepts when its six checks pass. -/
theorem validar_de_condiciones (horario : Horario) (g : Grupo) (m : Materia) (p : Profesor)
    (s : Slot) (po : Ocupacion) (hp : Mapa Int)
    (h1 : s.turno = g.turno) (h2 : celda horario g.nombre s.dia s.getKey = [])
    (h3 : ocupadoEn po p.nombre s.dia s.getKey = false)
    (h4 : Mapa.obtener hp p.nombre 0 < p.horas_disponibles)
    (h5 : p.turno_preferido = "Ambos" ∨ p.turno_preferido = s.turno)
    (h6 : p.estaDisponibleEnSlot s.dia s.hora_inicio s.hora_fin = some true) :
    validarRestriccionesDuras horario g m p s po hp = some (true, "Valido") := by
  unfold validarRestriccionesDuras
  have h5b : ¬ (p.turno_preferido ≠ "Ambos" ∧ p.turno_preferido ≠ s.turno) := by
    rintro ⟨ha, hb⟩
    rcases h5 with h | h
    · exact ha h
    · exact hb h
  simp only [h1, ne_eq, not_true_eq_false, if_false, h2, List.isEmpty_nil, Bool.not_true,
    Bool.false_eq_true, h3, ge_iff_le, not_le.mpr h4, h6]
  rw [if_neg]
  simpa [h1] using h5b

/-- The validator reads the state only through its content. -/
theorem validar_mismoContenido {a b : Estado} (h : MismoContenido a b) (g : Grupo)
    (m : Materia) (p : Profesor) (s : Slot) :
    validarRestriccionesDuras a.horario g m p s a.profesor_ocupado a.horas_asignadas_profesor
      = validarRestriccionesDuras b.horario g m p s b.profesor_ocupado
          b.horas_asignadas_profesor := by
  unfold validarRestriccionesDuras
  rw [h.hCelda, h.hOcupado, h.hProfesor]

theorem hacer_mismoContenido {a b : Estado} (h : MismoContenido a b) (g : Grupo)
    (m : Materia) (p : Profesor) (s : Slot) :
    MismoContenido (hacerAsignacion a g m p s) (hacerAsignacion b g m p s) := by
  constructor
  · intro gn d k
    rw [celda_hacer, celda_hacer, h.hCelda]
  · intro pn d k
    rw [ocupadoEn_hacer, ocupadoEn_hacer, h.hOcupado]
  · intro pn
    rw [horasProfesor_hacer, horasProfesor_hacer, h.hProfesor]
  · intro gn mn
    rw [horasMateria_hacer, horasMateria_hacer, h.hMateria]

theorem planFactible_mismoContenido {a b : Estado} (h : MismoContenido a b)
    (asig : AsignacionPendiente) (plan : List (Slot × Profesor))
    (hp : PlanFactible asig a plan) : PlanFactible asig b plan := by
  refine ⟨hp.1, ?_⟩
  intro x hx
  have := hp.2 x hx
  rw [h.hCelda, h.hOcupado, h.hProfesor] at this
  exact this

/-- Any pair of a feasible plan passes the validator, and once it is committed
the rest of the plan is feasible. -/
theorem planFactible_paso (asig : AsignacionPendiente) (st : Estado)
    (plan : List (Slot × Profesor)) (hp : PlanFactible asig st plan) (x : Slot × Profesor)
    (hx : x ∈ plan) :
    validarRestriccionesDuras st.horario asig.grupo asig.materia x.2 x.1 st.profesor_ocupado
        st.horas_asignadas_profesor = some (true, "Valido") ∧
    PlanFactible asig (hacerAsignacion st asig.grupo asig.materia x.2 x.1) (quitarPar plan x) := by
  obtain ⟨hnd, hall⟩ := hp
  obtain ⟨h1, h2, h3, h4, h5, h6, h7⟩ := hall x hx
  have hperm : plan.Perm (x :: quitarPar plan x) := List.perm_cons_erase hx
  have hcount : ∀ q : Slot × Profesor → Bool,
      plan.countP q = (quitarPar plan x).countP q + (if q x = true then 1 else 0) := by
    intro q
    rw [hperm.countP_eq q, List.countP_cons]
  constructor
  · refine validar_de_condiciones _ _ _ _ _ _ _ (getAllSlots_turno _ _ h1) h3 h4 ?_ h5 h6
    have := hcount (fun y => decide (y.2.nombre = x.2.nombre))
    simp only [decide_True, if_true] at this
    omega
  · have hnd2 : ((x :: quitarPar plan x).map (fun y => (y.1.dia, y.1.getKey))).Nodup :=
      (hperm.map _).nodup_iff.mp hnd
    simp only [List.map_cons, List.nodup_cons] at hnd2
    refine ⟨hnd2.2, ?_⟩
    intro y hy
    have hy2 : y ∈ plan :=
      (@List.erase_sublist (Slot × Profesor) instBEqOfDecidableEq x plan).subset hy
    obtain ⟨g1, g2, g3, g4, g5, g6, g7⟩ := hall y hy2
    have hne : ¬ (y.1.dia = x.1.dia ∧ y.1.getKey = x.1.getKey) := by
      rintro ⟨e1, e2⟩
      apply hnd2.1
      simp only [List.mem_map]
      exact ⟨y, hy, by rw [e1, e2]⟩
    refine ⟨g1, g2, ?_, ?_, g5, g6, ?_⟩
    · rw [celda_hacer]
      have : ¬ (asig.grupo.nombre = asig.grupo.nombre ∧ y.1.dia = x.1.dia ∧
          y.1.getKey = x.1.getKey) := fun h => hne h.2
      rw [if_neg this]
      exact g3
    · rw [ocupadoEn_hacer]
      have : ¬ (y.2.nombre = x.2.nombre ∧ y.1.dia = x.1.dia ∧ y.1.getKey = x.1.getKey) :=
        fun h => hne h.2
      rw [if_neg this]
      exact g4
    · rw [horasProfesor_hacer]
      have hc := hcount (fun z => decide (z.2.nombre = y.2.nombre))
      simp only [decide_eq_true_eq] at hc
      by_cases e : y.2.nombre = x.2.nombre
      · rw [if_pos e]
        rw [if_pos e.symm] at hc
        omega
      · rw [if_neg e]
        have e2 : ¬ x.2.nombre = y.2.nombre := fun h => e h.symm
        rw [if_neg e2] at hc
        omega

theorem bucleProfesores_completo (ordenar : Ordenador) (rec : Estado → Corrida)
    (asig : AsignacionPendiente) (slot : Slot) (p : Profesor) (st0 : Estado) (N : Int)
    (hrec : ∀ st2, 0 < horasNecesarias asig st2 → horasNecesarias asig st2 = N - 1 →
      CorridaBuena (PasoLegal ordenar asig) st2 (rec st2))
    (hval : validarRestriccionesDuras st0.horario asig.grupo asig.materia p slot
      st0.profesor_ocupado st0.horas_asignadas_profesor = some (true, "Valido"))
    (hsig : ∀ st1,
      MismoContenido st1 (hacerAsignacion st0 asig.grupo asig.materia p slot) →
      (rec st1).salida ≠ Salida.fallo)
    (profs : List Profesor) (hp : p ∈ profs)
    (hsub : ∀ q ∈ profs, q ∈ asig.profesores_disponibles)
    (st : Estado) (hst : MismoContenido st st0) (hN : horasNecesarias asig st = N) :
    (bucleProfesores rec asig slot profs st).salida ≠ Salida.fallo := by
  induction profs generalizing st with
  | nil => simp at hp
  | cons q qs ih =>
    have hqs : ∀ x ∈ qs, x ∈ asig.profesores_disponibles :=
      fun x hx => hsub x (List.mem_cons_of_mem _ hx)
    rw [bucleProfesores]
    cases hv : validarRestriccionesDuras st.horario asig.grupo asig.materia q slot
        st.profesor_ocupado st.horas_asignadas_profesor with
    | none => simp
    | some res =>
      obtain ⟨b, razon⟩ := res
      cases b with
      | false =>
        simp only []
        rcases List.mem_cons.mp hp with e | e
        · subst e
          rw [validar_mismoContenido hst, hval] at hv
          simp at hv
        · exact ih e hqs st hst hN
      | true =>
        have hok := validar_ok hv
        simp only []
        by_cases hq : horasMateria
            (hacerAsignacion st asig.grupo asig.materia q slot).horas_asignadas_materia
            asig.grupo.nombre asig.materia.nombre ≥ asig.materia.horas_semana
        · rw [if_pos hq]
          simp
        · rw [if_neg hq]
          have hN1 : horasNecesarias asig (hacerAsignacion st asig.grupo asig.materia q slot)
              = N - 1 := by rw [horasNecesarias_hacer, hN]
          have hpos1 : 0 < horasNecesarias asig
              (hacerAsignacion st asig.grupo asig.materia q slot) := by
            simp only [horasNecesarias]
            omega
          have hr := hrec _ hpos1 hN1
          cases hs : (rec (hacerAsignacion st asig.grupo asig.materia q slot)).salida with
          | fallo =>
            simp only []
            rcases List.mem_cons.mp hp with e | e
            · subst e
              exact absurd hs (hsig _ (hacer_mismoContenido hst _ _ _ _))
            · have hat := hr.atomica hs
              have hst2 := deshacer_tras_hacer hok.2.1 hok.2.2.1 hat
              exact ih e hqs _ (hst2.trans hst) ((hst2.horasNecesarias asig).trans hN)
          | exito => simp
          | excepcion => simp
          | sinCombustible => simp

theorem bucleSlots_completo (ordenar : Ordenador) (rec : Estado → Corrida)
    (asig : AsignacionPendiente) (slot : Slot) (p : Profesor) (st0 : Estado) (N : Int)
    (hpos : 0 < N) (hp : p ∈ asig.profesores_disponibles)
    (hrec : ∀ st2, 0 < horasNecesarias asig st2 → horasNecesarias asig st2 = N - 1 →
      CorridaBuena (PasoLegal ordenar asig) st2 (rec st2))
    (hval : validarRestriccionesDuras st0.horario asig.grupo asig.materia p slot
      st0.profesor_ocupado st0.horas_asignadas_profesor = some (true, "Valido"))
    (hsig : ∀ st1,
      MismoContenido st1 (hacerAsignacion st0 asig.grupo asig.materia p slot) →
      (rec st1).salida ≠ Salida.fallo)
    (slots : List Slot) (hmem : slot ∈ slots)
    (hslots : ∀ s ∈ slots, ∃ h l, seleccionarMejorSlot ordenar (getAllSlots asig.grupo.turno) h
        asig.grupo = some l ∧ s ∈ l)
    (st : Estado) (hst : MismoContenido st st0) (hN : horasNecesarias asig st = N) :
    (bucleSlots rec asig slots st).salida ≠ Salida.fallo := by
  induction slots generalizing st with
  | nil => simp at hmem
  | cons t ts ih =>
    have hts : ∀ x ∈ ts, ∃ h l, seleccionarMejorSlot ordenar (getAllSlots asig.grupo.turno) h
        asig.grupo = some l ∧ x ∈ l := fun x hx => hslots x (List.mem_cons_of_mem _ hx)
    have h1 := bucleProfesores_buena ordenar rec asig t N hpos
      (hslots t (List.mem_cons_self _ _)) hrec asig.profesores_disponibles (fun _ h => h) st hN
    rw [bucleSlots]
    cases hs : (bucleProfesores rec asig t asig.profesores_disponibles st).salida with
    | fallo =>
      simp only []
      rcases List.mem_cons.mp hmem with e | e
      · subst e
        exact absurd hs (bucleProfesores_completo ordenar rec asig slot p st0 N
          hrec hval hsig _ hp (fun _ h => h) st hst hN)
      · have hat := h1.atomica hs
        exact ih e hts _ (hat.trans hst) ((hat.horasNecesarias asig).trans hN)
    | exito =>
      simp only []
      rw [hs]
      simp
    | excepcion =>
      simp only []
      rw [hs]
      simp
    | sinCombustible => exact absurd hs h1.conCombustible

theorem length_quitarPar (plan : List (Slot × Profesor)) (x : Slot × Profesor) (hx : x ∈ plan) :
    ((quitarPar plan x).length : Int) = (plan.length : Int) - 1 := by
  have h : plan.Perm (x :: quitarPar plan x) := List.perm_cons_erase hx
  have h2 := h.length_eq
  simp only [List.length_cons] at h2
  omega

/-- With a feasible plan for the hours a unit is missing, the search for that
unit does not fail. -/
theorem intentarAsignarAux_completo (ordenar : Ordenador) (hord : OrdenadorValido ordenar)
    (asig : AsignacionPendiente) (n : Nat) (st : Estado) (plan : List (Slot × Profesor))
    (hplan : PlanFactible asig st plan)
    (hlen : (plan.length : Int) = horasNecesarias asig st)
    (hn : horasNecesarias asig st ≤ n) :
    (intentarAsignarAux ordenar asig n st).salida ≠ Salida.fallo := by
  induction n generalizing st plan with
  | zero =>
    rw [intentarAsignarAux]
    have h0 : horasNecesarias asig st ≤ 0 := by simpa using hn
    rw [if_pos h0]
    simp
  | succ n ih =>
    rw [intentarAsignarAux]
    by_cases h0 : horasNecesarias asig st ≤ 0
    · rw [if_pos h0]
      simp
    · rw [if_neg h0]
      cases hsel : seleccionarMejorSlot ordenar (getAllSlots asig.grupo.turno) st.horario
          asig.grupo with
      | none => simp
      | some l =>
        simp only []
        cases plan with
        | nil =>
          simp only [List.length_nil, Nat.cast_zero] at hlen
          omega
        | cons x xs =>
          have hx : x ∈ x :: xs := List.mem_cons_self _ _
          obtain ⟨hval, hresto⟩ := planFactible_paso asig st (x :: xs) hplan x hx
          have hdat := hplan.2 x hx
          have hxl : x.1 ∈ l := (seleccionar_mem hord hsel x.1).mpr hdat.1
          refine bucleSlots_completo ordenar _ asig x.1 x.2 st (horasNecesarias asig st)
            (by omega) hdat.2.1 ?_ hval ?_ l hxl ?_ st (MismoContenido.refl st) rfl
          · intro st2 _ h2
            apply intentarAsignarAux_buena
            push_cast at hn
            omega
          · intro st1 hst1
            have hneed : horasNecesarias asig st1 = horasNecesarias asig st - 1 := by
              rw [hst1.horasNecesarias asig, horasNecesarias_hacer]
            refine ih st1 (quitarPar (x :: xs) x)
              (planFactible_mismoContenido hst1.symm asig _ hresto) ?_ ?_
            · rw [length_quitarPar _ _ hx, hneed, hlen]
            · rw [hneed]
              push_cast at hn
              omega
          · intro s hs
            exact ⟨st.horario, l, hsel, hs⟩

theorem intentarAsignar_completo (ordenar : Ordenador) (hord : OrdenadorValido ordenar)
    (asig : AsignacionPendiente) (st : Estado) (plan : List (Slot × Profesor))
    (hplan : PlanFactible asig st plan)
    (hlen : (plan.length : Int) = horasNecesarias asig st) :
    (intentarAsignar ordenar asig st).salida ≠ Salida.fallo := by
  unfold intentarAsignar
  apply intentarAsignarAux_completo ordenar hord asig _ st plan hplan hlen
  omega

/-! ## Instance loading -/

theorem unir_foldl (grupos : List Grupo) (m : Materia) :
    grupos.foldl (fun m g =>
      if g.cuatrimestre = m.cuatrimestre then m.agregarGrupo g.nombre else m) m
      = ⟨m.nombre, m.cuatrimestre, m.horas_semana, m.grupos_que_cursan ++
          (grupos.filter (fun g => decide (g.cuatrimestre = m.cuatrimestre))).map
            (fun g => g.nombre)⟩ := by
  induction grupos generalizing m with
  | nil => simp
  | cons g gs ih =>
    simp only [List.foldl_cons]
    by_cases h : g.cuatrimestre = m.cuatrimestre
    · rw [if_pos h, ih]
      simp [Materia.agregarGrupo, List.filter_cons, h]
    · rw [if_neg h, ih]
      simp [List.filter_cons, h]

theorem buscarGrupo_de_miembro (grupos : List Grupo) (g : Grupo) (hg : g ∈ grupos) :
    ∃ g2, buscarGrupo grupos g.nombre = some g2 ∧ g2.nombre = g.nombre := by
  unfold buscarGrupo
  cases h : grupos.find? (fun x => decide (x.nombre = g.nombre)) with
  | none =>
    rw [List.find?_eq_none] at h
    have := h g hg
    simp at this
  | some g2 =>
    have := List.find?_some h
    exact ⟨g2, rfl, by simpa using this⟩

theorem buscarGrupo_unico (grupos : List Grupo)
    (hnom : (grupos.map (fun g => g.nombre)).Nodup) (g : Grupo) (hg : g ∈ grupos) :
    buscarGrupo grupos g.nombre = some g := by
  obtain ⟨g2, h1, h2⟩ := buscarGrupo_de_miembro grupos g hg
  have hmem : g2 ∈ grupos := List.mem_of_find?_eq_some h1
  rw [h1, List.inj_on_of_nodup_map hnom hmem hg h2]

set_option maxRecDepth 100000 in
theorem s1_tabla :
    ∀ s1 ∈ getAllSlots "Matutino",
      (∀ x ∈ getAllSlots "Matutino",
        restriccion ejEstadoS1.horario ejGrupoA s1 ≤ restriccion ejEstadoS1.horario ejGrupoA x) →
      validarRestriccionesDuras ejEstadoS1.horario ejGrupoA ejMateriaDosHoras
          ejProfesorDiezHoras s1 ejEstadoS1.profesor_ocupado
          ejEstadoS1.horas_asignadas_profesor = some (true, "Valido") ∧
        horasMateria (ejPonerS1 ejEstadoS1 s1).horas_asignadas_materia "A" "Algebra" = 1 ∧
        antesDeLasDiez s1 = true ∧
        ∀ s2 ∈ getAllSlots "Matutino",
          (∀ x ∈ getAllSlots "Matutino",
            restriccion (ejPonerS1 ejEstadoS1 s1).horario ejGrupoA s2 ≤
              restriccion (ejPonerS1 ejEstadoS1 s1).horario ejGrupoA x) →
          validarRestriccionesDuras (ejPonerS1 ejEstadoS1 s1).horario ejGrupoA
              ejMateriaDosHoras ejProfesorDiezHoras s2
              (ejPonerS1 ejEstadoS1 s1).profesor_ocupado
              (ejPonerS1 ejEstadoS1 s1).horas_asignadas_profesor = some (true, "Valido") ∧
            horasMateria (ejPonerS1 (ejPonerS1 ejEstadoS1 s1) s2).horas_asignadas_materia
              "A" "Algebra" = 2 ∧
            esSolucionCompleta [ejMateriaDosHoras] (ejPonerS1 (ejPonerS1 ejEstadoS1 s1) s2)
              = true ∧
            antesDeLasDiez s2 = true ∧ s1.dia ≠ s2.dia ∧
            entradas (ejPonerS1 (ejPonerS1 ejEstadoS1 s1) s2).horario =
              [⟨"A", s1.dia, s1.getKey, ⟨"Algebra", "Ana"⟩⟩,
               ⟨"A", s2.dia, s2.getKey, ⟨"Algebra", "Ana"⟩⟩] := by
  decide!


/-- The first slot a valid sorting routine returns has the least compared
value of the input. -/
theorem ordenar_cabeza {ordenar : Ordenador} (hord : OrdenadorValido ordenar)
    (f : Slot → Int) (l : List Slot) (hl : l ≠ []) :
    ∃ s resto, ordenar (fun a b => decide (f a < f b)) l = s :: resto ∧ s ∈ l ∧
      ∀ x ∈ l, f s ≤ f x := by
  have hp := hord.perm (fun a b => decide (f a < f b)) l
  have ho := hord.ordenado f l
  cases hL : ordenar (fun a b => decide (f a < f b)) l with
  | nil =>
    rw [hL] at hp
    exact absurd (List.Perm.nil_eq hp).symm hl
  | cons s resto =>
    rw [hL] at hp ho
    refine ⟨s, resto, rfl, hp.subset (List.mem_cons_self _ _), ?_⟩
    intro x hx
    have hx2 : x ∈ s :: resto := hp.symm.subset hx
    rcases List.mem_cons.mp hx2 with h | h
    · rw [h]
    · exact (List.pairwise_cons.mp ho).1 x h

theorem bucleProfesores_exito_directo (rec : Estado → Corrida) (asig : AsignacionPendiente)
    (slot : Slot) (p : Profesor) (resto : List Profesor) (st : Estado) (razon : String)
    (hv : validarRestriccionesDuras st.horario asig.grupo asig.materia p slot
      st.profesor_ocupado st.horas_asignadas_profesor = some (true, razon))
    (hh : horasMateria (hacerAsignacion st asig.grupo asig.materia p slot).horas_asignadas_materia
      asig.grupo.nombre asig.materia.nombre ≥ asig.materia.horas_semana) :
    bucleProfesores rec asig slot (p :: resto) st =
      ⟨Salida.exito, hacerAsignacion st asig.grupo asig.materia p slot,
        [⟨Operacion.hacer, st, asig.grupo, asig.materia, p, slot⟩]⟩ := by
  simp only [bucleProfesores, hv]
  rw [if_pos hh]

theorem bucleProfesores_exito_rec (rec : Estado → Corrida) (asig : AsignacionPendiente)
    (slot : Slot) (p : Profesor) (resto : List Profesor) (st : Estado) (razon : String)
    (hv : validarRestriccionesDuras st.horario asig.grupo asig.materia p slot
      st.profesor_ocupado st.horas_asignadas_profesor = some (true, razon))
    (hh : ¬ horasMateria
      (hacerAsignacion st asig.grupo asig.materia p slot).horas_asignadas_materia
      asig.grupo.nombre asig.materia.nombre ≥ asig.materia.horas_semana)
    (hr : (rec (hacerAsignacion st asig.grupo asig.materia p slot)).salida = Salida.exito) :
    bucleProfesores rec asig slot (p :: resto) st =
      ⟨Salida.exito, (rec (hacerAsignacion st asig.grupo asig.materia p slot)).estado,
        ⟨Operacion.hacer, st, asig.grupo, asig.materia, p, slot⟩ ::
          (rec (hacerAsignacion st asig.grupo asig.materia p slot)).traza⟩ := by
  simp only [bucleProfesores, hv]
  rw [if_neg hh]
  simp only [hr]

theorem bucleSlots_cabeza (rec : Estado → Corrida) (asig : AsignacionPendiente)
    (slot : Slot) (resto : List Slot) (st : Estado)
    (h : (bucleProfesores rec asig slot asig.profesores_disponibles st).salida
      = Salida.exito) :
    bucleSlots rec asig (slot :: resto) st =
      bucleProfesores rec asig slot asig.profesores_disponibles st := by
  simp only [bucleSlots, h]



theorem seleccionar_matutino (ordenar : Ordenador) (h : Horario) (g : Grupo) :
    seleccionarMejorSlot ordenar (getAllSlots "Matutino") h g =
      some (ordenar (comparador h g) (getAllSlots "Matutino")) := by
  unfold seleccionarMejorSlot
  rw [if_neg (by decide), if_pos (by decide!)]

theorem intentarAsignarAux_succ (ordenar : Ordenador) (asig : AsignacionPendiente) (n : Nat)
    (st : Estado) (l : List Slot) (hn : ¬ horasNecesarias asig st ≤ 0)
    (hs : seleccionarMejorSlot ordenar (getAllSlots asig.grupo.turno) st.horario asig.grupo
      = some l) :
    intentarAsignarAux ordenar asig (n + 1) st =
      bucleSlots (intentarAsignarAux ordenar asig n) asig l st := by
  rw [intentarAsignarAux, if_neg hn]
  simp only [hs]

/-- Scenario S1 for every valid sorting routine: the run places the first
hour at a slot of least compared value in the empty schedule, the second at a
slot of least compared value after that, and succeeds. -/
theorem s1_corrida (ordenar : Ordenador) (hord : OrdenadorValido ordenar) :
    ∃ s1 ∈ getAllSlots "Matutino", ∃ s2 ∈ getAllSlots "Matutino",
      (∀ x ∈ getAllSlots "Matutino",
        restriccion ejEstadoS1.horario ejGrupoA s1 ≤ restriccion ejEstadoS1.horario ejGrupoA x) ∧
      (∀ x ∈ getAllSlots "Matutino",
        restriccion (ejPonerS1 ejEstadoS1 s1).horario ejGrupoA s2 ≤
          restriccion (ejPonerS1 ejEstadoS1 s1).horario ejGrupoA x) ∧
      correr ordenar [ejGrupoA] [ejMateriaDosHoras] [ejProfesorDiezHoras] =
        ⟨Salida.exito, ejPonerS1 (ejPonerS1 ejEstadoS1 s1) s2,
          [⟨Operacion.hacer, ejEstadoS1, ejGrupoA, ejMateriaDosHoras, ejProfesorDiezHoras, s1⟩,
           ⟨Operacion.hacer, ejPonerS1 ejEstadoS1 s1, ejGrupoA, ejMateriaDosHoras,
             ejProfesorDiezHoras, s2⟩]⟩ := by
  have hcat : getAllSlots "Matutino" ≠ [] := by decide
  obtain ⟨s1, r1, hL1, hs1, hmin1⟩ :=
    ordenar_cabeza hord (restriccion ejEstadoS1.horario ejGrupoA) _ hcat
  obtain ⟨hv1, hh1, _, h2⟩ := s1_tabla s1 hs1 hmin1
  obtain ⟨s2, r2, hL2, hs2, hmin2⟩ :=
    ordenar_cabeza hord (restriccion (ejPonerS1 ejEstadoS1 s1).horario ejGrupoA) _ hcat
  obtain ⟨hv2, hh2, hc2, _⟩ := h2 s2 hs2 hmin2
  refine ⟨s1, hs1, s2, hs2, hmin1, hmin2, ?_⟩
  -- the inner call, on the state after the first placement
  have hn2 : ¬ horasNecesarias ejUnidadS1 (ejPonerS1 ejEstadoS1 s1) ≤ 0 := by
    have : horasNecesarias ejUnidadS1 (ejPonerS1 ejEstadoS1 s1) = 1 := by
      show (2 : Int) - horasMateria (ejPonerS1 ejEstadoS1 s1).horas_asignadas_materia
        "A" "Algebra" = 1
      rw [hh1]; rfl
    omega
  have hsel2 : seleccionarMejorSlot ordenar (getAllSlots ejUnidadS1.grupo.turno)
      (ejPonerS1 ejEstadoS1 s1).horario ejUnidadS1.grupo = some (s2 :: r2) := by
    show seleccionarMejorSlot ordenar (getAllSlots "Matutino") _ ejGrupoA = _
    rw [seleccionar_matutino]
    exact congrArg some hL2
  have hp2 : bucleProfesores (intentarAsignarAux ordenar ejUnidadS1 0) ejUnidadS1 s2
      ejUnidadS1.profesores_disponibles (ejPonerS1 ejEstadoS1 s1) =
      ⟨Salida.exito, ejPonerS1 (ejPonerS1 ejEstadoS1 s1) s2,
        [⟨Operacion.hacer, ejPonerS1 ejEstadoS1 s1, ejGrupoA, ejMateriaDosHoras,
          ejProfesorDiezHoras, s2⟩]⟩ :=
    bucleProfesores_exito_directo _ ejUnidadS1 s2 ejProfesorDiezHoras [] _ "Valido" hv2
      (by
        show horasMateria (ejPonerS1 (ejPonerS1 ejEstadoS1 s1) s2).horas_asignadas_materia
          "A" "Algebra" ≥ (2 : Int)
        exact hh2.symm.le)
  have hi2 : intentarAsignarAux ordenar ejUnidadS1 1 (ejPonerS1 ejEstadoS1 s1) =
      ⟨Salida.exito, ejPonerS1 (ejPonerS1 ejEstadoS1 s1) s2,
        [⟨Operacion.hacer, ejPonerS1 ejEstadoS1 s1, ejGrupoA, ejMateriaDosHoras,
          ejProfesorDiezHoras, s2⟩]⟩ := by
    rw [intentarAsignarAux_succ ordenar ejUnidadS1 0 _ _ hn2 hsel2,
      bucleSlots_cabeza _ _ _ _ _ (by rw [hp2]), hp2]
  -- the outer call, on the initial state
  have hn1 : ¬ horasNecesarias ejUnidadS1 ejEstadoS1 ≤ 0 := by decide
  have hsel1 : seleccionarMejorSlot ordenar (getAllSlots ejUnidadS1.grupo.turno)
      ejEstadoS1.horario ejUnidadS1.grupo = some (s1 :: r1) := by
    show seleccionarMejorSlot ordenar (getAllSlots "Matutino") _ ejGrupoA = _
    rw [seleccionar_matutino]
    exact congrArg some hL1
  have hp1 : bucleProfesores (intentarAsignarAux ordenar ejUnidadS1 1) ejUnidadS1 s1
      ejUnidadS1.profesores_disponibles ejEstadoS1 =
      ⟨Salida.exito, ejPonerS1 (ejPonerS1 ejEstadoS1 s1) s2,
        [⟨Operacion.hacer, ejEstadoS1, ejGrupoA, ejMateriaDosHoras, ejProfesorDiezHoras, s1⟩,
         ⟨Operacion.hacer, ejPonerS1 ejEstadoS1 s1, ejGrupoA, ejMateriaDosHoras,
          ejProfesorDiezHoras, s2⟩]⟩ := by
    have := bucleProfesores_exito_rec (intentarAsignarAux ordenar ejUnidadS1 1) ejUnidadS1 s1
      ejProfesorDiezHoras [] ejEstadoS1 "Valido" hv1
      (by
        show ¬ horasMateria (ejPonerS1 ejEstadoS1 s1).horas_asignadas_materia
          "A" "Algebra" ≥ (2 : Int)
        rw [hh1]; decide)
      (by
        show (intentarAsignarAux ordenar ejUnidadS1 1 (ejPonerS1 ejEstadoS1 s1)).salida = _
        rw [hi2])
    rw [show ejUnidadS1.profesores_disponibles = [ejProfesorDiezHoras] from rfl, this]
    show Corrida.mk _ (intentarAsignarAux ordenar ejUnidadS1 1 (ejPonerS1 ejEstadoS1 s1)).estado
      (_ :: (intentarAsignarAux ordenar ejUnidadS1 1 (ejPonerS1 ejEstadoS1 s1)).traza) = _
    rw [hi2]
    rfl
  have hi1 : intentarAsignar ordenar ejUnidadS1 ejEstadoS1 =
      ⟨Salida.exito, ejPonerS1 (ejPonerS1 ejEstadoS1 s1) s2,
        [⟨Operacion.hacer, ejEstadoS1, ejGrupoA, ejMateriaDosHoras, ejProfesorDiezHoras, s1⟩,
         ⟨Operacion.hacer, ejPonerS1 ejEstadoS1 s1, ejGrupoA, ejMateriaDosHoras,
          ejProfesorDiezHoras, s2⟩]⟩ := by
    show intentarAsignarAux ordenar ejUnidadS1 (horasNecesarias ejUnidadS1 ejEstadoS1).toNat
      ejEstadoS1 = _
    rw [show (horasNecesarias ejUnidadS1 ejEstadoS1).toNat = 1 + 1 from by decide,
      intentarAsignarAux_succ ordenar ejUnidadS1 1 _ _ hn1 hsel1,
      bucleSlots_cabeza _ _ _ _ _ (by rw [hp1]), hp1]
  show backtrackRecursivo ordenar [ejMateriaDosHoras]
    (construirAsignacionesPendientes [ejGrupoA] [ejMateriaDosHoras] [ejProfesorDiezHoras])
    ejEstadoS1 = _
  rw [show construirAsignacionesPendientes [ejGrupoA] [ejMateriaDosHoras]
    [ejProfesorDiezHoras] = [ejUnidadS1] from by decide]
  simp only [backtrackRecursivo, hi1, hc2, if_true, List.append_nil]



theorem antesDeLasDiez_hora {s : Slot} (h : antesDeLasDiez s = true) :
    ∃ a, horaDe s.hora_inicio = some a ∧ a < 10 := by
  unfold antesDeLasDiez at h
  split at h
  · rename_i a ha
    exact ⟨a, ha, of_decide_eq_true h⟩
  · exact Bool.noConfusion h

/-- Scenario S1 for every valid sorting routine: `resolver` succeeds and the
schedule holds exactly two entries, at catalog slots of two different days
that both start before 10:00. -/
theorem s1_resultado (ordenar : Ordenador) (hord : OrdenadorValido ordenar) :
    ∃ s1 ∈ getAllSlots "Matutino", ∃ s2 ∈ getAllSlots "Matutino",
      s1.dia ≠ s2.dia ∧
      (∃ a, horaDe s1.hora_inicio = some a ∧ a < 10) ∧
      (∃ a, horaDe s2.hora_inicio = some a ∧ a < 10) ∧
      ∃ h, resolver ordenar [ejGrupoA] [ejMateriaDosHoras] [ejProfesorDiezHoras]
          = some ⟨true, h⟩ ∧
        entradas h = [⟨"A", s1.dia, s1.getKey, ⟨"Algebra", "Ana"⟩⟩,
          ⟨"A", s2.dia, s2.getKey, ⟨"Algebra", "Ana"⟩⟩] := by
  obtain ⟨s1, hs1, s2, hs2, hmin1, hmin2, hc⟩ := s1_corrida ordenar hord
  obtain ⟨_, _, ha1, h2⟩ := s1_tabla s1 hs1 hmin1
  obtain ⟨_, _, _, ha2, hd, he⟩ := h2 s2 hs2 hmin2
  refine ⟨s1, hs1, s2, hs2, hd, antesDeLasDiez_hora ha1, antesDeLasDiez_hora ha2,
    (ejPonerS1 (ejPonerS1 ejEstadoS1 s1) s2).horario, ?_, he⟩
  unfold resolver
  simp only [hc]

/-! ## Runs without exception -/

theorem getAllSlots_legible (t : String) (s : Slot) (hs : s ∈ getAllSlots t) :
    (horaDe s.hora_inicio).isSome = true ∧ (horaDe s.hora_fin).isSome = true := by
  simp only [getAllSlots, List.mem_flatMap, List.mem_map] at hs
  obtain ⟨_, _, h, hh, rfl⟩ := hs
  have hm : ∀ x ∈ SLOTS_MATUTINO,
      (horaDe x.1).isSome = true ∧ (horaDe x.2).isSome = true := by decide!
  have hv : ∀ x ∈ SLOTS_VESPERTINO,
      (horaDe x.1).isSome = true ∧ (horaDe x.2).isSome = true := by decide!
  split at hh
  · exact hm h hh
  · exact hv h hh

theorem getAllSlots_length (t : String) : (getAllSlots t).length = 35 := by
  by_cases h : t = "Matutino"
  · simp [getAllSlots, h, DIAS_SEMANA, SLOTS_MATUTINO]
  · simp [getAllSlots, h, DIAS_SEMANA, SLOTS_VESPERTINO]

/-- On the catalog `seleccionarMejorSlot` never throws. -/
theorem seleccionar_catalogo (ordenar : Ordenador) (t : String) (h : Horario) (g : Grupo) :
    seleccionarMejorSlot ordenar (getAllSlots t) h g =
      some (ordenar (comparador h g) (getAllSlots t)) := by
  unfold seleccionarMejorSlot
  rw [if_neg (by rw [getAllSlots_length]; decide),
    if_pos (List.all_eq_true.mpr (fun s hs => (getAllSlots_legible t s hs).1))]

theorem buscar_mem {V : Type} {m : Mapa V} {k : String} {v : V}
    (h : Mapa.buscar m k = some v) : (k, v) ∈ m := by
  induction m with
  | nil => simp [Mapa.buscar] at h
  | cons e r ih =>
    obtain ⟨c, w⟩ := e
    by_cases hc : c = k
    · subst hc
      simp only [Mapa.buscar, if_true, Option.some.injEq] at h
      subst h
      exact List.mem_cons_self _ _
    · simp only [Mapa.buscar, hc, if_false] at h
      exact List.mem_cons_of_mem _ (ih h)

theorem horasLegibles_catalogo {p : Profesor} (hp : DisponibilidadLegible p) {t : String}
    {s : Slot} (hs : s ∈ getAllSlots t) : HorasLegibles p s :=
  ⟨(getAllSlots_legible t s hs).1, (getAllSlots_legible t s hs).2,
    fun _ hr r hrr => hp _ (buscar_mem hr) r hrr⟩

/-- The validator returns a verdict when the hour texts it reads parse. -/
theorem validar_total (horario : Horario) (g : Grupo) (m : Materia) (p : Profesor)
    (s : Slot) (po : Ocupacion) (hp : Mapa Int) (hl : HorasLegibles p s) :
    validarRestriccionesDuras horario g m p s po hp ≠ none := by
  unfold validarRestriccionesDuras
  have := estaDisponible_legible_total p s hl
  repeat' split
  all_goals first | exact Option.some_ne_none _ | contradiction

theorem bucleProfesores_sin_excepcion (rec : Estado → Corrida) (asig : AsignacionPendiente)
    (slot : Slot) (hrec : ∀ st, (rec st).salida ≠ Salida.excepcion) (profs : List Profesor)
    (hl : ∀ p ∈ profs, HorasLegibles p slot) (st : Estado) :
    (bucleProfesores rec asig slot profs st).salida ≠ Salida.excepcion := by
  induction profs generalizing st with
  | nil => simp [bucleProfesores]
  | cons p resto ih =>
    have ih2 := ih (fun q hq => hl q (List.mem_cons_of_mem _ hq))
    have hv := validar_total st.horario asig.grupo asig.materia p slot st.profesor_ocupado
      st.horas_asignadas_profesor (hl p (List.mem_cons_self _ _))
    unfold bucleProfesores
    split
    · rename_i h
      exact absurd h hv
    · exact ih2 st
    · dsimp only
      split
      · simp
      · split
        · exact ih2 _
        · exact hrec _

theorem bucleSlots_sin_excepcion (rec : Estado → Corrida) (asig : AsignacionPendiente)
    (hrec : ∀ st, (rec st).salida ≠ Salida.excepcion) (slots : List Slot)
    (hl : ∀ s ∈ slots, ∀ p ∈ asig.profesores_disponibles, HorasLegibles p s) (st : Estado) :
    (bucleSlots rec asig slots st).salida ≠ Salida.excepcion := by
  induction slots generalizing st with
  | nil => simp [bucleSlots]
  | cons s resto ih =>
    have ih2 := ih (fun q hq => hl q (List.mem_cons_of_mem _ hq))
    have hp := bucleProfesores_sin_excepcion rec asig s hrec asig.profesores_disponibles
      (hl s (List.mem_cons_self _ _)) st
    unfold bucleSlots
    dsimp only
    split
    · exact ih2 _
    · exact hp

theorem intentarAsignarAux_sin_excepcion {ordenar : Ordenador} (hord : OrdenadorValido ordenar)
    (asig : AsignacionPendiente)
    (hl : ∀ p ∈ asig.profesores_disponibles, DisponibilidadLegible p) (n : Nat) (st : Estado) :
    (intentarAsignarAux ordenar asig n st).salida ≠ Salida.excepcion := by
  induction n generalizing st with
  | zero =>
    rw [intentarAsignarAux]
    split
    · simp
    · simp
  | succ n ih =>
    rw [intentarAsignarAux]
    split
    · simp
    · rw [seleccionar_catalogo]
      apply bucleSlots_sin_excepcion _ _ ih
      intro s hs p hp
      exact horasLegibles_catalogo (hl p hp) (((hord.perm _ _).mem_iff).mp hs)

theorem backtrackRecursivo_sin_excepcion {ordenar : Ordenador} (hord : OrdenadorValido ordenar)
    (materias : List Materia) (pend : List AsignacionPendiente)
    (hl : ∀ asig ∈ pend, ∀ p ∈ asig.profesores_disponibles, DisponibilidadLegible p)
    (st : Estado) :
    (backtrackRecursivo ordenar materias pend st).salida ≠ Salida.excepcion := by
  induction pend generalizing st with
  | nil =>
    simp only [backtrackRecursivo]
    split <;> simp
  | cons a resto ih =>
    have ha := intentarAsignarAux_sin_excepcion hord a (hl a (List.mem_cons_self _ _))
      (horasNecesarias a st).toNat st
    simp only [backtrackRecursivo]
    split
    · exact ih (fun b hb => hl b (List.mem_cons_of_mem _ hb)) _
    · exact ha

/-- With legible availability texts `resolver` returns a result. -/
theorem resolver_devuelve {ordenar : Ordenador} (hord : OrdenadorValido ordenar)
    (grupos : List Grupo) (materias : List Materia) (profesores : List Profesor)
    (hl : ∀ p ∈ profesores, DisponibilidadLegible p) :
    (correr ordenar grupos materias profesores).salida = Salida.exito ∨
    (correr ordenar grupos materias profesores).salida = Salida.fallo := by
  have h1 : (correr ordenar grupos materias profesores).salida ≠ Salida.excepcion := by
    apply backtrackRecursivo_sin_excepcion hord
    intro asig hasig p hp
    rw [(pendiente_datos hasig).2.2.2.2, List.mem_filter] at hp
    exact hl p hp.1
  have h2 := (correr_legal ordenar grupos materias profesores).2.2
  cases h : (correr ordenar grupos materias profesores).salida with
  | exito => exact Or.inl rfl
  | fallo => exact Or.inr rfl
  | excepcion => exact absurd h h1
  | sinCombustible => exact absurd h h2

/-! ## Hours that cannot be covered -/

theorem countP_le_suma {α β : Type} (L : List α) (Q : List β) (P : α → Bool)
    (B : β → α → Bool) (h : ∀ e ∈ L, P e = true → ∃ q ∈ Q, B q e = true) :
    L.countP P ≤ (Q.map (fun q => L.countP (B q))).sum := by
  induction L with
  | nil => simp
  | cons e L ih =>
    have ih2 := ih (fun x hx => h x (List.mem_cons_of_mem _ hx))
    have hsum : (Q.map (fun q => (e :: L).countP (B q))).sum
        = (Q.map (fun q => L.countP (B q))).sum
          + (Q.map (fun q => if B q e = true then 1 else 0)).sum := by
      rw [← List.sum_map_add]
      congr 1
      apply List.map_congr_left
      intro q _
      rw [List.countP_cons]
    rw [hsum, List.countP_cons]
    by_cases hp : P e = true
    · obtain ⟨q, hq, hb⟩ := h e (List.mem_cons_self _ _) hp
      have h1 : (if B q e = true then 1 else 0) ≤
          (Q.map (fun q => if B q e = true then 1 else 0)).sum :=
        List.single_le_sum (fun _ _ => Nat.zero_le _) _
          (List.mem_map.mpr ⟨q, hq, rfl⟩)
      rw [if_pos hb] at h1
      rw [if_pos hp]
      omega
    · rw [if_neg hp]
      omega

theorem suma_acotada {β : Type} (Q : List β) (f : β → Nat) (g : β → Int)
    (h : ∀ q ∈ Q, (f q : Int) ≤ g q) : (((Q.map f).sum : Nat) : Int) ≤ (Q.map g).sum := by
  induction Q with
  | nil => simp
  | cons q Q ih =>
    have h1 := h q (List.mem_cons_self _ _)
    have h2 := ih (fun x hx => h x (List.mem_cons_of_mem _ hx))
    simp only [List.map_cons, List.sum_cons, Nat.cast_add]
    omega

/-- The budget of every professor holds in the state the run ends in. -/
theorem presupuesto_final (ordenar : Ordenador) (grupos : List Grupo)
    (materias : List Materia) (profesores : List Profesor)
    (hnom : (profesores.map (fun p => p.nombre)).Nodup)
    (hpos : ∀ p ∈ profesores, 0 ≤ p.horas_disponibles) :
    ∀ p ∈ profesores,
      Mapa.obtener (correr ordenar grupos materias profesores).estado.horas_asignadas_profesor
        p.nombre 0 ≤ p.horas_disponibles := by
  refine (alcanzados_invariante ordenar grupos materias profesores
    (fun st => ∀ p ∈ profesores,
      Mapa.obtener st.horas_asignadas_profesor p.nombre 0 ≤ p.horas_disponibles) ?_ ?_).2.2
  · intro p hp
    rw [horasProfesor_inicial]
    exact hpos p hp
  · rintro ⟨op, antes, g, m, q, s⟩ ⟨asig, hasig, hl⟩ hinv p hp
    obtain ⟨_, _, _, _, hprofs⟩ := pendiente_datos hasig
    obtain ⟨_, _, hq, hmatch⟩ := hl
    rw [hprofs, List.mem_filter] at hq
    have hold := hinv p hp
    dsimp only at hold hq
    cases op with
    | hacer =>
      obtain ⟨⟨razon, hv⟩, _, _⟩ := hmatch
      dsimp only at hv
      have hok := validar_ok hv
      simp only [Paso.despues]
      rw [horasProfesor_hacer]
      by_cases hn : p.nombre = q.nombre
      · have e : p = q := List.inj_on_of_nodup_map hnom hp hq.1 hn
        subst e
        rw [if_pos rfl]
        have := hok.2.2.2.1
        omega
      · rw [if_neg hn]
        exact hold
    | deshacer =>
      simp only [Paso.despues]
      rw [horasProfesor_deshacer]
      split
      · omega
      · exact hold

/-- The hours placed for one subject name are at most the budgets of the
professors qualified for it, in the state the run ends in. -/
theorem horasMateria_final_acotadas (ordenar : Ordenador) (grupos : List Grupo)
    (materias : List Materia) (profesores : List Profesor)
    (hnom : (profesores.map (fun p => p.nombre)).Nodup)
    (hpos : ∀ p ∈ profesores, 0 ≤ p.horas_disponibles) (gn mn : String) :
    horasMateria (correr ordenar grupos materias profesores).estado.horas_asignadas_materia
        gn mn
      ≤ ((profesores.filter (fun p => p.puedeImpartir mn)).map
          (fun p => p.horas_disponibles)).sum := by
  have hc := (cuentas_alcanzados ordenar grupos materias profesores).2.2
  have hpre := presupuesto_final ordenar grupos materias profesores hnom hpos
  have hcal := (entradas_invariante ordenar grupos materias profesores
    (fun _ _ _ v => ∃ p ∈ profesores, p.nombre = v.profesor ∧
      p.puedeImpartir v.materia = true) (by
        intro asig hasig paso hl _
        obtain ⟨_, _, _, _, hprofs⟩ := pendiente_datos hasig
        obtain ⟨_, e2, hp, _⟩ := hl
        rw [hprofs, List.mem_filter] at hp
        rw [e2]
        exact ⟨paso.profesor, hp.1, rfl, hp.2⟩)).2
  generalize (correr ordenar grupos materias profesores).estado = fin at hc hpre hcal
  rw [hc.materia]
  have h1 : horasPuestasMateria fin.horario gn mn ≤
      ((profesores.filter (fun p => p.puedeImpartir mn)).map
        (fun q => (entradas fin.horario).countP
          (fun e => decide (e.valor.profesor = q.nombre)))).sum := by
    unfold horasPuestasMateria
    apply countP_le_suma
    intro e he hP
    have hv := (mem_entradas_iff fin.horario hc.formado e).mp he
    obtain ⟨p, hp, hpn, hpm⟩ := hcal _ _ _ _ hv
    have hm : e.valor.materia = mn := (of_decide_eq_true hP).2
    rw [hm] at hpm
    exact ⟨p, List.mem_filter.mpr ⟨hp, hpm⟩, decide_eq_true hpn.symm⟩
  have h2 := suma_acotada (profesores.filter (fun p => p.puedeImpartir mn))
    (fun q => (entradas fin.horario).countP (fun e => decide (e.valor.profesor = q.nombre)))
    (fun p => p.horas_disponibles) (by
      intro q hq
      have := hpre q (List.mem_filter.mp hq).1
      rw [hc.profesor] at this
      exact this)
  have h3 : ((horasPuestasMateria fin.horario gn mn : Nat) : Int) ≤
      ((((profesores.filter (fun p => p.puedeImpartir mn)).map
        (fun q => (entradas fin.horario).countP
          (fun e => decide (e.valor.profesor = q.nombre)))).sum : Nat) : Int) :=
    Int.ofNat_le.mpr h1
  exact le_trans h3 h2

/-- A unit that needs more hours than its qualified professors have keeps the
run from succeeding. -/
theorem nunca_exito_por_horas (ordenar : Ordenador) (grupos : List Grupo)
    (materias : List Materia) (profesores : List Profesor)
    (hnom : (profesores.map (fun p => p.nombre)).Nodup)
    (hpos : ∀ p ∈ profesores, 0 ≤ p.horas_disponibles)
    (asig : AsignacionPendiente)
    (hasig : asig ∈ construirAsignacionesPendientes grupos materias profesores)
    (hcorto : (asig.profesores_disponibles.map (fun p => p.horas_disponibles)).sum
      < asig.materia.horas_semana) :
    (correr ordenar grupos materias profesores).salida ≠ Salida.exito := by
  intro hex
  obtain ⟨hm, _, hgn, _, hprofs⟩ := pendiente_datos hasig
  have h1 := esSolucionCompleta_horas materias _
    (backtrackRecursivo_exito ordenar materias _ _ hex) asig.materia hm asig.grupo.nombre hgn
  have h2 := horasMateria_final_acotadas ordenar grupos materias profesores hnom hpos
    asig.grupo.nombre asig.materia.nombre
  rw [hprofs] at hcorto
  have h1b : asig.materia.horas_semana ≤
      horasMateria (correr ordenar grupos materias profesores).estado.horas_asignadas_materia
        asig.grupo.nombre asig.materia.nombre := h1
  omega

/-! ## Shifts that cannot be matched -/

/-- Every entry of the state the run ends in was placed for a pending unit of
that group name and subject name, with one of its professors whose preferred
shift is `"Ambos"` or the shift of the unit's group. -/
theorem entradas_turno_final (ordenar : Ordenador) (grupos : List Grupo)
    (materias : List Materia) (profesores : List Profesor) :
    ∀ gn d k v, valorEn (correr ordenar grupos materias profesores).estado.horario gn d k
        = some v →
      ∃ asig ∈ construirAsignacionesPendientes grupos materias profesores,
        asig.grupo.nombre = gn ∧ asig.materia.nombre = v.materia ∧
        ∃ p ∈ asig.profesores_disponibles,
          p.turno_preferido = "Ambos" ∨ p.turno_preferido = asig.grupo.turno := by
  refine (entradas_invariante ordenar grupos materias profesores
    (fun gn _ _ v => ∃ asig ∈ construirAsignacionesPendientes grupos materias profesores,
        asig.grupo.nombre = gn ∧ asig.materia.nombre = v.materia ∧
        ∃ p ∈ asig.profesores_disponibles,
          p.turno_preferido = "Ambos" ∨ p.turno_preferido = asig.grupo.turno) ?_).2
  intro asig hasig paso hl hop
  obtain ⟨e1, e2, hp, hmatch⟩ := hl
  rw [hop] at hmatch
  obtain ⟨⟨razon, hv⟩, _, _⟩ := hmatch
  have hok := validar_ok hv
  refine ⟨asig, hasig, by rw [e1], by rw [e2], paso.profesor, hp, ?_⟩
  rw [← e1, ← hok.1]
  exact hok.2.2.2.2.1

/-- Two pending units of one group name and one subject name have the same
group and the same qualified professors. -/
theorem pendientes_mismo_nombre {grupos : List Grupo} {materias : List Materia}
    {profesores : List Profesor} {a b : AsignacionPendiente}
    (ha : a ∈ construirAsignacionesPendientes grupos materias profesores)
    (hb : b ∈ construirAsignacionesPendientes grupos materias profesores)
    (hg : a.grupo.nombre = b.grupo.nombre) (hm : a.materia.nombre = b.materia.nombre) :
    a.grupo = b.grupo ∧ a.profesores_disponibles = b.profesores_disponibles := by
  obtain ⟨_, hga, _, _, hpa⟩ := pendiente_datos ha
  obtain ⟨_, hgb, _, _, hpb⟩ := pendiente_datos hb
  rw [hg, hgb] at hga
  rw [hpa, hpb, hm]
  exact ⟨(Option.some.inj hga).symm, rfl⟩

/-- A unit with positive hours and no professor of a compatible shift keeps
the run from succeeding. -/
theorem nunca_exito_por_turno (ordenar : Ordenador) (grupos : List Grupo)
    (materias : List Materia) (profesores : List Profesor) (asig : AsignacionPendiente)
    (hasig : asig ∈ construirAsignacionesPendientes grupos materias profesores)
    (hpos : 0 < asig.materia.horas_semana)
    (hturno : ∀ p ∈ asig.profesores_disponibles,
      p.turno_preferido ≠ "Ambos" ∧ p.turno_preferido ≠ asig.grupo.turno) :
    (correr ordenar grupos materias profesores).salida ≠ Salida.exito := by
  intro hex
  obtain ⟨hm, _, hgn, _, _⟩ := pendiente_datos hasig
  have h1 := esSolucionCompleta_horas materias _
    (backtrackRecursivo_exito ordenar materias _ _ hex) asig.materia hm asig.grupo.nombre hgn
  have hc := (cuentas_alcanzados ordenar grupos materias profesores).2.2
  have hent := entradas_turno_final ordenar grupos materias profesores
  have h1b : asig.materia.horas_semana ≤
      horasMateria (correr ordenar grupos materias profesores).estado.horas_asignadas_materia
        asig.grupo.nombre asig.materia.nombre := h1
  generalize (correr ordenar grupos materias profesores).estado = fin at hc hent h1b
  rw [hc.materia] at h1b
  have hcount : 0 < horasPuestasMateria fin.horario asig.grupo.nombre asig.materia.nombre := by
    omega
  unfold horasPuestasMateria at hcount
  obtain ⟨e, he, hP⟩ := List.countP_pos_iff.mp hcount
  have hv := (mem_entradas_iff fin.horario hc.formado e).mp he
  obtain ⟨b, hb, hbg, hbm, p, hp, hpt⟩ := hent _ _ _ _ hv
  have hP2 := of_decide_eq_true hP
  obtain ⟨eg, ep⟩ := pendientes_mismo_nombre hb hasig (hbg.trans hP2.1) (hbm.trans hP2.2)
  rw [ep] at hp
  rw [eg] at hpt
  rcases hpt with h | h
  · exact (hturno p hp).1 h
  · exact (hturno p hp).2 h

/-! ## Conflict graph: containers -/

theorem mem_colocar {α : Type} (lt : α → α → Bool) (x z : α) (l : List α) :
    z ∈ colocar lt x l ↔ z = x ∨ z ∈ l := by
  induction l with
  | nil => simp [colocar]
  | cons y ys ih =>
    unfold colocar
    split
    · simp
    · simp only [List.mem_cons, ih]
      tauto

theorem perm_colocar {α : Type} (lt : α → α → Bool) (x : α) (l : List α) :
    (colocar lt x l).Perm (x :: l) := by
  induction l with
  | nil => simp [colocar]
  | cons y ys ih =>
    unfold colocar
    split
    · exact List.Perm.refl _
    · exact (List.Perm.cons y ih).trans (List.Perm.swap x y ys)

theorem map_colocar {α β : Type} (f : α → β) (lt : β → β → Bool) (x : α) (l : List α) :
    (colocar (fun a b => lt (f a) (f b)) x l).map f = colocar lt (f x) (l.map f) := by
  induction l with
  | nil => simp [colocar]
  | cons y ys ih =>
    simp only [colocar, List.map_cons]
    split
    · simp
    · simp [ih]

theorem mem_insertar (x z : NodoAsignacion) (l : List NodoAsignacion) :
    z ∈ insertar x l ↔ z = x ∨ z ∈ l := by
  unfold insertar
  split
  · rename_i h
    constructor
    · exact Or.inr
    · rintro (h2 | h2)
      · rw [h2]; exact h
      · exact h2
  · exact mem_colocar _ _ _ _

theorem nodup_insertar (x : NodoAsignacion) (l : List NodoAsignacion) (h : l.Nodup) :
    (insertar x l).Nodup := by
  unfold insertar
  split
  · exact h
  · rename_i hx
    exact (perm_colocar _ x l).nodup_iff.mpr (List.nodup_cons.mpr ⟨hx, h⟩)

theorem buscarNodo_isSome (m : MapaNodos) (k : NodoAsignacion) :
    (buscarNodo m k).isSome = true ↔ k ∈ m.map Prod.fst := by
  induction m with
  | nil => simp [buscarNodo]
  | cons e r ih =>
    obtain ⟨c, v⟩ := e
    by_cases h : c = k
    · subst h
      simp [buscarNodo]
    · simp only [buscarNodo, h, if_false, ih, List.map_cons, List.mem_cons]
      constructor
      · exact Or.inr
      · rintro (h2 | h2)
        · exact absurd h2.symm h
        · exact h2

theorem buscarNodo_colocar (m : MapaNodos) (k a : NodoAsignacion) (v : List NodoAsignacion)
    (hk : buscarNodo m k = none) :
    buscarNodo (colocar (fun x y => x.1.menor y.1) (k, v) m) a
      = if a = k then some v else buscarNodo m a := by
  induction m with
  | nil =>
    by_cases h : a = k
    · subst h
      simp [colocar, buscarNodo]
    · simp [colocar, buscarNodo, h, Ne.symm h]
  | cons e r ih =>
    obtain ⟨c, w⟩ := e
    have hck : c ≠ k := by
      intro h
      subst h
      simp [buscarNodo] at hk
    have hr : buscarNodo r k = none := by
      simpa [buscarNodo, hck] using hk
    unfold colocar
    split
    · by_cases h : a = k
      · subst h
        simp [buscarNodo]
      · simp [buscarNodo, h, Ne.symm h]
    · by_cases h : a = k
      · subst h
        simp only [buscarNodo, hck, if_false, ih hr, if_true]
      · by_cases hca : c = a
        · simp [buscarNodo, hca, h]
        · simp only [buscarNodo, hca, if_false, ih hr, h]

theorem buscarNodo_map (m : MapaNodos) (k a : NodoAsignacion) (v : List NodoAsignacion) :
    buscarNodo (m.map (fun e => (e.1, if e.1 = k then v else e.2))) a
      = if a = k then (buscarNodo m k).map (fun _ => v) else buscarNodo m a := by
  induction m with
  | nil => simp [buscarNodo]
  | cons e r ih =>
    obtain ⟨c, w⟩ := e
    simp only [List.map_cons, buscarNodo, ih]
    by_cases hck : c = k
    · subst hck
      by_cases h : a = c
      · subst h
        simp
      · simp [h, Ne.symm h]
    · by_cases h : a = k
      · subst h
        simp [hck]
      · by_cases hca : c = a
        · simp [hca, h, hck]
        · simp [hca, h, hck]

theorem buscarNodo_ponerNodo (m : MapaNodos) (k a : NodoAsignacion) (v : List NodoAsignacion) :
    buscarNodo (ponerNodo m k v) a = if a = k then some v else buscarNodo m a := by
  unfold ponerNodo
  split
  · rename_i hs
    rw [buscarNodo_map]
    obtain ⟨w, hw⟩ := Option.isSome_iff_exists.mp hs
    simp [hw]
  · rename_i hs
    apply buscarNodo_colocar
    simpa using hs

theorem claves_ponerNodo (m : MapaNodos) (k : NodoAsignacion) (v : List NodoAsignacion) :
    (ponerNodo m k v).map Prod.fst = insertar k (m.map Prod.fst) := by
  unfold ponerNodo insertar
  by_cases hs : (buscarNodo m k).isSome = true
  · rw [if_pos hs, if_pos ((buscarNodo_isSome m k).mp hs), List.map_map]
    apply List.map_congr_left
    intro e _
    rfl
  · rw [if_neg hs, if_neg (fun h => hs ((buscarNodo_isSome m k).mpr h))]
    exact map_colocar Prod.fst NodoAsignacion.menor (k, v) m

/-! ## Conflict graph: neighbours -/

theorem obtenerVecinos_eq (g : GrafoConflictos) (a : NodoAsignacion) :
    g.obtenerVecinos a = (buscarNodo g.aristas a).getD [] := by
  unfold GrafoConflictos.obtenerVecinos
  cases buscarNodo g.aristas a <;> rfl

theorem getD_ponerNodo (m : MapaNodos) (k a : NodoAsignacion) (v : List NodoAsignacion) :
    (buscarNodo (ponerNodo m k v) a).getD [] = if a = k then v else (buscarNodo m a).getD [] := by
  rw [buscarNodo_ponerNodo]
  split <;> rfl

theorem vecinos_agregarNodo (g : GrafoConflictos) (n a : NodoAsignacion) :
    (g.agregarNodo n).obtenerVecinos a = g.obtenerVecinos a := by
  rw [obtenerVecinos_eq, obtenerVecinos_eq]
  unfold GrafoConflictos.agregarNodo
  dsimp only
  split
  · rename_i hn
    rw [getD_ponerNodo]
    split
    · rename_i h
      subst h
      rw [Option.isNone_iff_eq_none.mp hn]
      rfl
    · rfl
  · rfl

theorem mem_vecinos_agregarArista (g : GrafoConflictos) (n1 n2 a z : NodoAsignacion) :
    z ∈ (g.agregarArista n1 n2).obtenerVecinos a ↔
      z ∈ g.obtenerVecinos a ∨ (a = n1 ∧ z = n2) ∨ (a = n2 ∧ z = n1) := by
  rw [obtenerVecinos_eq, obtenerVecinos_eq]
  unfold GrafoConflictos.agregarArista
  dsimp only
  rw [getD_ponerNodo, getD_ponerNodo]
  by_cases h2 : a = n2
  · subst h2
    rw [if_pos rfl, mem_insertar]
    by_cases h1 : a = n1
    · subst h1
      rw [if_pos rfl, mem_insertar]
      tauto
    · rw [if_neg h1]
      tauto
  · rw [if_neg h2, getD_ponerNodo]
    by_cases h1 : a = n1
    · subst h1
      rw [if_pos rfl, mem_insertar]
      tauto
    · rw [if_neg h1]
      tauto

theorem vecinos_construirMapeo (g : GrafoConflictos) (profesores : List Profesor)
    (a : NodoAsignacion) :
    (g.construirMapeoProfesores profesores).obtenerVecinos a = g.obtenerVecinos a := rfl

theorem simetrico_agregarNodo {g : GrafoConflictos} (h : Simetrico g) (n : NodoAsignacion) :
    Simetrico (g.agregarNodo n) := by
  intro a b hb
  rw [vecinos_agregarNodo] at hb ⊢
  exact h a b hb

theorem simetrico_agregarArista {g : GrafoConflictos} (h : Simetrico g)
    (n1 n2 : NodoAsignacion) : Simetrico (g.agregarArista n1 n2) := by
  intro a b hb
  rw [mem_vecinos_agregarArista] at hb ⊢
  rcases hb with hb | ⟨h1, h2⟩ | ⟨h1, h2⟩
  · exact Or.inl (h a b hb)
  · exact Or.inr (Or.inr ⟨h2, h1⟩)
  · exact Or.inr (Or.inl ⟨h2, h1⟩)

theorem foldl_invariante {α β : Type} (Inv : β → Prop) (f : β → α → β)
    (hf : ∀ b a, Inv b → Inv (f b a)) (l : List α) (b : β) (hb : Inv b) :
    Inv (l.foldl f b) := by
  induction l generalizing b with
  | nil => exact hb
  | cons x xs ih => exact ih _ (hf b x hb)

theorem simetrico_construir {g : GrafoConflictos} (h : Simetrico g) (grupos : List Grupo)
    (materias : List Materia) (profesores : List Profesor) :
    Simetrico (g.construirDesdeDatos grupos materias profesores) := by
  unfold GrafoConflictos.construirDesdeDatos
  dsimp only
  apply foldl_invariante Simetrico
  · intro b p hb
    split
    · exact simetrico_agregarArista hb _ _
    · exact hb
  · apply foldl_invariante Simetrico
    · intro b m hb
      apply foldl_invariante Simetrico
      · intro b2 gn hb2
        exact simetrico_agregarNodo hb2 _
      · exact hb
    · exact h

theorem simetrico_ejecutar (llamadas : List Llamada) : Simetrico (ejecutar llamadas) := by
  unfold ejecutar
  apply foldl_invariante Simetrico
  · intro g c hg
    cases c with
    | agregarNodo n => exact simetrico_agregarNodo hg n
    | agregarArista n1 n2 => exact simetrico_agregarArista hg n1 n2
    | construirDesdeDatos gr ma pr => exact simetrico_construir hg gr ma pr
  · intro a b hb
    exact absurd hb (List.not_mem_nil _)

/-! ## Conflict graph: construction -/

theorem fold_agregarNodo_eq (g : GrafoConflictos) (materias : List Materia) :
    materias.foldl (fun g materia =>
      materia.grupos_que_cursan.foldl (fun g grupo_nombre =>
        g.agregarNodo ⟨grupo_nombre, materia.nombre, materia.cuatrimestre⟩) g) g
      = (nodosDe materias).foldl GrafoConflictos.agregarNodo g := by
  induction materias generalizing g with
  | nil => rfl
  | cons m ms ih =>
    simp only [List.foldl_cons, nodosDe, List.flatMap_cons, List.foldl_append, List.foldl_map]
    exact ih _

theorem mem_nodos_fold (l : List NodoAsignacion) (g : GrafoConflictos) (n : NodoAsignacion) :
    n ∈ (l.foldl GrafoConflictos.agregarNodo g).nodos ↔ n ∈ g.nodos ∨ n ∈ l := by
  induction l generalizing g with
  | nil => simp
  | cons x xs ih =>
    rw [List.foldl_cons, ih]
    show n ∈ insertar x g.nodos ∨ n ∈ xs ↔ _
    rw [mem_insertar, List.mem_cons]
    tauto

theorem ppm_fold_nodos (l : List NodoAsignacion) (g : GrafoConflictos) :
    (l.foldl GrafoConflictos.agregarNodo g).profesores_por_materia
      = g.profesores_por_materia := by
  induction l generalizing g with
  | nil => rfl
  | cons x xs ih => rw [List.foldl_cons, ih]; rfl

theorem vecinos_fold_nodos (l : List NodoAsignacion) (g : GrafoConflictos)
    (a : NodoAsignacion) :
    (l.foldl GrafoConflictos.agregarNodo g).obtenerVecinos a = g.obtenerVecinos a := by
  induction l generalizing g with
  | nil => rfl
  | cons x xs ih => rw [List.foldl_cons, ih, vecinos_agregarNodo]

theorem coherente_nuevo (ppm : Mapa (List String)) : GrafoCoherente ⟨[], [], ppm⟩ :=
  ⟨rfl, List.nodup_nil, fun _ => List.nodup_nil, fun _ _ h => absurd h (List.not_mem_nil _)⟩

theorem coherente_agregarNodo {g : GrafoConflictos} (h : GrafoCoherente g)
    (n : NodoAsignacion) : GrafoCoherente (g.agregarNodo n) := by
  refine ⟨?_, nodup_insertar n g.nodos h.sinRepetir, ?_, ?_⟩
  · show (if (buscarNodo g.aristas n).isNone then ponerNodo g.aristas n [] else g.aristas).map
      Prod.fst = insertar n g.nodos
    split
    · rw [claves_ponerNodo, h.claves]
    · rename_i hn
      have hs : (buscarNodo g.aristas n).isSome = true := by
        cases hb : buscarNodo g.aristas n with
        | none => rw [hb] at hn; exact absurd rfl hn
        | some _ => rfl
      have hmem : n ∈ g.nodos := by
        rw [← h.claves]
        exact (buscarNodo_isSome _ _).mp hs
      rw [h.claves]
      unfold insertar
      rw [if_pos hmem]
  · intro a
    rw [vecinos_agregarNodo]
    exact h.vecinosSinRepetir a
  · intro a b hb
    rw [vecinos_agregarNodo] at hb
    obtain ⟨h1, h2, h3⟩ := h.vecinosNodos a b hb
    exact ⟨(mem_insertar _ _ _).mpr (Or.inr h1), (mem_insertar _ _ _).mpr (Or.inr h2), h3⟩

theorem mem_insertar_self {x : NodoAsignacion} {l : List NodoAsignacion} (h : x ∈ l) :
    insertar x l = l := by
  unfold insertar
  rw [if_pos h]

theorem coherente_agregarArista {g : GrafoConflictos} (h : GrafoCoherente g)
    {n1 n2 : NodoAsignacion} (h1 : n1 ∈ g.nodos) (h2 : n2 ∈ g.nodos) (hne : n1 ≠ n2) :
    GrafoCoherente (g.agregarArista n1 n2) ∧ (g.agregarArista n1 n2).nodos = g.nodos := by
  refine ⟨⟨?_, h.sinRepetir, ?_, ?_⟩, rfl⟩
  · show (ponerNodo (ponerNodo g.aristas n1 _) n2 _).map Prod.fst = g.nodos
    rw [claves_ponerNodo, claves_ponerNodo, h.claves, mem_insertar_self h1,
      mem_insertar_self h2]
  · intro a
    rw [obtenerVecinos_eq]
    show ((buscarNodo (ponerNodo (ponerNodo g.aristas n1 _) n2 _) a).getD []).Nodup
    have hv := fun x => obtenerVecinos_eq g x ▸ h.vecinosSinRepetir x
    rw [getD_ponerNodo]
    split
    · apply nodup_insertar
      rw [getD_ponerNodo]
      split
      · exact nodup_insertar _ _ (hv _)
      · exact hv _
    · rw [getD_ponerNodo]
      split
      · exact nodup_insertar _ _ (hv _)
      · exact hv _
  · intro a b hb
    rw [mem_vecinos_agregarArista] at hb
    rcases hb with hb | ⟨e1, e2⟩ | ⟨e1, e2⟩
    · exact h.vecinosNodos a b hb
    · subst e1 e2
      exact ⟨h1, h2, hne⟩
    · subst e1 e2
      exact ⟨h2, h1, Ne.symm hne⟩

/-! ## Conflict graph: pairs and edges -/

theorem mem_pares {α : Type} {l : List α} {a b : α} (h : (a, b) ∈ paresOrdenados l) :
    a ∈ l ∧ b ∈ l := by
  induction l with
  | nil => exact absurd h (List.not_mem_nil _)
  | cons x t ih =>
    simp only [paresOrdenados, List.mem_append, List.mem_map, Prod.mk.injEq] at h
    rcases h with ⟨y, hy, e1, e2⟩ | h
    · subst e1 e2
      exact ⟨List.mem_cons_self _ _, List.mem_cons_of_mem _ hy⟩
    · exact ⟨List.mem_cons_of_mem _ (ih h).1, List.mem_cons_of_mem _ (ih h).2⟩

theorem pares_distintos {α : Type} {l : List α} (hl : l.Nodup) {a b : α}
    (h : (a, b) ∈ paresOrdenados l) : a ≠ b ∧ (b, a) ∉ paresOrdenados l := by
  induction l with
  | nil => exact absurd h (List.not_mem_nil _)
  | cons x t ih =>
    obtain ⟨hx, ht⟩ := List.nodup_cons.mp hl
    simp only [paresOrdenados, List.mem_append, List.mem_map, Prod.mk.injEq] at h ⊢
    rcases h with ⟨y, hy, e1, e2⟩ | h
    · subst e1 e2
      refine ⟨fun e => hx (e ▸ hy), ?_⟩
      rintro (⟨z, _, e3, _⟩ | h2)
      · exact hx (e3 ▸ hy)
      · exact hx (mem_pares h2).2
    · refine ⟨(ih ht h).1, ?_⟩
      rintro (⟨z, _, e3, _⟩ | h2)
      · exact hx (e3 ▸ (mem_pares h).2)
      · exact (ih ht h).2 h2

theorem pares_completos {α : Type} {l : List α} {a b : α} (ha : a ∈ l) (hb : b ∈ l)
    (hne : a ≠ b) : (a, b) ∈ paresOrdenados l ∨ (b, a) ∈ paresOrdenados l := by
  induction l with
  | nil => exact absurd ha (List.not_mem_nil _)
  | cons x t ih =>
    simp only [paresOrdenados, List.mem_append, List.mem_map, Prod.mk.injEq]
    rcases List.mem_cons.mp ha with e1 | ha2
    · rcases List.mem_cons.mp hb with e2 | hb2
      · exact absurd (e1.trans e2.symm) hne
      · exact Or.inl (Or.inl ⟨b, hb2, e1.symm, rfl⟩)
    · rcases List.mem_cons.mp hb with e2 | hb2
      · exact Or.inr (Or.inl ⟨a, ha2, e2.symm, rfl⟩)
      · rcases ih ha2 hb2 with h | h
        · exact Or.inl (Or.inr h)
        · exact Or.inr (Or.inr h)

theorem nodup_pares {α : Type} {l : List α} (hl : l.Nodup) : (paresOrdenados l).Nodup := by
  induction l with
  | nil => exact List.nodup_nil
  | cons x t ih =>
    obtain ⟨hx, ht⟩ := List.nodup_cons.mp hl
    simp only [paresOrdenados]
    refine List.Nodup.append ?_ (ih ht) ?_
    · exact List.Nodup.map (fun _ _ e => (Prod.mk.inj e).2) ht
    · intro p h1 h2
      simp only [List.mem_map] at h1
      obtain ⟨y, _, rfl⟩ := h1
      exact hx (mem_pares h2).1

theorem tieneConflicto_mismo_mapeo {g g2 : GrafoConflictos}
    (h : g2.profesores_por_materia = g.profesores_por_materia) (a b : NodoAsignacion) :
    g2.tieneConflicto a b = g.tieneConflicto a b := by
  unfold GrafoConflictos.tieneConflicto GrafoConflictos.compartenProfesor
  rw [h]

/-- The graph after the two nested loops over the node pairs `P`. -/
theorem aristas_fold (P : List (NodoAsignacion × NodoAsignacion)) (g : GrafoConflictos)
    (hc : GrafoCoherente g) (hP : ∀ p ∈ P, p.1 ∈ g.nodos ∧ p.2 ∈ g.nodos ∧ p.1 ≠ p.2) :
    let g2 := P.foldl (fun g p =>
      if g.tieneConflicto p.1 p.2 then g.agregarArista p.1 p.2 else g) g
    GrafoCoherente g2 ∧ g2.nodos = g.nodos ∧
      g2.profesores_por_materia = g.profesores_por_materia ∧
      ∀ a z, z ∈ g2.obtenerVecinos a ↔
        z ∈ g.obtenerVecinos a ∨
          ∃ p ∈ P, g.tieneConflicto p.1 p.2 = true ∧
            ((a = p.1 ∧ z = p.2) ∨ (a = p.2 ∧ z = p.1)) := by
  induction P generalizing g with
  | nil =>
    refine ⟨hc, rfl, rfl, ?_⟩
    intro a z
    simp
  | cons p ps ih =>
    obtain ⟨h1, h2, h3⟩ := hP p (List.mem_cons_self _ _)
    have hPs := fun q hq => hP q (List.mem_cons_of_mem _ hq)
    simp only [List.foldl_cons]
    by_cases hconf : g.tieneConflicto p.1 p.2 = true
    · rw [if_pos hconf]
      obtain ⟨hc2, hn2⟩ := coherente_agregarArista hc h1 h2 h3
      obtain ⟨i1, i2, i3, i4⟩ := ih (g.agregarArista p.1 p.2) hc2 (by rw [hn2]; exact hPs)
      refine ⟨i1, i2.trans hn2, i3, ?_⟩
      intro a z
      rw [i4, mem_vecinos_agregarArista]
      have hcong : ∀ q : NodoAsignacion × NodoAsignacion,
          (g.agregarArista p.1 p.2).tieneConflicto q.1 q.2 = g.tieneConflicto q.1 q.2 :=
        fun q => tieneConflicto_mismo_mapeo rfl _ _
      simp only [hcong, List.mem_cons, exists_eq_or_imp, hconf, true_and]
      generalize (∃ q ∈ ps, g.tieneConflicto q.1 q.2 = true ∧
        ((a = q.1 ∧ z = q.2) ∨ (a = q.2 ∧ z = q.1))) = E
      tauto
    · rw [if_neg hconf]
      obtain ⟨i1, i2, i3, i4⟩ := ih g hc hPs
      refine ⟨i1, i2, i3, ?_⟩
      intro a z
      rw [i4]
      simp only [List.mem_cons, exists_eq_or_imp, hconf, Bool.false_eq_true, false_and,
        false_or]

/-! ## Conflict graph: professors per subject -/

theorem mem_mapeo_materias (mats : List String) (nombre : String) (ppm : Mapa (List String))
    (k x : String) :
    x ∈ Mapa.obtener (mats.foldl (fun ppm2 materia =>
        Mapa.modificar ppm2 materia [] (fun l => l ++ [nombre])) ppm) k [] ↔
      x ∈ Mapa.obtener ppm k [] ∨ (x = nombre ∧ k ∈ mats) := by
  induction mats generalizing ppm with
  | nil => simp
  | cons m ms ih =>
    rw [List.foldl_cons, ih, Mapa.obtener_modificar]
    by_cases h : k = m
    · subst h
      simp only [if_true, List.mem_append, List.mem_singleton, List.mem_cons, true_or, and_true]
      tauto
    · simp only [h, if_false, List.mem_cons, false_or]

theorem mem_mapeo_profesores (profesores : List Profesor) (ppm : Mapa (List String))
    (k x : String) :
    x ∈ Mapa.obtener (profesores.foldl (fun ppm profesor =>
        profesor.materias_imparte.foldl (fun ppm2 materia =>
          Mapa.modificar ppm2 materia [] (fun l => l ++ [profesor.nombre])) ppm) ppm) k [] ↔
      x ∈ Mapa.obtener ppm k [] ∨ ∃ p ∈ profesores, p.nombre = x ∧ k ∈ p.materias_imparte := by
  induction profesores generalizing ppm with
  | nil => simp
  | cons p ps ih =>
    rw [List.foldl_cons, ih, mem_mapeo_materias]
    simp only [List.mem_cons, exists_eq_or_imp]
    generalize (∃ q ∈ ps, q.nombre = x ∧ k ∈ q.materias_imparte) = E
    constructor
    · rintro ((h | ⟨h1, h2⟩) | h)
      · exact Or.inl h
      · exact Or.inr (Or.inl ⟨h1.symm, h2⟩)
      · exact Or.inr (Or.inr h)
    · rintro (h | ⟨h1, h2⟩ | h)
      · exact Or.inl (Or.inl h)
      · exact Or.inl (Or.inr ⟨h1.symm, h2⟩)
      · exact Or.inr h

theorem compartenProfesor_iff (g : GrafoConflictos) (mat1 mat2 : String) :
    g.compartenProfesor mat1 mat2 = true ↔
      ∃ x, x ∈ Mapa.obtener g.profesores_por_materia mat1 [] ∧
        x ∈ Mapa.obtener g.profesores_por_materia mat2 [] := by
  unfold GrafoConflictos.compartenProfesor Mapa.obtener
  cases h1 : Mapa.buscar g.profesores_por_materia mat1 with
  | none => simp
  | some profs1 =>
    cases h2 : Mapa.buscar g.profesores_por_materia mat2 with
    | none => simp
    | some profs2 => simp [List.any_eq_true]

/-- What `tieneConflicto` answers once `construirMapeoProfesores` has run on a
fresh graph: same group name, or a professor name registered for both
subjects. -/
theorem tieneConflicto_iff (g : GrafoConflictos) (profesores : List Profesor)
    (hg : g.profesores_por_materia
      = (GrafoConflictos.nuevo.construirMapeoProfesores profesores).profesores_por_materia)
    (a b : NodoAsignacion) :
    g.tieneConflicto a b = true ↔
      a.grupo_nombre = b.grupo_nombre ∨
        ∃ p ∈ profesores, ∃ q ∈ profesores, p.nombre = q.nombre ∧
          a.materia_nombre ∈ p.materias_imparte ∧ b.materia_nombre ∈ q.materias_imparte := by
  have hc := compartenProfesor_iff g a.materia_nombre b.materia_nombre
  rw [hg] at hc
  simp only [GrafoConflictos.construirMapeoProfesores, GrafoConflictos.nuevo,
    mem_mapeo_profesores, Mapa.obtener_nil, List.not_mem_nil, false_or] at hc
  unfold GrafoConflictos.tieneConflicto
  by_cases h : a.grupo_nombre = b.grupo_nombre
  · simp [h]
  · simp only [h, if_false, false_or]
    constructor
    · intro hx
      have hx2 : g.compartenProfesor a.materia_nombre b.materia_nombre = true := by
        by_contra hn
        simp [hn] at hx
      obtain ⟨x, ⟨p, hp, e1, m1⟩, ⟨q, hq, e2, m2⟩⟩ := hc.mp hx2
      exact ⟨p, hp, q, hq, e1.trans e2.symm, m1, m2⟩
    · rintro ⟨p, hp, q, hq, e, m1, m2⟩
      rw [if_pos (hc.mpr ⟨p.nombre, ⟨p, hp, rfl, m1⟩, ⟨q, hq, e.symm, m2⟩⟩)]

theorem tieneConflicto_simetrico (g : GrafoConflictos) (a b : NodoAsignacion) :
    g.tieneConflicto a b = g.tieneConflicto b a := by
  have hs : ∀ x y : NodoAsignacion, g.tieneConflicto x y = true → g.tieneConflicto y x = true := by
    intro x y h
    unfold GrafoConflictos.tieneConflicto at h ⊢
    by_cases e : x.grupo_nombre = y.grupo_nombre
    · simp [e]
    · have hx2 : g.compartenProfesor x.materia_nombre y.materia_nombre = true := by
        by_contra hn
        simp [hn, e] at h
      obtain ⟨z, h1, h2⟩ := (compartenProfesor_iff _ _ _).mp hx2
      rw [if_neg (Ne.symm e), if_pos ((compartenProfesor_iff _ _ _).mpr ⟨z, h2, h1⟩)]
  cases h1 : g.tieneConflicto a b with
  | true => exact (hs a b h1).symm
  | false =>
    cases h2 : g.tieneConflicto b a with
    | true => rw [hs b a h2] at h1; exact Bool.noConfusion h1
    | false => rfl

/-- The graph `construirDesdeDatos` builds from a fresh one: its nodes, its
professor mapping and its neighbour sets. -/
theorem construir_resumen (grupos : List Grupo) (materias : List Materia)
    (profesores : List Profesor) :
    GrafoCoherente (GrafoConflictos.nuevo.construirDesdeDatos grupos materias profesores) ∧
    (∀ n, n ∈ (GrafoConflictos.nuevo.construirDesdeDatos grupos materias profesores).nodos ↔
      n ∈ nodosDe materias) ∧
    (GrafoConflictos.nuevo.construirDesdeDatos grupos materias profesores).profesores_por_materia
      = (GrafoConflictos.nuevo.construirMapeoProfesores profesores).profesores_por_materia ∧
    ∀ a z,
      z ∈ (GrafoConflictos.nuevo.construirDesdeDatos grupos materias profesores).obtenerVecinos a
        ↔ a ∈ nodosDe materias ∧ z ∈ nodosDe materias ∧ a ≠ z ∧
          (GrafoConflictos.nuevo.construirMapeoProfesores profesores).tieneConflicto a z
            = true := by
  unfold GrafoConflictos.construirDesdeDatos
  dsimp only
  rw [fold_agregarNodo_eq]
  generalize hg1 : GrafoConflictos.nuevo.construirMapeoProfesores profesores = g1
  have hn1 : g1.nodos = [] := by rw [← hg1]; rfl
  have hc1 : GrafoCoherente g1 := by rw [← hg1]; exact coherente_nuevo _
  have hv1 : ∀ a, g1.obtenerVecinos a = [] := by intro a; rw [← hg1]; rfl
  generalize hg2 : (nodosDe materias).foldl GrafoConflictos.agregarNodo g1 = g2
  have hc2 : GrafoCoherente g2 := by
    rw [← hg2]
    exact foldl_invariante GrafoCoherente _ (fun b a hb => coherente_agregarNodo hb a) _ _ hc1
  have hn2 : ∀ n, n ∈ g2.nodos ↔ n ∈ nodosDe materias := by
    intro n
    rw [← hg2, mem_nodos_fold, hn1]
    simp
  have hp2 : g2.profesores_por_materia = g1.profesores_por_materia := by
    rw [← hg2, ppm_fold_nodos]
  have hv2 : ∀ a, g2.obtenerVecinos a = [] := by
    intro a
    rw [← hg2, vecinos_fold_nodos, hv1]
  obtain ⟨i1, i2, i3, i4⟩ := aristas_fold (paresOrdenados g2.nodos) g2 hc2 (by
    intro p hp
    exact ⟨(mem_pares hp).1, (mem_pares hp).2, (pares_distintos hc2.sinRepetir hp).1⟩)
  refine ⟨i1, ?_, i3.trans hp2, ?_⟩
  · intro n
    rw [i2]
    exact hn2 n
  · intro a z
    rw [i4, hv2, ← hn2, ← hn2, ← tieneConflicto_mismo_mapeo hp2]
    simp only [List.not_mem_nil, false_or]
    constructor
    · rintro ⟨p, hp, hconf, (⟨e1, e2⟩ | ⟨e1, e2⟩)⟩
      · rw [e1, e2]
        exact ⟨(mem_pares hp).1, (mem_pares hp).2, (pares_distintos hc2.sinRepetir hp).1, hconf⟩
      · rw [e1, e2, tieneConflicto_simetrico]
        exact ⟨(mem_pares hp).2, (mem_pares hp).1,
          Ne.symm (pares_distintos hc2.sinRepetir hp).1, hconf⟩
    · rintro ⟨ha, hz, hne, hconf⟩
      rcases pares_completos ha hz hne with h | h
      · exact ⟨(a, z), h, hconf, Or.inl ⟨rfl, rfl⟩⟩
      · exact ⟨(z, a), h, by rw [tieneConflicto_simetrico]; exact hconf, Or.inr ⟨rfl, rfl⟩⟩

theorem mem_nodosDe (materias : List Materia) (n : NodoAsignacion) :
    n ∈ nodosDe materias ↔
      ∃ m ∈ materias, ∃ gn ∈ m.grupos_que_cursan, n = ⟨gn, m.nombre, m.cuatrimestre⟩ := by
  simp only [nodosDe, List.mem_flatMap, List.mem_map]
  constructor
  · rintro ⟨m, hm, gn, hgn, e⟩
    exact ⟨m, hm, gn, hgn, e.symm⟩
  · rintro ⟨m, hm, gn, hgn, e⟩
    exact ⟨m, hm, gn, hgn, e.symm⟩

/-! ## Conflict graph: counting edges -/

theorem foldl_suma {α : Type} (f : α → Nat) (l : List α) (n : Nat) :
    l.foldl (fun total x => total + f x) n = n + (l.map f).sum := by
  induction l generalizing n with
  | nil => simp
  | cons x xs ih =>
    rw [List.foldl_cons, ih, List.map_cons, List.sum_cons]
    omega

theorem tamanos_por_clave (m : MapaNodos) (hm : (m.map Prod.fst).Nodup) :
    m.map (fun e => e.2.length)
      = (m.map Prod.fst).map (fun k => ((buscarNodo m k).getD []).length) := by
  induction m with
  | nil => rfl
  | cons e r ih =>
    obtain ⟨c, v⟩ := e
    simp only [List.map_cons, List.nodup_cons] at hm ⊢
    obtain ⟨hc, hr⟩ := hm
    congr 1
    · simp [buscarNodo]
    · rw [ih hr]
      apply List.map_congr_left
      intro k hk
      have hne : c ≠ k := fun e => hc (e ▸ hk)
      simp [buscarNodo, hne]

theorem length_eq_countP {α : Type} [DecidableEq α] (v l : List α) (hv : v.Nodup)
    (hl : l.Nodup) (hsub : ∀ b ∈ v, b ∈ l) : v.length = l.countP (fun b => decide (b ∈ v)) := by
  rw [List.countP_eq_length_filter]
  apply List.Perm.length_eq
  rw [List.perm_ext_iff_of_nodup hv (hl.filter _)]
  intro a
  simp only [List.mem_filter, decide_eq_true_eq]
  constructor
  · intro h
    exact ⟨hsub a h, h⟩
  · exact fun h => h.2

/-- Double counting: the degrees of a symmetric irreflexive relation add up to
twice the number of related pairs `(l[i], l[j])`, `i < j`. -/
theorem suma_grados {α : Type} (R : α → α → Bool) (l : List α)
    (hirr : ∀ a, R a a = false) (hsim : ∀ a b, R a b = R b a) :
    (l.map (fun a => l.countP (R a))).sum
      = 2 * (paresOrdenados l).countP (fun p => R p.1 p.2) := by
  induction l with
  | nil => rfl
  | cons x t ih =>
    have h1 : ((x :: t).map (fun a => (x :: t).countP (R a))).sum
        = t.countP (R x) + ((t.map (fun a => t.countP (R a))).sum
          + (t.map (fun a => if R a x = true then 1 else 0)).sum) := by
      rw [List.map_cons, List.sum_cons, List.countP_cons, hirr x, ← List.sum_map_add]
      simp only [List.countP_cons]
      simp
    have h2 : (t.map (fun a => if R a x = true then 1 else 0)).sum = t.countP (R x) := by
      rw [List.countP_eq_length_filter]
      clear ih h1
      induction t with
      | nil => rfl
      | cons y ys ih2 =>
        rw [List.map_cons, List.sum_cons, ih2, hsim y x, List.filter_cons]
        split
        · simp
          omega
        · simp
    have h3 : (paresOrdenados (x :: t)).countP (fun p => R p.1 p.2)
        = t.countP (R x) + (paresOrdenados t).countP (fun p => R p.1 p.2) := by
      simp only [paresOrdenados, List.countP_append, List.countP_map]
      rfl
    rw [h1, h2, h3, ih]
    omega

/-- In a coherent graph with a symmetric neighbour relation the sizes of the
neighbour sets add up to twice the number of neighbouring pairs. -/
theorem suma_tamanos (g : GrafoConflictos) (hc : GrafoCoherente g) (hs : Simetrico g) :
    g.aristas.foldl (fun total pair => total + pair.2.length) 0
      = 2 * (paresOrdenados g.nodos).countP
          (fun p => decide (p.2 ∈ g.obtenerVecinos p.1)) := by
  rw [foldl_suma, Nat.zero_add, tamanos_por_clave g.aristas (by rw [hc.claves]; exact hc.sinRepetir),
    hc.claves]
  have h1 : g.nodos.map (fun k => ((buscarNodo g.aristas k).getD []).length)
      = g.nodos.map (fun a => g.nodos.countP (fun b => decide (b ∈ g.obtenerVecinos a))) := by
    apply List.map_congr_left
    intro a _
    rw [← obtenerVecinos_eq]
    exact length_eq_countP _ _ (hc.vecinosSinRepetir a) hc.sinRepetir
      (fun b hb => (hc.vecinosNodos a b hb).2.1)
  rw [h1]
  exact suma_grados (fun a b => decide (b ∈ g.obtenerVecinos a)) g.nodos
    (fun a => decide_eq_false (fun h => (hc.vecinosNodos a a h).2.2 rfl))
    (fun a b => by
      show decide (b ∈ g.obtenerVecinos a) = decide (a ∈ g.obtenerVecinos b)
      by_cases h : b ∈ g.obtenerVecinos a
      · rw [decide_eq_true h, decide_eq_true (hs a b h)]
      · rw [decide_eq_false h, decide_eq_false (fun h2 => h (hs b a h2))])

/-! ## Result output -/

theorem miembro_poner {V : Type} {m : Mapa V} {k : String} {v : V} {e : String × V}
    (h : e ∈ Mapa.poner m k v) : e = (k, v) ∨ e ∈ m := by
  induction m with
  | nil =>
    simp only [Mapa.poner, List.mem_singleton] at h
    exact Or.inl h
  | cons x r ih =>
    obtain ⟨c, w⟩ := x
    unfold Mapa.poner at h
    split at h
    · rename_i hc
      rcases List.mem_cons.mp h with h1 | h1
      · exact Or.inl (by rw [h1, hc])
      · exact Or.inr (List.mem_cons_of_mem _ h1)
    · rcases List.mem_cons.mp h with h1 | h1
      · exact Or.inr (h1 ▸ List.mem_cons_self _ _)
      · rcases ih h1 with h2 | h2
        · exact Or.inl h2
        · exact Or.inr (List.mem_cons_of_mem _ h2)

theorem obtener_mem {V : Type} (m : Mapa V) (k : String) (d : V) :
    Mapa.obtener m k d = d ∨ (k, Mapa.obtener m k d) ∈ m := by
  unfold Mapa.obtener
  cases h : Mapa.buscar m k with
  | none => exact Or.inl rfl
  | some v => exact Or.inr (buscar_mem h)

theorem miembro_modificar {V : Type} {m : Mapa V} {k : String} {d : V} {f : V → V}
    {e : String × V} (h : e ∈ Mapa.modificar m k d f) :
    e = (k, f (Mapa.obtener m k d)) ∨ e ∈ m :=
  miembro_poner h

theorem cadaSlot_poner_vacio {Q : String → String → String → Mapa String → Prop}
    {j : JsonHorario} (hj : CadaSlot Q j) (g : String) : CadaSlot Q (Mapa.poner j g []) := by
  intro e he
  rcases miembro_poner he with h | h
  · rw [h]
    intro e2 he2
    exact absurd he2 (List.not_mem_nil _)
  · exact hj e h

theorem cadaSlot_modificar {Q : String → String → String → Mapa String → Prop}
    {j : JsonHorario} (hj : CadaSlot Q j) (g : String)
    (f : Mapa (Mapa (Mapa String)) → Mapa (Mapa (Mapa String)))
    (hf : ∀ o, (∀ e2 ∈ o, ∀ e3 ∈ e2.2, Q g e2.1 e3.1 e3.2) →
      ∀ e2 ∈ f o, ∀ e3 ∈ e2.2, Q g e2.1 e3.1 e3.2) :
    CadaSlot Q (Mapa.modificar j g [] f) := by
  intro e he
  rcases miembro_modificar he with h | h
  · rw [h]
    apply hf
    rcases obtener_mem j g [] with h2 | h2
    · rw [h2]
      intro e2 he2
      exact absurd he2 (List.not_mem_nil _)
    · exact hj _ h2
  · exact hj e h

theorem cadaSlot_dia {Q : String → String → String → Mapa String → Prop}
    {j : JsonHorario} (hj : CadaSlot Q j) (g d : String) :
    CadaSlot Q (Mapa.modificar j g [] (fun o => Mapa.poner o d [])) := by
  apply cadaSlot_modificar hj
  intro o ho e2 he2
  rcases miembro_poner he2 with h | h
  · rw [h]
    intro e3 he3
    exact absurd he3 (List.not_mem_nil _)
  · exact ho e2 h

theorem cadaSlot_slot {Q : String → String → String → Mapa String → Prop}
    {j : JsonHorario} (hj : CadaSlot Q j) (g d k : String) (obj : Mapa String)
    (hq : Q g d k obj) :
    CadaSlot Q (Mapa.modificar j g [] (fun o =>
      Mapa.modificar o d [] (fun o2 => Mapa.poner o2 k obj))) := by
  apply cadaSlot_modificar hj
  intro o ho e2 he2
  rcases miembro_modificar he2 with h | h
  · rw [h]
    intro e3 he3
    rcases miembro_poner he3 with h3 | h3
    · rw [h3]
      exact hq
    · rcases obtener_mem o d [] with h4 | h4
      · rw [h4] at h3
        exact absurd h3 (List.not_mem_nil _)
      · exact ho _ h4 e3 h3
  · exact ho e2 h

theorem cadaSlot_escribirSlots {Q : String → String → String → Mapa String → Prop}
    (g d : String) (slots : Mapa (Mapa Valor))
    (hQ : ∀ e ∈ slots, e.2 ≠ [] → ∀ valor, Mapa.buscar e.2 ":valor" = some valor →
      ∀ materia profesor, partirValor valor.texto = some (materia, profesor) →
        Q g d e.1 [("materia", materia), ("profesor", profesor)])
    (j : JsonHorario) (hj : CadaSlot Q j) : CadaSlot Q (escribirSlots g d slots j) := by
  unfold escribirSlots
  induction slots generalizing j with
  | nil => exact hj
  | cons e r ih =>
    rw [List.foldl_cons]
    apply ih (fun x hx => hQ x (List.mem_cons_of_mem _ hx))
    have he := hQ e (List.mem_cons_self _ _)
    split
    · rename_i hne
      have hne2 : e.2 ≠ [] := by
        intro h0
        rw [h0] at hne
        exact absurd hne (by decide)
      split
      · rename_i valor hv
        split
        · rename_i materia profesor hp
          exact cadaSlot_slot hj g d e.1 _ (he hne2 valor hv materia profesor hp)
        · exact hj
      · exact hj
    · exact hj

theorem cadaSlot_escribirDias {Q : String → String → String → Mapa String → Prop}
    (g : String) (dias : Mapa (Mapa (Mapa Valor)))
    (hQ : ∀ e2 ∈ dias, ∀ e ∈ e2.2, e.2 ≠ [] → ∀ valor,
      Mapa.buscar e.2 ":valor" = some valor →
      ∀ materia profesor, partirValor valor.texto = some (materia, profesor) →
        Q g e2.1 e.1 [("materia", materia), ("profesor", profesor)])
    (j : JsonHorario) (hj : CadaSlot Q j) : CadaSlot Q (escribirDias g dias j) := by
  unfold escribirDias
  induction dias generalizing j with
  | nil => exact hj
  | cons e r ih =>
    rw [List.foldl_cons]
    apply ih (fun x hx => hQ x (List.mem_cons_of_mem _ hx))
    exact cadaSlot_escribirSlots g e.1 e.2 (hQ e (List.mem_cons_self _ _)) _
      (cadaSlot_dia hj g e.1)

theorem cadaSlot_escribirJSON {Q : String → String → String → Mapa String → Prop}
    (r : ResultadoBacktracking)
    (hQ : ∀ e3 ∈ r.horario, ∀ e2 ∈ e3.2, ∀ e ∈ e2.2, e.2 ≠ [] → ∀ valor,
      Mapa.buscar e.2 ":valor" = some valor →
      ∀ materia profesor, partirValor valor.texto = some (materia, profesor) →
        Q e3.1 e2.1 e.1 [("materia", materia), ("profesor", profesor)]) :
    CadaSlot Q (escribirJSON r).horario := by
  unfold escribirJSON
  dsimp only
  generalize r.horario = h at hQ
  have key : ∀ (j : JsonHorario), CadaSlot Q j →
      CadaSlot Q (h.foldl (fun j e => escribirDias e.1 e.2 (Mapa.poner j e.1 [])) j) := by
    induction h with
    | nil => exact fun j hj => hj
    | cons e rs ih =>
      intro j hj
      rw [List.foldl_cons]
      apply ih (fun x hx => hQ x (List.mem_cons_of_mem _ hx))
      exact cadaSlot_escribirDias e.1 e.2 (hQ e (List.mem_cons_self _ _)) _
        (cadaSlot_poner_vacio hj e.1)
  exact key [] (fun e he => absurd he (List.not_mem_nil _))

theorem isSome_buscar_poner {V : Type} (m : Mapa V) (k k2 : String) (v : V) :
    (Mapa.buscar (Mapa.poner m k v) k2).isSome = true ↔
      k2 = k ∨ (Mapa.buscar m k2).isSome = true := by
  by_cases h : k2 = k
  · subst h
    simp [Mapa.buscar_poner_mismo]
  · simp [Mapa.buscar_poner_otro m k k2 v h, h]

theorem grupoEn_modificar (j : JsonHorario) (g g0 : String)
    (f : Mapa (Mapa (Mapa String)) → Mapa (Mapa (Mapa String))) :
    GrupoEn (Mapa.modificar j g [] f) g0 ↔ g0 = g ∨ GrupoEn j g0 :=
  isSome_buscar_poner _ _ _ _

theorem diaEn_modificar (j : JsonHorario) (g g0 d0 : String)
    (f : Mapa (Mapa (Mapa String)) → Mapa (Mapa (Mapa String))) :
    DiaEn (Mapa.modificar j g [] f) g0 d0 ↔
      if g0 = g then (Mapa.buscar (f (Mapa.obtener j g [])) d0).isSome = true
      else DiaEn j g0 d0 := by
  unfold DiaEn
  rw [Mapa.obtener_modificar]
  split <;> rfl

theorem claves_escribirSlots (g d : String) (slots : Mapa (Mapa Valor)) (j : JsonHorario) :
    (∀ g0, GrupoEn j g0 → GrupoEn (escribirSlots g d slots j) g0) ∧
    (∀ g0 d0, DiaEn j g0 d0 → DiaEn (escribirSlots g d slots j) g0 d0) := by
  unfold escribirSlots
  induction slots generalizing j with
  | nil => exact ⟨fun _ h => h, fun _ _ h => h⟩
  | cons e r ih =>
    rw [List.foldl_cons]
    split
    · split
      · split
        · rename_i materia profesor _
          obtain ⟨i1, i2⟩ := ih (Mapa.modificar j g [] (fun o =>
            Mapa.modificar o d [] (fun o2 =>
              Mapa.poner o2 e.1 [("materia", materia), ("profesor", profesor)])))
          refine ⟨fun g0 h => i1 g0 ((grupoEn_modificar _ _ _ _).mpr (Or.inr h)), ?_⟩
          intro g0 d0 h
          apply i2
          rw [diaEn_modificar]
          split
          · rename_i hg
            subst hg
            exact (isSome_buscar_poner _ _ _ _).mpr (Or.inr h)
          · exact h
        · exact ih j
      · exact ih j
    · exact ih j

theorem claves_escribirDias (g : String) (dias : Mapa (Mapa (Mapa Valor))) (j : JsonHorario) :
    (∀ g0, GrupoEn j g0 → GrupoEn (escribirDias g dias j) g0) ∧
    (∀ g0 d0, DiaEn j g0 d0 → DiaEn (escribirDias g dias j) g0 d0) ∧
    (∀ e ∈ dias, DiaEn (escribirDias g dias j) g e.1) := by
  unfold escribirDias
  induction dias generalizing j with
  | nil => exact ⟨fun _ h => h, fun _ _ h => h, fun e he => absurd he (List.not_mem_nil _)⟩
  | cons e r ih =>
    rw [List.foldl_cons]
    obtain ⟨s1, s2⟩ := claves_escribirSlots g e.1 e.2
      (Mapa.modificar j g [] (fun o => Mapa.poner o e.1 []))
    obtain ⟨i1, i2, i3⟩ := ih (escribirSlots g e.1 e.2
      (Mapa.modificar j g [] (fun o => Mapa.poner o e.1 [])))
    refine ⟨fun g0 h => i1 g0 (s1 g0 ((grupoEn_modificar _ _ _ _).mpr (Or.inr h))), ?_, ?_⟩
    · intro g0 d0 h
      apply i2
      apply s2
      rw [diaEn_modificar]
      split
      · rename_i hg
        subst hg
        exact (isSome_buscar_poner _ _ _ _).mpr (Or.inr h)
      · exact h
    · intro x hx
      rcases List.mem_cons.mp hx with h | h
      · subst h
        apply i2
        apply s2
        rw [diaEn_modificar, if_pos rfl]
        exact (isSome_buscar_poner _ _ _ _).mpr (Or.inl rfl)
      · exact i3 x h

theorem diaEn_poner_otro (j : JsonHorario) (g g0 d0 : String) (hne : g0 ≠ g)
    (h : DiaEn j g0 d0) : DiaEn (Mapa.poner j g []) g0 d0 := by
  unfold DiaEn at h ⊢
  rw [Mapa.obtener_poner, if_neg hne]
  exact h

theorem claves_escribirJSON (h : Horario) (j : JsonHorario) :
    (∀ g0, GrupoEn j g0 →
      GrupoEn (h.foldl (fun j e => escribirDias e.1 e.2 (Mapa.poner j e.1 [])) j) g0) ∧
    (∀ g0 d0, g0 ∉ h.map Prod.fst → DiaEn j g0 d0 →
      DiaEn (h.foldl (fun j e => escribirDias e.1 e.2 (Mapa.poner j e.1 [])) j) g0 d0) ∧
    (∀ e ∈ h, GrupoEn (h.foldl (fun j e => escribirDias e.1 e.2 (Mapa.poner j e.1 [])) j) e.1) ∧
    ((h.map Prod.fst).Nodup → ∀ e ∈ h, ∀ e2 ∈ e.2,
      DiaEn (h.foldl (fun j e => escribirDias e.1 e.2 (Mapa.poner j e.1 [])) j) e.1 e2.1) := by
  induction h generalizing j with
  | nil =>
    exact ⟨fun _ h => h, fun _ _ _ h => h, fun e he => absurd he (List.not_mem_nil _),
      fun _ e he => absurd he (List.not_mem_nil _)⟩
  | cons e r ih =>
    simp only [List.foldl_cons]
    obtain ⟨d1, d2, d3⟩ := claves_escribirDias e.1 e.2 (Mapa.poner j e.1 [])
    obtain ⟨i1, i2, i3, i4⟩ := ih (escribirDias e.1 e.2 (Mapa.poner j e.1 []))
    have hpon : ∀ g0, g0 = e.1 ∨ GrupoEn j g0 → GrupoEn (Mapa.poner j e.1 []) g0 :=
      fun g0 hg => (isSome_buscar_poner _ _ _ _).mpr hg
    refine ⟨fun g0 hg => i1 g0 (d1 g0 (hpon g0 (Or.inr hg))), ?_, ?_, ?_⟩
    · intro g0 d0 hn hd
      simp only [List.map_cons, List.mem_cons, not_or] at hn
      exact i2 g0 d0 hn.2 (d2 g0 d0 (diaEn_poner_otro j e.1 g0 d0 hn.1 hd))
    · intro x hx
      rcases List.mem_cons.mp hx with hxe | hxr
      · subst hxe
        exact i1 _ (d1 _ (hpon _ (Or.inl rfl)))
      · exact i3 x hxr
    · intro hnd x hx x2 hx2
      simp only [List.map_cons, List.nodup_cons] at hnd
      rcases List.mem_cons.mp hx with hxe | hxr
      · subst hxe
        exact i2 _ _ hnd.1 (d3 x2 hx2)
      · exact i4 hnd.2 x hxr x2 hx2

/-! ## Undo after commit -/

theorem poner_poner {V : Type} (m : Mapa V) (k : String) (a b : V) :
    Mapa.poner (Mapa.poner m k a) k b = Mapa.poner m k b := by
  induction m with
  | nil => simp [Mapa.poner]
  | cons e r ih =>
    obtain ⟨c, w⟩ := e
    by_cases h : c = k
    · simp [Mapa.poner, h]
    · simp [Mapa.poner, h, ih]

theorem poner_igual {V : Type} (m : Mapa V) (k : String) (v : V)
    (h : Mapa.buscar m k = some v) : Mapa.poner m k v = m := by
  induction m with
  | nil => simp [Mapa.buscar] at h
  | cons e r ih =>
    obtain ⟨c, w⟩ := e
    by_cases hc : c = k
    · subst hc
      simp only [Mapa.buscar, if_true, Option.some.injEq] at h
      simp [Mapa.poner, h]
    · simp only [Mapa.buscar, hc, if_false] at h
      simp [Mapa.poner, hc, ih h]

theorem borrar_poner_ausente {V : Type} (m : Mapa V) (k : String) (v : V)
    (h : Mapa.buscar m k = none) : Mapa.borrar (Mapa.poner m k v) k = m := by
  induction m with
  | nil => simp [Mapa.poner, Mapa.borrar]
  | cons e r ih =>
    obtain ⟨c, w⟩ := e
    by_cases hc : c = k
    · subst hc
      simp [Mapa.buscar] at h
    · simp only [Mapa.buscar, hc, if_false] at h
      have := ih h
      simp only [Mapa.borrar] at this ⊢
      simp [Mapa.poner, hc, this]

theorem modificar_modificar {V : Type} (m : Mapa V) (k : String) (d : V) (f g : V → V) :
    Mapa.modificar (Mapa.modificar m k d f) k d g
      = Mapa.poner m k (g (f (Mapa.obtener m k d))) := by
  unfold Mapa.modificar
  rw [Mapa.obtener_poner, if_pos rfl, poner_poner]

theorem obtener_de_buscar {V : Type} {m : Mapa V} {k : String} {v : V} (d : V)
    (h : Mapa.buscar m k = some v) : Mapa.obtener m k d = v := by
  simp [Mapa.obtener, h]

/-- The day map after a placement at an absent slot key and its undo. -/
theorem quitarDeDia_tras_poner (slots : Mapa (Mapa Valor)) (key : String) (v : Valor)
    (h : Mapa.buscar slots key = none) :
    quitarDeDia (Mapa.modificar slots key [] (fun c => Mapa.poner c ":valor" v)) key
      = slots := by
  unfold quitarDeDia
  dsimp only
  rw [modificar_modificar]
  have ho : Mapa.obtener slots key [] = [] := by simp [Mapa.obtener, h]
  rw [ho]
  have hb : Mapa.borrar (Mapa.poner ([] : Mapa Valor) ":valor" v) ":valor" = [] := by
    simp [Mapa.poner, Mapa.borrar]
  rw [hb, Mapa.obtener_poner, if_pos rfl, if_pos (by rfl)]
  exact borrar_poner_ausente slots key [] h

theorem horario_tras_deshacer (st : Estado) (g : Grupo) (m : Materia) (p : Profesor)
    (s : Slot) :
    (deshacerAsignacion (hacerAsignacion st g m p s) g m p s).horario
      = Mapa.poner st.horario g.nombre
          (Mapa.poner (Mapa.obtener st.horario g.nombre []) s.dia
            (quitarDeDia
              (Mapa.modificar (Mapa.obtener (Mapa.obtener st.horario g.nombre []) s.dia [])
                s.getKey [] (fun c => Mapa.poner c ":valor" ⟨m.nombre, p.nombre⟩))
              s.getKey)) := by
  simp only [hacerAsignacion, deshacerAsignacion, modificar_modificar]

theorem ocupado_tras_deshacer (st : Estado) (g : Grupo) (m : Materia) (p : Profesor)
    (s : Slot) :
    (deshacerAsignacion (hacerAsignacion st g m p s) g m p s).profesor_ocupado
      = Mapa.poner st.profesor_ocupado p.nombre
          (Mapa.poner (Mapa.obtener st.profesor_ocupado p.nombre []) s.dia
            (Mapa.borrar
              (Mapa.poner (Mapa.obtener (Mapa.obtener st.profesor_ocupado p.nombre []) s.dia [])
                s.getKey true)
              s.getKey)) := by
  simp only [hacerAsignacion, deshacerAsignacion, modificar_modificar]

theorem horasProfesor_tras_deshacer (st : Estado) (g : Grupo) (m : Materia) (p : Profesor)
    (s : Slot) :
    (deshacerAsignacion (hacerAsignacion st g m p s) g m p s).horas_asignadas_profesor
      = Mapa.poner st.horas_asignadas_profesor p.nombre
          (Mapa.obtener st.horas_asignadas_profesor p.nombre 0) := by
  simp only [hacerAsignacion, deshacerAsignacion, modificar_modificar]
  congr 1
  omega

theorem horasMateria_tras_deshacer (st : Estado) (g : Grupo) (m : Materia) (p : Profesor)
    (s : Slot) :
    (deshacerAsignacion (hacerAsignacion st g m p s) g m p s).horas_asignadas_materia
      = Mapa.poner st.horas_asignadas_materia g.nombre
          (Mapa.poner (Mapa.obtener st.horas_asignadas_materia g.nombre []) m.nombre
            (Mapa.obtener (Mapa.obtener st.horas_asignadas_materia g.nombre []) m.nombre 0)) := by
  simp only [hacerAsignacion, deshacerAsignacion, modificar_modificar]
  congr 2
  omega

theorem poner_obtener {V : Type} (m : Mapa V) (k : String) (d : V)
    (h : (Mapa.buscar m k).isSome = true) : Mapa.poner m k (Mapa.obtener m k d) = m := by
  obtain ⟨v, hv⟩ := Option.isSome_iff_exists.mp h
  rw [obtener_de_buscar d hv]
  exact poner_igual m k v hv

/-! ## Slot ordering -/

theorem restriccionDia_especificado (horario : Horario) (grupo : Grupo) (dia : String) :
    restriccionDia horario grupo dia = 2 * (ocupadosEnDia horario grupo.nombre dia : Int) := by
  unfold restriccionDia ocupadosEnDia Mapa.obtener
  cases h1 : Mapa.buscar horario grupo.nombre with
  | none => simp [Mapa.buscar]
  | some dias =>
    cases h2 : Mapa.buscar dias dia with
    | none => simp [h2]
    | some slots => simp [h2]

theorem restriccion_especificado (horario : Horario) (grupo : Grupo) (s : Slot) (hora : Int)
    (h : horaDe s.hora_inicio = some hora) :
    restriccion horario grupo s = puntajeEspecificado horario grupo s.dia hora := by
  unfold restriccion puntajeEspecificado bonoHora bonusEspecificado
  rw [restriccionDia_especificado, h]
  rfl

theorem ordenarAlReves_valido : OrdenadorValido ordenarAlReves := by
  constructor
  · intro lt l
    exact (ordenarInsercion_valido.perm lt l.reverse).trans (List.reverse_perm l)
  · intro f l
    exact ordenarInsercion_valido.ordenado f l.reverse

theorem filter_orderedInsert (f : Slot → Int) (v : Int) (a : Slot) (l : List Slot) :
    (List.orderedInsert (fun x y : Slot => decide (f y < f x) = false) a l).filter
        (fun s => decide (f s = v))
      = if f a = v then a :: l.filter (fun s => decide (f s = v))
        else l.filter (fun s => decide (f s = v)) := by
  induction l with
  | nil =>
    by_cases h : f a = v <;> simp [h]
  | cons b t ih =>
    rw [List.orderedInsert]
    split
    · by_cases h : f a = v <;> simp [List.filter_cons, h]
    · rename_i hr
      have hlt : f b < f a := by simpa using hr
      rw [List.filter_cons, ih]
      by_cases h : f a = v
      · have hb : f b ≠ v := by omega
        simp [h, hb, List.filter_cons]
      · simp [h, List.filter_cons]

/-- Insertion sort keeps the input order of the slots of equal value. -/
theorem ordenarInsercion_estable (f : Slot → Int) (l : List Slot) :
    Estable f l (ordenarInsercion (fun a b => decide (f a < f b)) l) := by
  intro v
  unfold ordenarInsercion
  induction l with
  | nil => rfl
  | cons a t ih =>
    rw [List.insertionSort, filter_orderedInsert, ih, List.filter_cons]
    by_cases h : f a = v <;> simp [h]

/-! ## The pending list -/

theorem buscarGrupoBucle_eq (grupos : List Grupo) (nombre : String) :
    buscarGrupoBucle grupos nombre = buscarGrupo grupos nombre := by
  induction grupos with
  | nil => rfl
  | cons g r ih =>
    unfold buscarGrupoBucle buscarGrupo
    by_cases h : g.nombre = nombre
    · simp [h]
    · simp only [h, if_false, List.find?_cons, decide_False]
      exact ih

theorem foldl_push_if {α : Type} (c : α → Bool) (l : List α) (acc : List α) :
    l.foldl (fun xs x => if c x then xs ++ [x] else xs) acc = acc ++ l.filter c := by
  induction l generalizing acc with
  | nil => simp
  | cons x t ih =>
    rw [List.foldl_cons, ih, List.filter_cons]
    by_cases h : c x = true <;> simp [h]

theorem profesoresCapacitados_eq (profesores : List Profesor) (materia : Materia) :
    profesoresCapacitados profesores materia
      = profesores.filter (fun p => p.puedeImpartir materia.nombre) := by
  unfold profesoresCapacitados
  rw [foldl_push_if]
  rfl

theorem foldl_push_option {α β : Type} (f : α → Option β) (l : List α) (acc : List β) :
    l.foldl (fun ys x => match f x with
      | none => ys
      | some y => ys ++ [y]) acc = acc ++ l.filterMap f := by
  induction l generalizing acc with
  | nil => simp
  | cons x t ih =>
    rw [List.foldl_cons, ih, List.filterMap_cons]
    cases f x <;> simp

theorem foldl_append_flatMap {α β : Type} (F : α → List β) (l : List α) (acc : List β) :
    l.foldl (fun ys x => ys ++ F x) acc = acc ++ l.flatMap F := by
  induction l generalizing acc with
  | nil => simp
  | cons x t ih =>
    rw [List.foldl_cons, ih, List.flatMap_cons, List.append_assoc]

/-- The loops of `construirAsignacionesPendientes` build the list
`construirAsignacionesPendientes` describes. -/
theorem construirAsignacionesPendientesBucle_eq (grupos : List Grupo)
    (materias : List Materia) (profesores : List Profesor) :
    construirAsignacionesPendientesBucle grupos materias profesores
      = construirAsignacionesPendientes grupos materias profesores := by
  unfold construirAsignacionesPendientesBucle construirAsignacionesPendientes
  have hin : ∀ (materia : Materia) (pendientes : List AsignacionPendiente),
      materia.grupos_que_cursan.foldl (fun pendientes grupo_nombre =>
        match buscarGrupoBucle grupos grupo_nombre with
        | none => pendientes
        | some grupo =>
          pendientes ++
            [⟨grupo, materia, materia.horas_semana, profesoresCapacitados profesores materia⟩])
        pendientes
      = pendientes ++ materia.grupos_que_cursan.filterMap (fun gn =>
          (buscarGrupo grupos gn).map (fun g =>
            { grupo := g
              materia := materia
              horas_restantes := materia.horas_semana
              profesores_disponibles :=
                profesores.filter (fun p => p.puedeImpartir materia.nombre) })) := by
    intro materia pendientes
    rw [← foldl_push_option]
    congr 1
    funext ys gn
    rw [buscarGrupoBucle_eq, profesoresCapacitados_eq]
    cases buscarGrupo grupos gn <;> rfl
  simp only [hin]
  rw [foldl_append_flatMap]
  rfl

theorem buscarGrupo_none_iff (grupos : List Grupo) (gn : String) :
    buscarGrupo grupos gn = none ↔ grupos.any (fun g => decide (g.nombre = gn)) = false := by
  unfold buscarGrupo
  rw [List.find?_eq_none]
  simp

theorem pendientes_de_materia (grupos : List Grupo) (profesores : List Profesor)
    (m : Materia) (nombres : List String) :
    (nombres.filterMap (fun gn =>
      (buscarGrupo grupos gn).map (fun g =>
        ({ grupo := g
           materia := m
           horas_restantes := m.horas_semana
           profesores_disponibles :=
             profesores.filter (fun p => p.puedeImpartir m.nombre) } :
          AsignacionPendiente)))).map (fun a => (a.materia, a.grupo.nombre))
      = (nombres.filter (fun gn => grupos.any (fun g => decide (g.nombre = gn)))).map
          (fun gn => (m, gn)) := by
  induction nombres with
  | nil => rfl
  | cons gn t ih =>
    rw [List.filterMap_cons, List.filter_cons]
    cases hb : buscarGrupo grupos gn with
    | none =>
      rw [(buscarGrupo_none_iff grupos gn).mp hb]
      simpa using ih
    | some g =>
      have hany : grupos.any (fun g => decide (g.nombre = gn)) = true := by
        cases h : grupos.any (fun g => decide (g.nombre = gn)) with
        | true => rfl
        | false =>
          rw [(buscarGrupo_none_iff grupos gn).mpr h] at hb
          exact Option.noConfusion hb
      rw [hany]
      simp only [Option.map_some', List.map_cons, if_true, ih, buscarGrupo_nombre hb]

/-! ## Termination: the recursion bound is never the reason a call ends -/

theorem bucleProfesores_mismo_rec (ordenar : Ordenador) (rec1 rec2 : Estado → Corrida)
    (asig : AsignacionPendiente) (slot : Slot) (N : Int)
    (hrec : ∀ st2, horasNecesarias asig st2 = N - 1 →
      0 < horasNecesarias asig st2 →
      CorridaBuena (PasoLegal ordenar asig) st2 (rec1 st2) ∧ rec2 st2 = rec1 st2)
    (profs : List Profesor) (st : Estado) (hN : horasNecesarias asig st = N) :
    bucleProfesores rec2 asig slot profs st = bucleProfesores rec1 asig slot profs st := by
  induction profs generalizing st with
  | nil => simp [bucleProfesores]
  | cons p ps ih =>
    rw [bucleProfesores, bucleProfesores]
    cases hv : validarRestriccionesDuras st.horario asig.grupo asig.materia p slot
        st.profesor_ocupado st.horas_asignadas_profesor with
    | none => rfl
    | some res =>
      obtain ⟨b, razon⟩ := res
      cases b with
      | false => exact ih st hN
      | true =>
        have hok := validar_ok hv
        simp only []
        by_cases hq : horasMateria
            (hacerAsignacion st asig.grupo asig.materia p slot).horas_asignadas_materia
            asig.grupo.nombre asig.materia.nombre ≥ asig.materia.horas_semana
        · rw [if_pos hq, if_pos hq]
        · rw [if_neg hq, if_neg hq]
          have hN1 : horasNecesarias asig (hacerAsignacion st asig.grupo asig.materia p slot)
              = N - 1 := by rw [horasNecesarias_hacer, hN]
          have hpos1 : 0 < horasNecesarias asig
              (hacerAsignacion st asig.grupo asig.materia p slot) := by
            simp only [horasNecesarias]
            omega
          obtain ⟨hr, he⟩ := hrec _ hN1 hpos1
          rw [he]
          cases hs : (rec1 (hacerAsignacion st asig.grupo asig.materia p slot)).salida with
          | fallo =>
            simp only []
            have hat := hr.atomica hs
            have hst2 := deshacer_tras_hacer hok.2.1 hok.2.2.1 hat
            have hN2 := (hst2.horasNecesarias asig).trans hN
            rw [ih _ hN2]
          | exito => rfl
          | excepcion => rfl
          | sinCombustible => rfl

theorem bucleSlots_mismo_rec (ordenar : Ordenador) (rec1 rec2 : Estado → Corrida)
    (asig : AsignacionPendiente) (N : Int) (hpos : 0 < N)
    (hrec : ∀ st2, horasNecesarias asig st2 = N - 1 →
      0 < horasNecesarias asig st2 →
      CorridaBuena (PasoLegal ordenar asig) st2 (rec1 st2) ∧ rec2 st2 = rec1 st2)
    (slots : List Slot)
    (hslots : ∀ s ∈ slots, ∃ h l, seleccionarMejorSlot ordenar (getAllSlots asig.grupo.turno) h
        asig.grupo = some l ∧ s ∈ l)
    (st : Estado) (hN : horasNecesarias asig st = N) :
    bucleSlots rec2 asig slots st = bucleSlots rec1 asig slots st := by
  induction slots generalizing st with
  | nil => simp [bucleSlots]
  | cons s ss ih =>
    have hss : ∀ x ∈ ss, ∃ h l, seleccionarMejorSlot ordenar (getAllSlots asig.grupo.turno) h
        asig.grupo = some l ∧ x ∈ l := fun x hx => hslots x (List.mem_cons_of_mem _ hx)
    have h1 := bucleProfesores_buena ordenar rec1 asig s N hpos
      (hslots s (List.mem_cons_self _ _)) (fun st2 h2 h3 => (hrec st2 h3 h2).1)
      asig.profesores_disponibles (fun _ hp => hp) st hN
    rw [bucleSlots, bucleSlots,
      bucleProfesores_mismo_rec ordenar rec1 rec2 asig s N hrec asig.profesores_disponibles st hN]
    cases hs : (bucleProfesores rec1 asig s asig.profesores_disponibles st).salida with
    | fallo =>
      simp only []
      have hat := h1.atomica hs
      rw [ih hss _ ((hat.horasNecesarias asig).trans hN)]
    | exito => rfl
    | excepcion => rfl
    | sinCombustible => rfl

theorem intentarAsignarAux_listo (ordenar : Ordenador) (asig : AsignacionPendiente) (n : Nat)
    (st : Estado) (h : horasNecesarias asig st ≤ 0) :
    intentarAsignarAux ordenar asig n st = ⟨Salida.exito, st, []⟩ := by
  cases n with
  | zero => rw [intentarAsignarAux, if_pos h]
  | succ k => rw [intentarAsignarAux, if_pos h]

theorem intentarAsignarAux_excepcion (ordenar : Ordenador) (asig : AsignacionPendiente)
    (n : Nat) (st : Estado) (hn : ¬ horasNecesarias asig st ≤ 0)
    (hs : seleccionarMejorSlot ordenar (getAllSlots asig.grupo.turno) st.horario asig.grupo
      = none) :
    intentarAsignarAux ordenar asig (n + 1) st = ⟨Salida.excepcion, st, []⟩ := by
  rw [intentarAsignarAux, if_neg hn]
  simp only [hs]

/-- Any recursion bound of at least the hours still needed gives the same
run. -/
theorem intentarAsignarAux_combustible (ordenar : Ordenador) (asig : AsignacionPendiente)
    (n : Nat) (st : Estado) (hn : horasNecesarias asig st ≤ n) (m : Nat) (hm : n ≤ m) :
    intentarAsignarAux ordenar asig m st = intentarAsignarAux ordenar asig n st := by
  induction n generalizing st m with
  | zero =>
    have h0 : horasNecesarias asig st ≤ 0 := by simpa using hn
    rw [intentarAsignarAux_listo _ _ _ _ h0, intentarAsignarAux_listo _ _ _ _ h0]
  | succ n ih =>
    by_cases h0 : horasNecesarias asig st ≤ 0
    · rw [intentarAsignarAux_listo _ _ _ _ h0, intentarAsignarAux_listo _ _ _ _ h0]
    · obtain ⟨m2, rfl⟩ : ∃ m2, m = m2 + 1 := ⟨m - 1, by omega⟩
      cases hsel : seleccionarMejorSlot ordenar (getAllSlots asig.grupo.turno) st.horario
          asig.grupo with
      | none =>
        rw [intentarAsignarAux_excepcion _ _ _ _ h0 hsel,
          intentarAsignarAux_excepcion _ _ _ _ h0 hsel]
      | some l =>
        rw [intentarAsignarAux_succ _ _ _ _ l h0 hsel, intentarAsignarAux_succ _ _ _ _ l h0 hsel]
        refine bucleSlots_mismo_rec ordenar _ _ asig (horasNecesarias asig st) (by omega) ?_ l
          ?_ st rfl
        · intro st2 h2 _
          have hle : horasNecesarias asig st2 ≤ n := by
            push_cast at hn
            omega
          exact ⟨intentarAsignarAux_buena ordenar asig n st2 hle,
            ih st2 hle m2 (by omega)⟩
        · intro s hs
          exact ⟨st.horario, l, hsel, hs⟩

/-! ## More hours than slots -/

/-- Every entry of the state the run ends in sits at a catalog slot of the
shift of the group its name resolves to. -/
theorem entradas_catalogo_final (ordenar : Ordenador) (hord : OrdenadorValido ordenar)
    (grupos : List Grupo) (materias : List Materia) (profesores : List Profesor) :
    ∀ gn d k v, valorEn (correr ordenar grupos materias profesores).estado.horario gn d k
        = some v →
      ∃ g, buscarGrupo grupos gn = some g ∧
        ∃ s ∈ getAllSlots g.turno, s.dia = d ∧ s.getKey = k := by
  refine (entradas_invariante ordenar grupos materias profesores
    (fun gn d k _ => ∃ g, buscarGrupo grupos gn = some g ∧
      ∃ s ∈ getAllSlots g.turno, s.dia = d ∧ s.getKey = k) ?_).2
  intro asig hasig paso hl hop
  obtain ⟨_, hg, _, _, _⟩ := pendiente_datos hasig
  obtain ⟨e1, _, _, hmatch⟩ := hl
  rw [hop] at hmatch
  obtain ⟨_, _, h, l, hsel, hmem⟩ := hmatch
  rw [e1]
  exact ⟨asig.grupo, hg, paso.slot, (seleccionar_mem hord hsel _).mp hmem, rfl, rfl⟩

/-- The entries of one group name are at most 35 in the state the run ends
in. -/
theorem entradas_grupo_acotadas (ordenar : Ordenador) (hord : OrdenadorValido ordenar)
    (grupos : List Grupo) (materias : List Materia) (profesores : List Profesor)
    (gn : String) :
    (entradas (correr ordenar grupos materias profesores).estado.horario).countP
      (fun e => decide (e.grupo = gn)) ≤ 35 := by
  rw [List.countP_eq_length_filter]
  have hc := (cuentas_alcanzados ordenar grupos materias profesores).2.2
  have hcat := entradas_catalogo_final ordenar hord grupos materias profesores
  generalize (correr ordenar grupos materias profesores).estado = fin at hc hcat
  have hnd : ((entradas fin.horario).filter (fun e => decide (e.grupo = gn))).Nodup :=
    (nodup_entradas fin.horario hc.formado).filter _
  have hmem : ∀ e ∈ (entradas fin.horario).filter (fun e => decide (e.grupo = gn)),
      e.grupo = gn ∧ valorEn fin.horario gn e.dia e.clave = some e.valor := by
    intro e he
    obtain ⟨h1, h2⟩ := List.mem_filter.mp he
    have h3 : e.grupo = gn := of_decide_eq_true h2
    refine ⟨h3, ?_⟩
    rw [← h3]
    exact (mem_entradas_iff fin.horario hc.formado e).mp h1
  have hinj : (((entradas fin.horario).filter (fun e => decide (e.grupo = gn))).map
      (fun e => (e.dia, e.clave))).Nodup := by
    apply List.Nodup.map_on _ hnd
    intro x hx y hy hxy
    obtain ⟨gx, vx⟩ := hmem x hx
    obtain ⟨gy, vy⟩ := hmem y hy
    simp only [Prod.mk.injEq] at hxy
    rw [hxy.1, hxy.2, vy] at vx
    cases x
    cases y
    simp only at gx gy hxy vx
    simp only [Option.some.injEq] at vx
    rw [gx, gy, hxy.1, hxy.2, vx]
  cases hb : buscarGrupo grupos gn with
  | none =>
    have hnil : (entradas fin.horario).filter (fun e => decide (e.grupo = gn)) = [] := by
      apply List.eq_nil_iff_forall_not_mem.mpr
      intro e he
      obtain ⟨_, hv⟩ := hmem e he
      obtain ⟨g, hg, _⟩ := hcat _ _ _ _ hv
      rw [hb] at hg
      exact Option.noConfusion hg
    rw [hnil]
    exact Nat.zero_le _
  | some g =>
    have hsub : ((entradas fin.horario).filter (fun e => decide (e.grupo = gn))).map
        (fun e => (e.dia, e.clave)) ⊆ (getAllSlots g.turno).map (fun s => (s.dia, s.getKey)) := by
      intro x hx
      obtain ⟨e, he, rfl⟩ := List.mem_map.mp hx
      obtain ⟨_, hv⟩ := hmem e he
      obtain ⟨g2, hg2, s, hs, hd, hk⟩ := hcat _ _ _ _ hv
      rw [hb] at hg2
      have : g2 = g := (Option.some.inj hg2).symm
      subst this
      exact List.mem_map.mpr ⟨s, hs, by rw [hd, hk]⟩
    have hlen := (List.subperm_of_subset hinj hsub).length_le
    rw [List.length_map, List.length_map, getAllSlots_length] at hlen
    exact hlen

theorem indicador_ausente (e : Entrada) (gn : String) (L : List Materia)
    (h : e.valor.materia ∉ L.map (fun m => m.nombre)) :
    (L.map (fun m =>
      if decide (e.grupo = gn ∧ e.valor.materia = m.nombre) = true then 1 else 0)).sum
      = 0 := by
  induction L with
  | nil => rfl
  | cons a t ih =>
    rw [List.map_cons, List.mem_cons, not_or] at h
    have hne : ¬ (e.grupo = gn ∧ e.valor.materia = a.nombre) := fun hc => h.1 hc.2
    rw [List.map_cons, List.sum_cons, ih h.2, if_neg (by simpa using hne)]

theorem indicador_unico (e : Entrada) (gn : String) (L : List Materia)
    (hL : (L.map (fun m => m.nombre)).Nodup) :
    (L.map (fun m =>
      if decide (e.grupo = gn ∧ e.valor.materia = m.nombre) = true then 1 else 0)).sum
      ≤ if decide (e.grupo = gn) = true then 1 else 0 := by
  induction L with
  | nil => simp
  | cons a t ih =>
    rw [List.map_cons, List.nodup_cons] at hL
    rw [List.map_cons, List.sum_cons]
    by_cases hc : e.grupo = gn ∧ e.valor.materia = a.nombre
    · have hno : e.valor.materia ∉ t.map (fun m => m.nombre) := hc.2 ▸ hL.1
      rw [indicador_ausente e gn t hno, if_pos (by simpa using hc),
        if_pos (by simpa using hc.1)]
    · rw [if_neg (by simpa using hc), Nat.zero_add]
      exact ih hL.2

/-- With pairwise different names, the counts of the entries of one group by
subject add up to at most the number of entries of the group. -/
theorem suma_por_materia (E : List Entrada) (gn : String) (L : List Materia)
    (hL : (L.map (fun m => m.nombre)).Nodup) :
    (L.map (fun m => E.countP (fun e => decide (e.grupo = gn ∧ e.valor.materia = m.nombre)))).sum
      ≤ E.countP (fun e => decide (e.grupo = gn)) := by
  induction E with
  | nil => simp
  | cons e es ih =>
    have hsum : (L.map (fun m => (e :: es).countP
          (fun e => decide (e.grupo = gn ∧ e.valor.materia = m.nombre)))).sum
        = (L.map (fun m => es.countP
            (fun e => decide (e.grupo = gn ∧ e.valor.materia = m.nombre)))).sum
          + (L.map (fun m =>
              if decide (e.grupo = gn ∧ e.valor.materia = m.nombre) = true then 1
              else 0)).sum := by
      rw [← List.sum_map_add]
      congr 1
      apply List.map_congr_left
      intro q _
      rw [List.countP_cons]
    have h1 := indicador_unico e gn L hL
    rw [hsum, List.countP_cons]
    omega

theorem suma_mayorada {β : Type} (Q : List β) (f : β → Nat) (g : β → Int)
    (h : ∀ q ∈ Q, g q ≤ (f q : Int)) : (Q.map g).sum ≤ (((Q.map f).sum : Nat) : Int) := by
  induction Q with
  | nil => simp
  | cons q Q ih =>
    have h1 := h q (List.mem_cons_self _ _)
    have h2 := ih (fun x hx => h x (List.mem_cons_of_mem _ hx))
    simp only [List.map_cons, List.sum_cons, Nat.cast_add]
    omega

/-- A group whose subjects need more than 35 hours keeps the run from
succeeding. -/
theorem nunca_exito_por_casillas (ordenar : Ordenador) (hord : OrdenadorValido ordenar)
    (grupos : List Grupo) (materias : List Materia) (profesores : List Profesor)
    (hnom : (materias.map (fun m => m.nombre)).Nodup) (gn : String)
    (hsum : 35 < ((materias.filter (fun m => decide (gn ∈ m.grupos_que_cursan))).map
      (fun m => m.horas_semana)).sum) :
    (correr ordenar grupos materias profesores).salida ≠ Salida.exito := by
  intro hex
  have hcomp := esSolucionCompleta_horas materias _
    (backtrackRecursivo_exito ordenar materias _ _ hex)
  have hc := (cuentas_alcanzados ordenar grupos materias profesores).2.2
  have h35 := entradas_grupo_acotadas ordenar hord grupos materias profesores gn
  have hcomp2 : ∀ m ∈ materias, ∀ g ∈ m.grupos_que_cursan, m.horas_semana ≤
      horasMateria (correr ordenar grupos materias profesores).estado.horas_asignadas_materia
        g m.nombre := hcomp
  generalize (correr ordenar grupos materias profesores).estado = fin at hc h35 hcomp2
  have hnd : ((materias.filter (fun m => decide (gn ∈ m.grupos_que_cursan))).map
      (fun m => m.nombre)).Nodup :=
    List.Nodup.sublist (List.Sublist.map _ (List.filter_sublist _)) hnom
  have h1 := suma_por_materia (entradas fin.horario) gn _ hnd
  have h2 := suma_mayorada (materias.filter (fun m => decide (gn ∈ m.grupos_que_cursan)))
    (fun m => (entradas fin.horario).countP
      (fun e => decide (e.grupo = gn ∧ e.valor.materia = m.nombre)))
    (fun m => m.horas_semana) (by
      intro m hm
      obtain ⟨hm1, hm2⟩ := List.mem_filter.mp hm
      have := hcomp2 m hm1 gn (of_decide_eq_true hm2)
      rw [hc.materia] at this
      exact this)
  have h3 := le_trans h1 h35
  have h4 : ((((materias.filter (fun m => decide (gn ∈ m.grupos_que_cursan))).map
      (fun m => (entradas fin.horario).countP
        (fun e => decide (e.grupo = gn ∧ e.valor.materia = m.nombre)))).sum : Nat) : Int)
      ≤ 35 := by
    exact_mod_cast h3
  omega

/-! ## Reading the stored text back -/

/-- C10, as stated, fails: for a professor whose Monday ranges are
`("xx", "yy")` followed by `("07:00", "14:00")`, the six conditions hold for the
slot Monday 07:00-08:00 (the second range covers it), yet the validator returns
no verdict, because `std::stoi` throws on the first range. -/
theorem validar_seis_condiciones_contraejemplo :
    ¬ ((∃ razon, validarRestriccionesDuras estadoVacio.horario ejGrupoA ejMateriaUna
          ejProfesorIlegible ejSlotLunes7 estadoVacio.profesor_ocupado
          estadoVacio.horas_asignadas_profesor = some (true, razon)) ↔
        SeisCondiciones estadoVacio.horario ejGrupoA ejProfesorIlegible ejSlotLunes7
          estadoVacio.profesor_ocupado estadoVacio.horas_asignadas_profesor) := by
  intro h
  have hseis : SeisCondiciones estadoVacio.horario ejGrupoA ejProfesorIlegible ejSlotLunes7
      estadoVacio.profesor_ocupado estadoVacio.horas_asignadas_profesor :=
    ⟨by decide, by decide, by decide, by decide, by decide,
      Or.inr ⟨[("xx", "yy"), ("07:00", "14:00")], by decide, ("07:00", "14:00"), by decide,
        7, 14, 7, 8, by decide, by decide, by decide, by decide, by decide, by decide⟩⟩
  obtain ⟨razon, hr⟩ := h.mpr hseis
  have hnone : validarRestriccionesDuras estadoVacio.horario ejGrupoA ejMateriaUna
      ejProfesorIlegible ejSlotLunes7 estadoVacio.profesor_ocupado
      estadoVacio.horas_asignadas_profesor = none := by decide
  rw [hnone] at hr
  exact Option.noConfusion hr

/-- C10 (amended): when every hour text the availability check may read starts
with digits, `validarRestriccionesDuras` returns `ok = true` if and only if the
six conditions hold together: slot shift equal to the group shift, no entry of
the group at the slot, professor not marked busy there, hour count (0 when
absent) below `horas_disponibles`, preferred shift `"Ambos"` or the slot shift,
and an empty availability map or a range of the slot's day that covers the
slot by leading two-digit hours. -/
theorem validar_seis_condiciones (horario : Horario) (g : Grupo) (m : Materia) (p : Profesor)
    (s : Slot) (po : Ocupacion) (hp : Mapa Int) (hl : HorasLegibles p s) :
    (∃ razon, validarRestriccionesDuras horario g m p s po hp = some (true, razon)) ↔
      SeisCondiciones horario g p s po hp := by
  constructor
  · rintro ⟨razon, h⟩
    obtain ⟨h1, h2, h3, h4, h5, h6⟩ := validar_ok h
    exact ⟨h1, h2, h3, h4, h5, (estaDisponible_legible p s hl).mp h6⟩
  · rintro ⟨h1, h2, h3, h4, h5, h6⟩
    have h6b := (estaDisponible_legible p s hl).mpr h6
    refine ⟨"Valido", ?_⟩
    unfold validarRestriccionesDuras
    have h5b : ¬ (p.turno_preferido ≠ "Ambos" ∧ p.turno_preferido ≠ s.turno) := by
      rintro ⟨ha, hb⟩
      rcases h5 with h | h
      · exact ha h
      · exact hb h
    simp only [h1, ne_eq, not_true_eq_false, if_false, h2, List.isEmpty_nil, Bool.not_true,
      Bool.false_eq_true, h3, ge_iff_le, not_le.mpr h4, h6b]
    rw [if_neg]
    simpa [h1] using h5b

/-- The amended C10 at a concrete input: professor available on Monday
07:00-14:00, slot Monday 07:00-08:00, empty state. -/
theorem validar_seis_condiciones_testigo :
    HorasLegibles ejProfesorLunes ejSlotLunes7 ∧
    ((∃ razon, validarRestriccionesDuras estadoVacio.horario ejGrupoA ejMateriaUna
          ejProfesorLunes ejSlotLunes7 estadoVacio.profesor_ocupado
          estadoVacio.horas_asignadas_profesor = some (true, razon)) ↔
        SeisCondiciones estadoVacio.horario ejGrupoA ejProfesorLunes ejSlotLunes7
          estadoVacio.profesor_ocupado estadoVacio.horas_asignadas_profesor) := by
  have hl : HorasLegibles ejProfesorLunes ejSlotLunes7 := by
    refine ⟨by decide, by decide, ?_⟩
    intro rangos hr r hmem
    have e : rangos = [("07:00", "14:00")] := by
      have h2 : Mapa.buscar ejProfesorLunes.disponibilidad_horaria ejSlotLunes7.dia
          = some [("07:00", "14:00")] := by decide
      rw [h2] at hr
      exact (Option.some.inj hr).symm
    subst e
    simp only [List.mem_singleton] at hmem
    subst hmem
    exact ⟨by decide, by decide⟩
  exact ⟨hl, validar_seis_condiciones _ _ _ _ _ _ _ hl⟩

/-- C8: for a sorting routine that rearranges its input, in every state
`resolver` goes through every placed entry sits under the name of a group of
the instance, at a day and slot key of the catalog `getAllSlots` of that
group's shift; so a `"Matutino"` group holds only keys of the morning table and
a `"Vespertino"` group only keys of the evening table, and the two tables share
no key. -/
theorem turno_respetado (ordenar : Ordenador) (hord : OrdenadorValido ordenar)
    (grupos : List Grupo) (materias : List Materia) (profesores : List Profesor) :
    ∀ st ∈ estadosAlcanzados ordenar grupos materias profesores,
      ∀ gn d k v, valorEn st.horario gn d k = some v →
        ∃ g, buscarGrupo grupos gn = some g ∧ g ∈ grupos ∧ g.nombre = gn ∧
          (∃ s ∈ getAllSlots g.turno, s.dia = d ∧ s.getKey = k) ∧
          (g.turno = "Matutino" → k ∈ clavesDe SLOTS_MATUTINO ∧ k ∉ clavesDe SLOTS_VESPERTINO) ∧
          (g.turno = "Vespertino" →
            k ∈ clavesDe SLOTS_VESPERTINO ∧ k ∉ clavesDe SLOTS_MATUTINO) := by
  have hdisj : ∀ k, k ∈ clavesDe SLOTS_MATUTINO → k ∉ clavesDe SLOTS_VESPERTINO := by
    decide
  refine (entradas_invariante ordenar grupos materias profesores
    (fun gn d k _ => ∃ g, buscarGrupo grupos gn = some g ∧ g ∈ grupos ∧ g.nombre = gn ∧
      (∃ s ∈ getAllSlots g.turno, s.dia = d ∧ s.getKey = k) ∧
      (g.turno = "Matutino" → k ∈ clavesDe SLOTS_MATUTINO ∧ k ∉ clavesDe SLOTS_VESPERTINO) ∧
      (g.turno = "Vespertino" →
        k ∈ clavesDe SLOTS_VESPERTINO ∧ k ∉ clavesDe SLOTS_MATUTINO)) ?_).1
  intro asig hasig paso hl hop
  obtain ⟨_, hg, _, _, _⟩ := pendiente_datos hasig
  obtain ⟨e1, _, _, hmatch⟩ := hl
  rw [hop] at hmatch
  obtain ⟨_, _, h, l, hsel, hmem⟩ := hmatch
  have hcat : paso.slot ∈ getAllSlots asig.grupo.turno := (seleccionar_mem hord hsel _).mp hmem
  have hk := getAllSlots_clave _ _ hcat
  rw [e1]
  refine ⟨asig.grupo, hg, List.mem_of_find?_eq_some hg, rfl, ⟨paso.slot, hcat, rfl, rfl⟩, ?_, ?_⟩
  · intro ht
    rw [if_pos ht] at hk
    exact ⟨hk, hdisj _ hk⟩
  · intro ht
    have hne : ¬ asig.grupo.turno = "Matutino" := by
      rw [ht]
      decide
    rw [if_neg hne] at hk
    exact ⟨hk, fun h2 => hdisj _ h2 hk⟩

/-- The statement of C8 at the state scenario S5 ends in, insertion sort in
the role of `std::sort`. -/
theorem turno_respetado_testigo :
    OrdenadorValido ordenarInsercion ∧
    ejEstadoFinalS5 ∈ estadosAlcanzados ordenarInsercion [ejGrupoA, ejGrupoB]
      [ejMateriaCompartida] [ejProfesorDosHoras] ∧
    valorEn ejEstadoFinalS5.horario "B" "Lunes" "08:00-09:00" = some ⟨"Algebra", "Ana"⟩ ∧
    ∃ g, buscarGrupo [ejGrupoA, ejGrupoB] "B" = some g ∧ g ∈ [ejGrupoA, ejGrupoB] ∧
      g.nombre = "B" ∧
      (∃ s ∈ getAllSlots g.turno, s.dia = "Lunes" ∧ s.getKey = "08:00-09:00") ∧
      (g.turno = "Matutino" →
        "08:00-09:00" ∈ clavesDe SLOTS_MATUTINO ∧ "08:00-09:00" ∉ clavesDe SLOTS_VESPERTINO) ∧
      (g.turno = "Vespertino" →
        "08:00-09:00" ∈ clavesDe SLOTS_VESPERTINO ∧ "08:00-09:00" ∉ clavesDe SLOTS_MATUTINO) :=
  ⟨ordenarInsercion_valido, by decide!, by decide!,
    turno_respetado ordenarInsercion ordenarInsercion_valido [ejGrupoA, ejGrupoB]
      [ejMateriaCompartida] [ejProfesorDosHoras] ejEstadoFinalS5 (by decide!)
      "B" "Lunes" "08:00-09:00" ⟨"Algebra", "Ana"⟩ (by decide!)⟩

/-- C5, as stated, fails: for an instance whose only professor has
`horas_disponibles = -1`, the state `inicializarEstado` builds holds the counter
0 for that professor, which exceeds the maximum. -/
theorem presupuesto_respetado_contraejemplo :
    ¬ (∀ st ∈ estadosAlcanzados ordenarInsercion [] [] [ejProfesorNegativo],
        ∀ p ∈ [ejProfesorNegativo],
          Mapa.obtener st.horas_asignadas_profesor p.nombre 0 ≤ p.horas_disponibles) := by
  intro h
  have h2 := h (inicializarEstado [] [ejProfesorNegativo]) (by decide!)
    ejProfesorNegativo (List.mem_singleton.mpr rfl)
  revert h2
  decide

/-- C5 (amended): when the professor names are pairwise different and no
`horas_disponibles` is negative, in every state `resolver` goes through (the
initial one, and the one after each `hacerAsignacion` and
`deshacerAsignacion`) every professor's hour counter is at most the
professor's `horas_disponibles`. -/
theorem presupuesto_respetado (ordenar : Ordenador) (grupos : List Grupo)
    (materias : List Materia) (profesores : List Profesor)
    (hnom : (profesores.map (fun p => p.nombre)).Nodup)
    (hpos : ∀ p ∈ profesores, 0 ≤ p.horas_disponibles) :
    ∀ st ∈ estadosAlcanzados ordenar grupos materias profesores,
      ∀ p ∈ profesores,
        Mapa.obtener st.horas_asignadas_profesor p.nombre 0 ≤ p.horas_disponibles :=
  presupuesto_alcanzados ordenar grupos materias profesores hnom hpos

/-- The amended C5 at the state scenario S5 ends in: the professor has used
her two hours. -/
theorem presupuesto_respetado_testigo :
    ([ejProfesorDosHoras].map (fun p => p.nombre)).Nodup ∧
    (∀ p ∈ [ejProfesorDosHoras], 0 ≤ p.horas_disponibles) ∧
    ejEstadoFinalS5 ∈ estadosAlcanzados ordenarInsercion [ejGrupoA, ejGrupoB]
      [ejMateriaCompartida] [ejProfesorDosHoras] ∧
    ejProfesorDosHoras ∈ [ejProfesorDosHoras] ∧
    Mapa.obtener ejEstadoFinalS5.horas_asignadas_profesor ejProfesorDosHoras.nombre 0
      ≤ ejProfesorDosHoras.horas_disponibles :=
  ⟨by decide, by decide, by decide!, by decide,
    presupuesto_respetado ordenarInsercion [ejGrupoA, ejGrupoB] [ejMateriaCompartida]
      [ejProfesorDosHoras] (by decide) (by decide) ejEstadoFinalS5 (by decide!)
      ejProfesorDosHoras (by decide)⟩

/-- C4, as stated, fails: with two one-hour subjects for one group, the
second without a qualified professor, `resolver` returns `exito = false` and a
schedule that still holds the hour placed for the first subject. -/
theorem horario_vacio_en_fallo_contraejemplo :
    ¬ (∀ r, resolver ordenarInsercion [ejGrupoA] ejMateriasSinProfesor [ejProfesorAlgebra]
          = some r → r.exito = false → ∀ g d k, valorEn r.horario g d k = none) := by
  intro h
  have h1 := h ejResultadoSinProfesor (by decide!) rfl "A" "Lunes" "07:00-08:00"
  revert h1
  decide

/-- C4 (amended): whenever `resolver` returns `exito = false`, either
`intentarAsignar` failed on one pending unit and the returned schedule holds,
cell by cell, what the calls on the units before it left (every placement tried
for the failing unit has been undone), or every unit was placed and the
completion check failed, and the schedule holds all their entries. When
`intentarAsignar` fails on the first pending unit, the returned schedule holds
no entry. -/
theorem horario_en_fallo (ordenar : Ordenador) (grupos : List Grupo)
    (materias : List Materia) (profesores : List Profesor) (r : ResultadoBacktracking)
    (hr : resolver ordenar grupos materias profesores = some r) (hf : r.exito = false) :
    ((∃ pre a post,
        construirAsignacionesPendientes grupos materias profesores = pre ++ a :: post ∧
        TodasColocadas ordenar pre (inicializarEstado materias profesores) ∧
        (intentarAsignar ordenar a
          (colocarUnidades ordenar pre (inicializarEstado materias profesores))).salida
            = Salida.fallo ∧
        ∀ g d k, celda r.horario g d k
          = celda (colocarUnidades ordenar pre
              (inicializarEstado materias profesores)).horario g d k) ∨
      (TodasColocadas ordenar (construirAsignacionesPendientes grupos materias profesores)
          (inicializarEstado materias profesores) ∧
        r.horario = (colocarUnidades ordenar
          (construirAsignacionesPendientes grupos materias profesores)
          (inicializarEstado materias profesores)).horario ∧
        esSolucionCompleta materias (colocarUnidades ordenar
          (construirAsignacionesPendientes grupos materias profesores)
          (inicializarEstado materias profesores)) = false)) ∧
    (∀ a post, construirAsignacionesPendientes grupos materias profesores = a :: post →
      (intentarAsignar ordenar a (inicializarEstado materias profesores)).salida = Salida.fallo →
      ∀ g d k, celda r.horario g d k = [] ∧ valorEn r.horario g d k = none) := by
  obtain ⟨hh, hsal⟩ := resolver_eq_some ordenar grupos materias profesores r hr
  have hfallo : (correr ordenar grupos materias profesores).salida = Salida.fallo := by
    rcases hsal with ⟨h, _⟩ | ⟨_, h⟩
    · rw [hf] at h
      exact Bool.noConfusion h
    · exact h
  constructor
  · rcases backtrackRecursivo_fallo ordenar materias _ _ hfallo with
      ⟨pre, a, post, e, ht, hfa, hm⟩ | ⟨ht, he, hc⟩
    · left
      refine ⟨pre, a, post, e, ht, hfa, ?_⟩
      intro g d k
      rw [hh]
      exact hm.hCelda g d k
    · right
      refine ⟨ht, ?_, hc⟩
      rw [hh]
      exact congrArg Estado.horario he
  · intro a post e hfa g d k
    have hb := intentarAsignar_buena ordenar a (inicializarEstado materias profesores)
    have hest : (correr ordenar grupos materias profesores).estado
        = (intentarAsignar ordenar a (inicializarEstado materias profesores)).estado := by
      simp only [correr, e]
      rw [backtrackRecursivo]
      simp only [hfa]
    have hc : celda r.horario g d k = [] := by
      rw [hh, hest, (hb.atomica hfa).hCelda]
      rfl
    exact ⟨hc, by simp [valorEn, hc, Mapa.buscar]⟩

/-- The amended C4 at the scenario of its counterexample: the returned
schedule is the one the first unit left. -/
theorem horario_en_fallo_testigo :
    resolver ordenarInsercion [ejGrupoA] ejMateriasSinProfesor [ejProfesorAlgebra]
      = some ejResultadoSinProfesor ∧
    ejResultadoSinProfesor.exito = false ∧
    ((∃ pre a post,
        construirAsignacionesPendientes [ejGrupoA] ejMateriasSinProfesor [ejProfesorAlgebra]
          = pre ++ a :: post ∧
        TodasColocadas ordenarInsercion pre
          (inicializarEstado ejMateriasSinProfesor [ejProfesorAlgebra]) ∧
        (intentarAsignar ordenarInsercion a
          (colocarUnidades ordenarInsercion pre
            (inicializarEstado ejMateriasSinProfesor [ejProfesorAlgebra]))).salida
            = Salida.fallo ∧
        ∀ g d k, celda ejResultadoSinProfesor.horario g d k
          = celda (colocarUnidades ordenarInsercion pre
              (inicializarEstado ejMateriasSinProfesor [ejProfesorAlgebra])).horario g d k) ∨
      (TodasColocadas ordenarInsercion
          (construirAsignacionesPendientes [ejGrupoA] ejMateriasSinProfesor [ejProfesorAlgebra])
          (inicializarEstado ejMateriasSinProfesor [ejProfesorAlgebra]) ∧
        ejResultadoSinProfesor.horario = (colocarUnidades ordenarInsercion
          (construirAsignacionesPendientes [ejGrupoA] ejMateriasSinProfesor [ejProfesorAlgebra])
          (inicializarEstado ejMateriasSinProfesor [ejProfesorAlgebra])).horario ∧
        esSolucionCompleta ejMateriasSinProfesor (colocarUnidades ordenarInsercion
          (construirAsignacionesPendientes [ejGrupoA] ejMateriasSinProfesor [ejProfesorAlgebra])
          (inicializarEstado ejMateriasSinProfesor [ejProfesorAlgebra])) = false)) ∧
    (∀ a post,
      construirAsignacionesPendientes [ejGrupoA] ejMateriasSinProfesor [ejProfesorAlgebra]
        = a :: post →
      (intentarAsignar ordenarInsercion a
        (inicializarEstado ejMateriasSinProfesor [ejProfesorAlgebra])).salida = Salida.fallo →
      ∀ g d k, celda ejResultadoSinProfesor.horario g d k = [] ∧
        valorEn ejResultadoSinProfesor.horario g d k = none) :=
  ⟨by decide!, rfl,
    horario_en_fallo ordenarInsercion [ejGrupoA] ejMateriasSinProfesor [ejProfesorAlgebra]
      ejResultadoSinProfesor (by decide!) rfl⟩

/-- C3, as stated, fails: with two one-hour subjects for one group, `Ana`
qualified for both with one hour and `Luis` qualified for the first with one
hour, a complete schedule exists (`Luis` takes the first subject, `Ana` the
second), yet `resolver` gives the first subject to `Ana`, never revises it, and
returns `exito = false`. -/
theorem busqueda_exhaustiva_contraejemplo :
    ¬ ((∃ planes, PlanesFactibles (inicializarEstado ejMateriasSinProfesor ejProfesoresDosMaterias)
          (construirAsignacionesPendientes [ejGrupoA] ejMateriasSinProfesor
            ejProfesoresDosMaterias) planes) →
        ∃ r, resolver ordenarInsercion [ejGrupoA] ejMateriasSinProfesor ejProfesoresDosMaterias
          = some r ∧ r.exito = true) := by
  intro h
  have hpend : construirAsignacionesPendientes [ejGrupoA] ejMateriasSinProfesor
      ejProfesoresDosMaterias = ejPendientes := by decide!
  have hplanes : PlanesFactibles (inicializarEstado ejMateriasSinProfesor ejProfesoresDosMaterias)
      (construirAsignacionesPendientes [ejGrupoA] ejMateriasSinProfesor
        ejProfesoresDosMaterias) ejPlanes := by
    rw [hpend]
    exact ⟨by decide!, by decide!, by decide!, by decide!, trivial⟩
  obtain ⟨r, hr, hex⟩ := h ⟨ejPlanes, hplanes⟩
  have hres : resolver ordenarInsercion [ejGrupoA] ejMateriasSinProfesor ejProfesoresDosMaterias
      = some ejResultadoSinProfesor := by decide!
  rw [hres] at hr
  rw [← Option.some.inj hr] at hex
  exact Bool.noConfusion hex

/-- C3 (amended): for a sorting routine that rearranges its input, the search
is exhaustive within one pending unit: whenever some assignment of the hours
the unit is missing, to catalog slots of the group's shift and qualified
professors, satisfies the hard constraints on top of the current state,
`intentarAsignar` does not return `false`. So `resolver` returns
`exito = false` only if some pending unit has no such assignment on top of what
the calls on the units before it left (those placements are never revised), or
every unit was placed and the completion check fails. -/
theorem busqueda_exhaustiva_por_unidad (ordenar : Ordenador) (hord : OrdenadorValido ordenar) :
    (∀ (asig : AsignacionPendiente) (st : Estado),
      (∃ plan, PlanFactible asig st plan ∧ (plan.length : Int) = horasNecesarias asig st) →
      (intentarAsignar ordenar asig st).salida ≠ Salida.fallo) ∧
    (∀ (grupos : List Grupo) (materias : List Materia) (profesores : List Profesor)
      (r : ResultadoBacktracking),
      resolver ordenar grupos materias profesores = some r → r.exito = false →
      (∃ pre a post,
        construirAsignacionesPendientes grupos materias profesores = pre ++ a :: post ∧
        TodasColocadas ordenar pre (inicializarEstado materias profesores) ∧
        ¬ ∃ plan,
          PlanFactible a (colocarUnidades ordenar pre (inicializarEstado materias profesores))
            plan ∧
          (plan.length : Int) = horasNecesarias a
            (colocarUnidades ordenar pre (inicializarEstado materias profesores))) ∨
      (TodasColocadas ordenar (construirAsignacionesPendientes grupos materias profesores)
          (inicializarEstado materias profesores) ∧
        esSolucionCompleta materias (colocarUnidades ordenar
          (construirAsignacionesPendientes grupos materias profesores)
          (inicializarEstado materias profesores)) = false)) := by
  have h1 : ∀ (asig : AsignacionPendiente) (st : Estado),
      (∃ plan, PlanFactible asig st plan ∧ (plan.length : Int) = horasNecesarias asig st) →
      (intentarAsignar ordenar asig st).salida ≠ Salida.fallo := by
    rintro asig st ⟨plan, hp, hl⟩
    exact intentarAsignar_completo ordenar hord asig st plan hp hl
  refine ⟨h1, ?_⟩
  intro grupos materias profesores r hr hf
  obtain ⟨_, hsal⟩ := resolver_eq_some ordenar grupos materias profesores r hr
  have hfallo : (correr ordenar grupos materias profesores).salida = Salida.fallo := by
    rcases hsal with ⟨h, _⟩ | ⟨_, h⟩
    · rw [hf] at h
      exact Bool.noConfusion h
    · exact h
  rcases backtrackRecursivo_fallo ordenar materias _ _ hfallo with
    ⟨pre, a, post, e, ht, hfa, _⟩ | ⟨ht, _, hc⟩
  · left
    exact ⟨pre, a, post, e, ht, fun hex => h1 a _ hex hfa⟩
  · right
    exact ⟨ht, hc⟩

/-- The amended C3 with insertion sort in the role of `std::sort`. -/
theorem busqueda_exhaustiva_por_unidad_testigo :
    OrdenadorValido ordenarInsercion ∧
    ((∀ (asig : AsignacionPendiente) (st : Estado),
      (∃ plan, PlanFactible asig st plan ∧ (plan.length : Int) = horasNecesarias asig st) →
      (intentarAsignar ordenarInsercion asig st).salida ≠ Salida.fallo) ∧
    (∀ (grupos : List Grupo) (materias : List Materia) (profesores : List Profesor)
      (r : ResultadoBacktracking),
      resolver ordenarInsercion grupos materias profesores = some r → r.exito = false →
      (∃ pre a post,
        construirAsignacionesPendientes grupos materias profesores = pre ++ a :: post ∧
        TodasColocadas ordenarInsercion pre (inicializarEstado materias profesores) ∧
        ¬ ∃ plan,
          PlanFactible a
            (colocarUnidades ordenarInsercion pre (inicializarEstado materias profesores))
            plan ∧
          (plan.length : Int) = horasNecesarias a
            (colocarUnidades ordenarInsercion pre (inicializarEstado materias profesores))) ∨
      (TodasColocadas ordenarInsercion
          (construirAsignacionesPendientes grupos materias profesores)
          (inicializarEstado materias profesores) ∧
        esSolucionCompleta materias (colocarUnidades ordenarInsercion
          (construirAsignacionesPendientes grupos materias profesores)
          (inicializarEstado materias profesores)) = false))) :=
  ⟨ordenarInsercion_valido, busqueda_exhaustiva_por_unidad ordenarInsercion
    ordenarInsercion_valido⟩

/-- C18: for `"Matutino"` and for `"Vespertino"`, `getAllSlots` returns, day
by day in the order Lunes, Martes, Miercoles, Jueves, Viernes, the seven
one-hour ranges of the shift in increasing start hour (07 to 13, and 14 to 20),
each tagged with the shift; for every input text the result has 35 slots, each
tagged with that text, at pairwise different `(day, slot key)`. -/
theorem catalogo_de_slots :
    (∀ i j : Nat, i < 5 → j < 7 →
      ∃ s, (getAllSlots "Matutino")[7 * i + j]? = some s ∧
        s.dia = ["Lunes", "Martes", "Miercoles", "Jueves", "Viernes"].getD i "" ∧
        s.getKey = ["07:00-08:00", "08:00-09:00", "09:00-10:00", "10:00-11:00",
          "11:00-12:00", "12:00-13:00", "13:00-14:00"].getD j "" ∧
        horaDe s.hora_inicio = some ((7 + j : Nat) : Int) ∧
        horaDe s.hora_fin = some ((8 + j : Nat) : Int) ∧
        s.turno = "Matutino") ∧
    (∀ i j : Nat, i < 5 → j < 7 →
      ∃ s, (getAllSlots "Vespertino")[7 * i + j]? = some s ∧
        s.dia = ["Lunes", "Martes", "Miercoles", "Jueves", "Viernes"].getD i "" ∧
        s.getKey = ["14:00-15:00", "15:00-16:00", "16:00-17:00", "17:00-18:00",
          "18:00-19:00", "19:00-20:00", "20:00-21:00"].getD j "" ∧
        horaDe s.hora_inicio = some ((14 + j : Nat) : Int) ∧
        horaDe s.hora_fin = some ((15 + j : Nat) : Int) ∧
        s.turno = "Vespertino") ∧
    (∀ t : String, (getAllSlots t).length = 35) ∧
    (∀ t : String, ∀ s ∈ getAllSlots t, s.turno = t) ∧
    (∀ t : String, ((getAllSlots t).map (fun s => (s.dia, s.getKey))).Nodup) := by
  refine ⟨?_, ?_, ?_, getAllSlots_turno, ?_⟩
  · intro i j hi hj
    have h : ∀ i < 5, ∀ j < 7, ((getAllSlots "Matutino")[7 * i + j]?).isSome = true ∧
        ((getAllSlots "Matutino")[7 * i + j]?).all (fun s =>
          decide (s.dia = ["Lunes", "Martes", "Miercoles", "Jueves", "Viernes"].getD i "" ∧
            s.getKey = ["07:00-08:00", "08:00-09:00", "09:00-10:00", "10:00-11:00",
              "11:00-12:00", "12:00-13:00", "13:00-14:00"].getD j "" ∧
            horaDe s.hora_inicio = some ((7 + j : Nat) : Int) ∧
            horaDe s.hora_fin = some ((8 + j : Nat) : Int) ∧
            s.turno = "Matutino")) = true := by decide!
    obtain ⟨h1, h2⟩ := h i hi j hj
    obtain ⟨s, hs⟩ := Option.isSome_iff_exists.mp h1
    rw [hs] at h2
    exact ⟨s, hs, by simpa using h2⟩
  · intro i j hi hj
    have h : ∀ i < 5, ∀ j < 7, ((getAllSlots "Vespertino")[7 * i + j]?).isSome = true ∧
        ((getAllSlots "Vespertino")[7 * i + j]?).all (fun s =>
          decide (s.dia = ["Lunes", "Martes", "Miercoles", "Jueves", "Viernes"].getD i "" ∧
            s.getKey = ["14:00-15:00", "15:00-16:00", "16:00-17:00", "17:00-18:00",
              "18:00-19:00", "19:00-20:00", "20:00-21:00"].getD j "" ∧
            horaDe s.hora_inicio = some ((14 + j : Nat) : Int) ∧
            horaDe s.hora_fin = some ((15 + j : Nat) : Int) ∧
            s.turno = "Vespertino")) = true := by decide!
    obtain ⟨h1, h2⟩ := h i hi j hj
    obtain ⟨s, hs⟩ := Option.isSome_iff_exists.mp h1
    rw [hs] at h2
    exact ⟨s, hs, by simpa using h2⟩
  · intro t
    unfold getAllSlots
    by_cases ht : t = "Matutino"
    · simp [ht, DIAS_SEMANA, SLOTS_MATUTINO]
    · simp [ht, DIAS_SEMANA, SLOTS_VESPERTINO]
  · intro t
    have hm : (getAllSlots t).map (fun s => (s.dia, s.getKey))
        = (getAllSlots (if t = "Matutino" then "Matutino" else "Vespertino")).map
            (fun s => (s.dia, s.getKey)) := by
      unfold getAllSlots
      by_cases ht : t = "Matutino"
      · simp [ht, DIAS_SEMANA, SLOTS_MATUTINO, Slot.getKey]
      · simp [ht, DIAS_SEMANA, SLOTS_VESPERTINO, Slot.getKey]
    rw [hm]
    by_cases ht : t = "Matutino"
    · rw [if_pos ht]
      decide!
    · rw [if_neg ht]
      decide!

/-- C19: after the joining loop of `leerJSON`, the subjects are those of the
input, in order, and each one's `grupos_que_cursan` is the list, in input
order, of the names of the groups whose `cuatrimestre` equals the subject's.
The pending list built from them has one entry per subject and group of equal
term, in that order, carrying the subject and the group the name resolves to;
with group names pairwise different, that group is the listed one. -/
theorem union_materias_grupos (grupos : List Grupo) (materias : List (String × Int × Int))
    (profesores : List Profesor) :
    (leerMaterias grupos materias).map (fun m => (m.nombre, m.cuatrimestre, m.horas_semana))
      = materias ∧
    (∀ m ∈ leerMaterias grupos materias,
      m.grupos_que_cursan
        = (grupos.filter (fun g => decide (g.cuatrimestre = m.cuatrimestre))).map
            (fun g => g.nombre)) ∧
    (construirAsignacionesPendientes grupos (leerMaterias grupos materias) profesores).map
        (fun a => (a.grupo.nombre, a.materia))
      = (leerMaterias grupos materias).flatMap (fun m =>
          (grupos.filter (fun g => decide (g.cuatrimestre = m.cuatrimestre))).map
            (fun g => (g.nombre, m))) ∧
    ((grupos.map (fun g => g.nombre)).Nodup →
      (construirAsignacionesPendientes grupos (leerMaterias grupos materias) profesores).map
          (fun a => (a.grupo, a.materia))
        = (leerMaterias grupos materias).flatMap (fun m =>
            (grupos.filter (fun g => decide (g.cuatrimestre = m.cuatrimestre))).map
              (fun g => (g, m)))) := by
  have hgqc : ∀ m ∈ leerMaterias grupos materias,
      m.grupos_que_cursan
        = (grupos.filter (fun g => decide (g.cuatrimestre = m.cuatrimestre))).map
            (fun g => g.nombre) := by
    intro m hm
    simp only [leerMaterias, unirMateriasGrupos, List.mem_map] at hm
    obtain ⟨m0, ⟨x, _, hx⟩, rfl⟩ := hm
    subst hx
    rw [unir_foldl]
    simp [Materia.nueva]
  refine ⟨?_, hgqc, ?_, ?_⟩
  · simp only [leerMaterias, unirMateriasGrupos, List.map_map]
    conv_rhs => rw [← List.map_id materias]
    apply List.map_congr_left
    intro x _
    simp [unir_foldl, Materia.nueva]
  · simp only [construirAsignacionesPendientes, List.map_flatMap]
    apply List.flatMap_congr
    intro m hm
    rw [hgqc m hm]
    generalize hL : grupos.filter (fun g => decide (g.cuatrimestre = m.cuatrimestre)) = L
    have hsub : ∀ g ∈ L, g ∈ grupos := by
      intro g hg
      rw [← hL] at hg
      exact (List.mem_filter.mp hg).1
    clear hL
    induction L with
    | nil => simp
    | cons g gs ih =>
      obtain ⟨g2, h1, h2⟩ := buscarGrupo_de_miembro grupos g (hsub g (List.mem_cons_self _ _))
      have ih2 := ih (fun x hx => hsub x (List.mem_cons_of_mem _ hx))
      simp only [List.map_cons, List.filterMap_cons, h1, Option.map_some'] at ih2 ⊢
      rw [ih2, h2]
  · intro hnom
    simp only [construirAsignacionesPendientes, List.map_flatMap]
    apply List.flatMap_congr
    intro m hm
    rw [hgqc m hm]
    generalize hL : grupos.filter (fun g => decide (g.cuatrimestre = m.cuatrimestre)) = L
    have hsub : ∀ g ∈ L, g ∈ grupos := by
      intro g hg
      rw [← hL] at hg
      exact (List.mem_filter.mp hg).1
    clear hL
    induction L with
    | nil => simp
    | cons g gs ih =>
      have h1 := buscarGrupo_unico grupos hnom g (hsub g (List.mem_cons_self _ _))
      have ih2 := ih (fun x hx => hsub x (List.mem_cons_of_mem _ hx))
      simp only [List.map_cons, List.filterMap_cons, h1, Option.map_some'] at ih2 ⊢
      rw [ih2]

/-- C12 (as stated): in scenario S1 no sorting routine that rearranges its
input and orders it by the compared value makes `resolver` place both hours on
Monday: after the first hour is placed, every slot of that day compares
greater than the early slots of the other days. -/
theorem escenario_s1_contraejemplo :
    ¬ ∃ ordenar, OrdenadorValido ordenar ∧
      ∃ r, resolver ordenar [ejGrupoA] [ejMateriaDosHoras] [ejProfesorDiezHoras] = some r ∧
        r.exito = true ∧ (entradas r.horario).length = 2 ∧
        ∀ e ∈ entradas r.horario, e.dia = "Lunes" := by
  rintro ⟨ordenar, hord, r, hr, _, _, hl⟩
  obtain ⟨s1, _, s2, _, hd, _, _, h, hres, he⟩ := s1_resultado ordenar hord
  rw [hres] at hr
  have hrh : r.horario = h := by rw [← Option.some.inj hr]
  rw [hrh, he] at hl
  have h1 := hl _ (List.mem_cons_self _ _)
  have h2 := hl _ (List.mem_cons_of_mem _ (List.mem_cons_self _ _))
  exact hd (h1.trans h2.symm)

/-- C12 (amended): in scenario S1, for every sorting routine that rearranges
its input and orders it by the compared value, `resolver` returns
`exito = true` and the schedule holds exactly two entries for the group, at
catalog slots of two different days, both starting before 10:00. With an
insertion sort in the role of `std::sort` they are Monday 07:00-08:00 and
Tuesday 07:00-08:00. -/
theorem escenario_s1 (ordenar : Ordenador) (hord : OrdenadorValido ordenar) :
    (∃ s1 ∈ getAllSlots "Matutino", ∃ s2 ∈ getAllSlots "Matutino",
      s1.dia ≠ s2.dia ∧
      (∃ a, horaDe s1.hora_inicio = some a ∧ a < 10) ∧
      (∃ a, horaDe s2.hora_inicio = some a ∧ a < 10) ∧
      ∃ h, resolver ordenar [ejGrupoA] [ejMateriaDosHoras] [ejProfesorDiezHoras]
          = some ⟨true, h⟩ ∧
        entradas h = [⟨"A", s1.dia, s1.getKey, ⟨"Algebra", "Ana"⟩⟩,
          ⟨"A", s2.dia, s2.getKey, ⟨"Algebra", "Ana"⟩⟩]) ∧
    resolver ordenarInsercion [ejGrupoA] [ejMateriaDosHoras] [ejProfesorDiezHoras] =
      some ⟨true,
        [("A",
          [("Lunes", [("07:00-08:00", [(":valor", ⟨"Algebra", "Ana"⟩)])]),
           ("Martes", [("07:00-08:00", [(":valor", ⟨"Algebra", "Ana"⟩)])])])]⟩ :=
  ⟨s1_resultado ordenar hord, by decide!⟩

/-- C12 (amended) with an insertion sort in the role of `std::sort`. -/
theorem escenario_s1_testigo :
    OrdenadorValido ordenarInsercion ∧
    ((∃ s1 ∈ getAllSlots "Matutino", ∃ s2 ∈ getAllSlots "Matutino",
      s1.dia ≠ s2.dia ∧
      (∃ a, horaDe s1.hora_inicio = some a ∧ a < 10) ∧
      (∃ a, horaDe s2.hora_inicio = some a ∧ a < 10) ∧
      ∃ h, resolver ordenarInsercion [ejGrupoA] [ejMateriaDosHoras] [ejProfesorDiezHoras]
          = some ⟨true, h⟩ ∧
        entradas h = [⟨"A", s1.dia, s1.getKey, ⟨"Algebra", "Ana"⟩⟩,
          ⟨"A", s2.dia, s2.getKey, ⟨"Algebra", "Ana"⟩⟩]) ∧
    resolver ordenarInsercion [ejGrupoA] [ejMateriaDosHoras] [ejProfesorDiezHoras] =
      some ⟨true,
        [("A",
          [("Lunes", [("07:00-08:00", [(":valor", ⟨"Algebra", "Ana"⟩)])]),
           ("Martes", [("07:00-08:00", [(":valor", ⟨"Algebra", "Ana"⟩)])])])]⟩) :=
  ⟨ordenarInsercion_valido, escenario_s1 ordenarInsercion ordenarInsercion_valido⟩

/-- C13 (as stated): group, subject and professor names are pairwise different,
the only pending unit needs 1 hour, the professors qualified for it have
5 + (-10) = -5 hours, and `resolver` returns `exito = true`: it places the hour
with the professor who has 5. -/
theorem inviable_por_horas_contraejemplo :
    ([ejProfesorAlgebra, ejProfesorDeuda].map (fun p => p.nombre)).Nodup ∧
    (∃ asig ∈ construirAsignacionesPendientes [ejGrupoA] [ejMateriaUna]
        [ejProfesorAlgebra, ejProfesorDeuda],
      (asig.profesores_disponibles.map (fun p => p.horas_disponibles)).sum
        < asig.materia.horas_semana) ∧
    resolver ordenarInsercion [ejGrupoA] [ejMateriaUna] [ejProfesorAlgebra, ejProfesorDeuda] =
      some ⟨true, [("A", [("Lunes", [("07:00-08:00", [(":valor", ⟨"Algebra", "Ana"⟩)])])])]⟩ := by
  refine ⟨by decide, ⟨⟨ejGrupoA, ejMateriaUna, 1, [ejProfesorAlgebra, ejProfesorDeuda]⟩,
    by decide, by decide⟩, by decide!⟩

/-- C13 (amended): for a sorting routine that rearranges its input, professor
names pairwise different, no negative `horas_disponibles` and availability
texts that all parse, whenever some pending unit's `horas_semana` exceeds the
sum of `horas_disponibles` of the professors qualified for its subject,
`resolver` returns a result with `exito = false`. -/
theorem inviable_por_horas (ordenar : Ordenador) (hord : OrdenadorValido ordenar)
    (grupos : List Grupo) (materias : List Materia) (profesores : List Profesor)
    (hnom : (profesores.map (fun p => p.nombre)).Nodup)
    (hpos : ∀ p ∈ profesores, 0 ≤ p.horas_disponibles)
    (hleg : ∀ p ∈ profesores, DisponibilidadLegible p)
    (asig : AsignacionPendiente)
    (hasig : asig ∈ construirAsignacionesPendientes grupos materias profesores)
    (hcorto : (asig.profesores_disponibles.map (fun p => p.horas_disponibles)).sum
      < asig.materia.horas_semana) :
    ∃ h, resolver ordenar grupos materias profesores = some ⟨false, h⟩ := by
  have hne := nunca_exito_por_horas ordenar grupos materias profesores hnom hpos asig hasig
    hcorto
  rcases resolver_devuelve hord grupos materias profesores hleg with h | h
  · exact absurd h hne
  · refine ⟨(correr ordenar grupos materias profesores).estado.horario, ?_⟩
    unfold resolver
    simp only [h]

/-- C13 (amended) at scenario S2: four hours needed, three available. -/
theorem inviable_por_horas_testigo :
    OrdenadorValido ordenarInsercion ∧
    ([ejProfesorTresHoras].map (fun p => p.nombre)).Nodup ∧
    (∀ p ∈ [ejProfesorTresHoras], 0 ≤ p.horas_disponibles) ∧
    (∀ p ∈ [ejProfesorTresHoras], DisponibilidadLegible p) ∧
    ejUnidadS2 ∈ construirAsignacionesPendientes [ejGrupoA] [ejMateriaCuatroHoras]
      [ejProfesorTresHoras] ∧
    (ejUnidadS2.profesores_disponibles.map (fun p => p.horas_disponibles)).sum
      < ejUnidadS2.materia.horas_semana ∧
    ∃ h, resolver ordenarInsercion [ejGrupoA] [ejMateriaCuatroHoras] [ejProfesorTresHoras]
      = some ⟨false, h⟩ :=
  ⟨ordenarInsercion_valido, by decide, by decide, by decide, by decide, by decide,
    inviable_por_horas ordenarInsercion ordenarInsercion_valido [ejGrupoA]
      [ejMateriaCuatroHoras] [ejProfesorTresHoras] (by decide) (by decide) (by decide)
      ejUnidadS2 (by decide) (by decide)⟩

/-- C14 (as stated): the evening group `T` needs one hour of a subject whose
only qualified professor prefers `"Matutino"`, and `resolver` does not return
`exito = false`: it ends in the exception `std::stoi` throws on the
professor's availability text while the morning group is being placed. -/
theorem inviable_por_turno_contraejemplo :
    (∃ asig ∈ construirAsignacionesPendientes [ejGrupoA, ejGrupoTarde] [ejMateriaDosTurnos]
        [ejProfesorIlegible],
      0 < asig.materia.horas_semana ∧
      ∀ p ∈ asig.profesores_disponibles,
        p.turno_preferido ≠ "Ambos" ∧ p.turno_preferido ≠ asig.grupo.turno) ∧
    resolver ordenarInsercion [ejGrupoA, ejGrupoTarde] [ejMateriaDosTurnos]
      [ejProfesorIlegible] = none := by
  refine ⟨⟨⟨ejGrupoTarde, ejMateriaDosTurnos, 1, [ejProfesorIlegible]⟩,
    by decide, by decide, by decide⟩, by decide!⟩

/-- C14 (amended): whenever some pending unit with positive `horas_semana` has
no qualified professor whose `turno_preferido` is `"Ambos"` or the shift of
the group, `resolver` never returns `exito = true`; for a sorting routine that
rearranges its input and availability texts that all parse it returns a result
with `exito = false`. -/
theorem inviable_por_turno (ordenar : Ordenador)
    (grupos : List Grupo) (materias : List Materia) (profesores : List Profesor)
    (asig : AsignacionPendiente)
    (hasig : asig ∈ construirAsignacionesPendientes grupos materias profesores)
    (hpos : 0 < asig.materia.horas_semana)
    (hturno : ∀ p ∈ asig.profesores_disponibles,
      p.turno_preferido ≠ "Ambos" ∧ p.turno_preferido ≠ asig.grupo.turno) :
    (∀ r, resolver ordenar grupos materias profesores = some r → r.exito = false) ∧
    (OrdenadorValido ordenar → (∀ p ∈ profesores, DisponibilidadLegible p) →
      ∃ h, resolver ordenar grupos materias profesores = some ⟨false, h⟩) := by
  have hne := nunca_exito_por_turno ordenar grupos materias profesores asig hasig hpos hturno
  constructor
  · intro r hr
    rcases (resolver_eq_some ordenar grupos materias profesores r hr).2 with h | h
    · exact absurd h.2 hne
    · exact h.1
  · intro hord hleg
    rcases resolver_devuelve hord grupos materias profesores hleg with h | h
    · exact absurd h hne
    · refine ⟨(correr ordenar grupos materias profesores).estado.horario, ?_⟩
      unfold resolver
      simp only [h]

/-- C14 (amended) at scenario S3: an evening group whose only qualified
professor prefers the morning; `resolver` returns `exito = false` and an empty
schedule. -/
theorem inviable_por_turno_testigo :
    ejUnidadS3 ∈ construirAsignacionesPendientes [ejGrupoTarde] [ejMateriaTarde]
      [ejProfesorAlgebra] ∧
    0 < ejUnidadS3.materia.horas_semana ∧
    (∀ p ∈ ejUnidadS3.profesores_disponibles,
      p.turno_preferido ≠ "Ambos" ∧ p.turno_preferido ≠ ejUnidadS3.grupo.turno) ∧
    ((∀ r, resolver ordenarInsercion [ejGrupoTarde] [ejMateriaTarde] [ejProfesorAlgebra]
        = some r → r.exito = false) ∧
      (OrdenadorValido ordenarInsercion → (∀ p ∈ [ejProfesorAlgebra], DisponibilidadLegible p) →
        ∃ h, resolver ordenarInsercion [ejGrupoTarde] [ejMateriaTarde] [ejProfesorAlgebra]
          = some ⟨false, h⟩)) ∧
    resolver ordenarInsercion [ejGrupoTarde] [ejMateriaTarde] [ejProfesorAlgebra]
      = some ⟨false, []⟩ :=
  ⟨by decide, by decide, by decide,
    inviable_por_turno ordenarInsercion [ejGrupoTarde] [ejMateriaTarde] [ejProfesorAlgebra]
      ejUnidadS3 (by decide) (by decide) (by decide), by decide!⟩

/-- C15: after any sequence of calls of `agregarNodo`, `agregarArista` and
`construirDesdeDatos` on a fresh graph, in particular after one call of
`construirDesdeDatos`, `b` is in `obtenerVecinos(a)` if and only if `a` is in
`obtenerVecinos(b)`, for all nodes `a` and `b`. -/
theorem vecinos_simetricos :
    (∀ (llamadas : List Llamada) (a b : NodoAsignacion),
      b ∈ (ejecutar llamadas).obtenerVecinos a ↔ a ∈ (ejecutar llamadas).obtenerVecinos b) ∧
    (∀ (grupos : List Grupo) (materias : List Materia) (profesores : List Profesor)
      (a b : NodoAsignacion),
      b ∈ (GrafoConflictos.nuevo.construirDesdeDatos grupos materias profesores).obtenerVecinos a
        ↔ a ∈ (GrafoConflictos.nuevo.construirDesdeDatos grupos materias
            profesores).obtenerVecinos b) :=
  ⟨fun llamadas a b => ⟨simetrico_ejecutar llamadas a b, simetrico_ejecutar llamadas b a⟩,
    fun grupos materias profesores a b =>
      ⟨simetrico_ejecutar [Llamada.construirDesdeDatos grupos materias profesores] a b,
        simetrico_ejecutar [Llamada.construirDesdeDatos grupos materias profesores] b a⟩⟩

/-- C16 (amended): with professor names pairwise different, after `construirDesdeDatos`
on a fresh graph the nodes are exactly the triples (group name, subject name,
term) with the group name in the subject's `grupos_que_cursan`, each once, and
for two different nodes `a` and `b`, `b` is in `obtenerVecinos(a)` if and only
if they have the same group name or some professor lists both subjects in
`materias_imparte`; neighbours are always different nodes of the graph.
Without the assumption on names the second alternative reads: two professors of
one name list the two subjects. -/
theorem grafo_construido (grupos : List Grupo) (materias : List Materia)
    (profesores : List Profesor) (hnom : (profesores.map (fun p => p.nombre)).Nodup) :
    (∀ n, n ∈ (GrafoConflictos.nuevo.construirDesdeDatos grupos materias profesores).nodos ↔
      ∃ m ∈ materias, ∃ gn ∈ m.grupos_que_cursan, n = ⟨gn, m.nombre, m.cuatrimestre⟩) ∧
    (GrafoConflictos.nuevo.construirDesdeDatos grupos materias profesores).nodos.Nodup ∧
    (∀ a ∈ (GrafoConflictos.nuevo.construirDesdeDatos grupos materias profesores).nodos,
      ∀ b ∈ (GrafoConflictos.nuevo.construirDesdeDatos grupos materias profesores).nodos,
        a ≠ b →
        (b ∈ (GrafoConflictos.nuevo.construirDesdeDatos grupos materias
              profesores).obtenerVecinos a ↔
          a.grupo_nombre = b.grupo_nombre ∨
            ∃ p ∈ profesores, a.materia_nombre ∈ p.materias_imparte ∧
              b.materia_nombre ∈ p.materias_imparte)) ∧
    (∀ a b,
      b ∈ (GrafoConflictos.nuevo.construirDesdeDatos grupos materias
            profesores).obtenerVecinos a →
        a ∈ (GrafoConflictos.nuevo.construirDesdeDatos grupos materias profesores).nodos ∧
        b ∈ (GrafoConflictos.nuevo.construirDesdeDatos grupos materias profesores).nodos ∧
        a ≠ b) ∧
    (∀ a b,
      b ∈ (GrafoConflictos.nuevo.construirDesdeDatos grupos materias
            profesores).obtenerVecinos a ↔
        (a ∈ (GrafoConflictos.nuevo.construirDesdeDatos grupos materias profesores).nodos ∧
          b ∈ (GrafoConflictos.nuevo.construirDesdeDatos grupos materias profesores).nodos ∧
          a ≠ b ∧
          (a.grupo_nombre = b.grupo_nombre ∨
            ∃ p ∈ profesores, ∃ q ∈ profesores, p.nombre = q.nombre ∧
              a.materia_nombre ∈ p.materias_imparte ∧
              b.materia_nombre ∈ q.materias_imparte))) := by
  obtain ⟨hc, hn, _, hv⟩ := construir_resumen grupos materias profesores
  have hgen : ∀ a b,
      b ∈ (GrafoConflictos.nuevo.construirDesdeDatos grupos materias
            profesores).obtenerVecinos a ↔
        (a ∈ (GrafoConflictos.nuevo.construirDesdeDatos grupos materias profesores).nodos ∧
          b ∈ (GrafoConflictos.nuevo.construirDesdeDatos grupos materias profesores).nodos ∧
          a ≠ b ∧
          (a.grupo_nombre = b.grupo_nombre ∨
            ∃ p ∈ profesores, ∃ q ∈ profesores, p.nombre = q.nombre ∧
              a.materia_nombre ∈ p.materias_imparte ∧
              b.materia_nombre ∈ q.materias_imparte)) := by
    intro a b
    rw [hv, hn, hn, tieneConflicto_iff _ profesores rfl]
  refine ⟨fun n => (hn n).trans (mem_nodosDe materias n), hc.sinRepetir, ?_, hc.vecinosNodos,
    hgen⟩
  intro a ha b hb hne
  rw [hgen]
  constructor
  · rintro ⟨_, _, _, h | ⟨p, hp, q, hq, e, m1, m2⟩⟩
    · exact Or.inl h
    · have epq : p = q := List.inj_on_of_nodup_map hnom hp hq e
      subst epq
      exact Or.inr ⟨p, hp, m1, m2⟩
  · rintro (h | ⟨p, hp, m1, m2⟩)
    · exact ⟨ha, hb, hne, Or.inl h⟩
    · exact ⟨ha, hb, hne, Or.inr ⟨p, hp, p, hp, rfl, m1, m2⟩⟩

/-- C16 (amended) on three subjects and two professors: the graph has four nodes, and
(`B`, Fisica) is a neighbour of (`C`, Quimica) because `Luis` teaches both. -/
theorem grafo_construido_testigo :
    (ejProfesoresGrafo.map (fun p => p.nombre)).Nodup ∧
    (GrafoConflictos.nuevo.construirDesdeDatos [] ejMateriasGrafo ejProfesoresGrafo).nodos
      = [⟨"A", "Algebra", 1⟩, ⟨"B", "Algebra", 1⟩, ⟨"B", "Fisica", 1⟩, ⟨"C", "Quimica", 2⟩] ∧
    (GrafoConflictos.nuevo.construirDesdeDatos [] ejMateriasGrafo
      ejProfesoresGrafo).obtenerVecinos ⟨"C", "Quimica", 2⟩ = [⟨"B", "Fisica", 1⟩] ∧
    (∀ a ∈ (GrafoConflictos.nuevo.construirDesdeDatos [] ejMateriasGrafo
        ejProfesoresGrafo).nodos,
      ∀ b ∈ (GrafoConflictos.nuevo.construirDesdeDatos [] ejMateriasGrafo
          ejProfesoresGrafo).nodos,
        a ≠ b →
        (b ∈ (GrafoConflictos.nuevo.construirDesdeDatos [] ejMateriasGrafo
              ejProfesoresGrafo).obtenerVecinos a ↔
          a.grupo_nombre = b.grupo_nombre ∨
            ∃ p ∈ ejProfesoresGrafo, a.materia_nombre ∈ p.materias_imparte ∧
              b.materia_nombre ∈ p.materias_imparte)) :=
  ⟨by decide, by decide!, by decide!,
    (grafo_construido [] ejMateriasGrafo ejProfesoresGrafo (by decide)).2.2.1⟩

/-- C17: for the graph `construirDesdeDatos` builds from a fresh one,
`getNumAristas` is the number of pairs of nodes `(nodos[i], nodos[j])`, `i < j`,
with the second in `obtenerVecinos` of the first; the nodes are pairwise
different, so these pairs are the unordered pairs of distinct nodes, each
once. No node is its own neighbour and the sizes of the neighbour sets add up
to exactly twice `getNumAristas`. `obtenerGrado(n)` is the size of
`obtenerVecinos(n)`, whose elements are pairwise different. On the example of
three subjects and two professors, `getNumAristas` is 3. -/
theorem aristas_contadas (grupos : List Grupo) (materias : List Materia)
    (profesores : List Profesor) :
    (GrafoConflictos.nuevo.construirDesdeDatos grupos materias profesores).getNumAristas
      = (paresOrdenados
          (GrafoConflictos.nuevo.construirDesdeDatos grupos materias profesores).nodos).countP
        (fun p => decide (p.2 ∈
          (GrafoConflictos.nuevo.construirDesdeDatos grupos materias
            profesores).obtenerVecinos p.1)) ∧
    (GrafoConflictos.nuevo.construirDesdeDatos grupos materias profesores).aristas.foldl
        (fun total pair => total + pair.2.length) 0
      = 2 * (GrafoConflictos.nuevo.construirDesdeDatos grupos materias
          profesores).getNumAristas ∧
    (∀ n, n ∉ (GrafoConflictos.nuevo.construirDesdeDatos grupos materias
      profesores).obtenerVecinos n) ∧
    (∀ n, (GrafoConflictos.nuevo.construirDesdeDatos grupos materias profesores).obtenerGrado n
        = (((GrafoConflictos.nuevo.construirDesdeDatos grupos materias
            profesores).obtenerVecinos n).length : Int) ∧
      ((GrafoConflictos.nuevo.construirDesdeDatos grupos materias
        profesores).obtenerVecinos n).Nodup) ∧
    (GrafoConflictos.nuevo.construirDesdeDatos grupos materias profesores).nodos.Nodup ∧
    (paresOrdenados
      (GrafoConflictos.nuevo.construirDesdeDatos grupos materias profesores).nodos).Nodup ∧
    (∀ a ∈ (GrafoConflictos.nuevo.construirDesdeDatos grupos materias profesores).nodos,
      ∀ b ∈ (GrafoConflictos.nuevo.construirDesdeDatos grupos materias profesores).nodos,
        a ≠ b →
        ((a, b) ∈ paresOrdenados
            (GrafoConflictos.nuevo.construirDesdeDatos grupos materias profesores).nodos ∧
          (b, a) ∉ paresOrdenados
            (GrafoConflictos.nuevo.construirDesdeDatos grupos materias profesores).nodos) ∨
        ((b, a) ∈ paresOrdenados
            (GrafoConflictos.nuevo.construirDesdeDatos grupos materias profesores).nodos ∧
          (a, b) ∉ paresOrdenados
            (GrafoConflictos.nuevo.construirDesdeDatos grupos materias profesores).nodos)) ∧
    (∀ p ∈ paresOrdenados
        (GrafoConflictos.nuevo.construirDesdeDatos grupos materias profesores).nodos,
      p.1 ≠ p.2) ∧
    (GrafoConflictos.nuevo.construirDesdeDatos [] ejMateriasGrafo
      ejProfesoresGrafo).getNumAristas = 3 := by
  have hc := (construir_resumen grupos materias profesores).1
  have hs : Simetrico (GrafoConflictos.nuevo.construirDesdeDatos grupos materias profesores) :=
    simetrico_ejecutar [Llamada.construirDesdeDatos grupos materias profesores]
  have hsum := suma_tamanos _ hc hs
  generalize GrafoConflictos.nuevo.construirDesdeDatos grupos materias profesores = g
    at hc hs hsum
  have hnum : g.getNumAristas = (paresOrdenados g.nodos).countP
      (fun p => decide (p.2 ∈ g.obtenerVecinos p.1)) := by
    unfold GrafoConflictos.getNumAristas
    rw [hsum]
    omega
  refine ⟨hnum, by rw [hsum, hnum], fun n h => (hc.vecinosNodos n n h).2.2 rfl,
    fun n => ⟨rfl, hc.vecinosSinRepetir n⟩, hc.sinRepetir, nodup_pares hc.sinRepetir, ?_, ?_,
    by decide!⟩
  · intro a ha b hb hne
    rcases pares_completos ha hb hne with h | h
    · exact Or.inl ⟨h, (pares_distintos hc.sinRepetir h).2⟩
    · exact Or.inr ⟨h, (pares_distintos hc.sinRepetir h).2⟩
  · intro p hp
    exact (pares_distintos hc.sinRepetir hp).1

/-- C20 (as stated): the result `resolver` returns after committing one hour
on Tuesday and undoing it has `horario = {A: {Martes: {}}}`, and `escribirJSON`
writes the day key `Martes` with an empty object; for a result whose schedule
is `{A: {}}` it writes the group key `A` with an empty object. -/
theorem json_omite_vacios_contraejemplo :
    resolver ordenarInsercion [ejGrupoA] [ejMateriaDosHoras] [ejProfesorUnaFranja]
      = some ⟨false, [("A", [("Martes", [])])]⟩ ∧
    (escribirJSON ⟨false, [("A", [("Martes", [])])]⟩).horario = [("A", [("Martes", [])])] ∧
    (escribirJSON ⟨true, [("A", [])]⟩).horario = [("A", [])] := by
  refine ⟨by decide!, by decide, by decide⟩

/-- C20 (amended): `escribirJSON` omits empty entries at the slot level only.
Every slot key it writes under a day comes from a slot of that group and day
whose innermost map is not empty and holds `":valor"`, and carries exactly the
fields `materia` and `profesor` cut from that value at its first bar. Every
group key of the schedule is written, and (group keys being pairwise
different) under it every day key of that group, whether or not anything is
written below it. For the result of scenario S4 the document holds the two
placed hours. -/
theorem json_omite_slots_vacios (r : ResultadoBacktracking) :
    (escribirJSON r).exito = r.exito ∧
    (∀ e ∈ (escribirJSON r).horario, ∀ e2 ∈ e.2, ∀ e3 ∈ e2.2,
      ∃ dias slots datos valor materia profesor,
        (e.1, dias) ∈ r.horario ∧ (e2.1, slots) ∈ dias ∧ (e3.1, datos) ∈ slots ∧
        datos ≠ [] ∧ Mapa.buscar datos ":valor" = some valor ∧
        partirValor valor.texto = some (materia, profesor) ∧
        e3.2 = [("materia", materia), ("profesor", profesor)]) ∧
    (∀ e ∈ r.horario, (Mapa.buscar (escribirJSON r).horario e.1).isSome = true) ∧
    (Mapa.SinRepetir r.horario → ∀ e ∈ r.horario, ∀ e2 ∈ e.2,
      (Mapa.buscar (Mapa.obtener (escribirJSON r).horario e.1 []) e2.1).isSome = true) ∧
    escribirJSON ejResultadoS4 =
      ⟨true,
        [("A",
          [("Martes",
            [("08:00-09:00", [("materia", "Algebra"), ("profesor", "Ana")]),
             ("09:00-10:00", [("materia", "Algebra"), ("profesor", "Ana")])])])]⟩ := by
  refine ⟨rfl, ?_, ?_, ?_, by decide⟩
  · exact @cadaSlot_escribirJSON (fun g d k obj =>
        ∃ dias slots datos valor materia profesor,
          (g, dias) ∈ r.horario ∧ (d, slots) ∈ dias ∧ (k, datos) ∈ slots ∧
          datos ≠ [] ∧ Mapa.buscar datos ":valor" = some valor ∧
          partirValor valor.texto = some (materia, profesor) ∧
          obj = [("materia", materia), ("profesor", profesor)]) r
      (fun e3 he3 e2 he2 e he hne valor hv materia profesor hp =>
        ⟨e3.2, e2.2, e.2, valor, materia, profesor, he3, he2, he, hne, hv, hp, rfl⟩)
  · exact (claves_escribirJSON r.horario []).2.2.1
  · exact (claves_escribirJSON r.horario []).2.2.2

/-- C21 (as stated): on the state `inicializarEstado` builds the validator
accepts Monday 07:00-08:00, and after `hacerAsignacion` and
`deshacerAsignacion` with the same arguments the schedule is
`{A: {Lunes: {}}}` and the occupancy is `{Ana: {Lunes: {}}}`: the day-level
maps the commit created are left behind empty, and the state is not the
original one. -/
theorem deshacer_revierte_contraejemplo :
    validarRestriccionesDuras ejEstadoUna.horario ejGrupoA ejMateriaUna ejProfesorAlgebra
        ejSlotLunes7 ejEstadoUna.profesor_ocupado ejEstadoUna.horas_asignadas_profesor
      = some (true, "Valido") ∧
    ejEstadoUna.horario = [] ∧
    (deshacerAsignacion
        (hacerAsignacion ejEstadoUna ejGrupoA ejMateriaUna ejProfesorAlgebra ejSlotLunes7)
        ejGrupoA ejMateriaUna ejProfesorAlgebra ejSlotLunes7).horario
      = [("A", [("Lunes", [])])] ∧
    (deshacerAsignacion
        (hacerAsignacion ejEstadoUna ejGrupoA ejMateriaUna ejProfesorAlgebra ejSlotLunes7)
        ejGrupoA ejMateriaUna ejProfesorAlgebra ejSlotLunes7).profesor_ocupado
      = [("Ana", [("Lunes", [])])] ∧
    deshacerAsignacion
        (hacerAsignacion ejEstadoUna ejGrupoA ejMateriaUna ejProfesorAlgebra ejSlotLunes7)
        ejGrupoA ejMateriaUna ejProfesorAlgebra ejSlotLunes7 ≠ ejEstadoUna := by
  refine ⟨by decide, by decide, by decide, by decide, by decide⟩

/-- C21 (amended): when the validator accepts `(grupo, materia, profesor,
slot)` in a state, `hacerAsignacion` followed by `deshacerAsignacion` with the
same arguments gives a state with the content of the original in all four
maps (every cell, every occupancy flag, both counters), and the slot key is
pruned from the day map of the schedule and of the occupancy. The counter maps
are the original ones when they held the two counters. The schedule
(occupancy) is the original one when it already had the day map of that group
(professor) without the slot key; a group, professor or day key the commit
created stays, with an empty map. -/
theorem deshacer_revierte (st : Estado) (g : Grupo) (m : Materia) (p : Profesor) (s : Slot)
    (razon : String)
    (hv : validarRestriccionesDuras st.horario g m p s st.profesor_ocupado
      st.horas_asignadas_profesor = some (true, razon)) :
    MismoContenido (deshacerAsignacion (hacerAsignacion st g m p s) g m p s) st ∧
    Mapa.buscar (Mapa.obtener (Mapa.obtener
      (deshacerAsignacion (hacerAsignacion st g m p s) g m p s).horario g.nombre []) s.dia [])
      s.getKey = none ∧
    Mapa.buscar (Mapa.obtener (Mapa.obtener
      (deshacerAsignacion (hacerAsignacion st g m p s) g m p s).profesor_ocupado p.nombre [])
      s.dia []) s.getKey = none ∧
    ((Mapa.buscar st.horas_asignadas_profesor p.nombre).isSome = true →
      (deshacerAsignacion (hacerAsignacion st g m p s) g m p s).horas_asignadas_profesor
        = st.horas_asignadas_profesor) ∧
    (TieneContador st.horas_asignadas_materia g.nombre m.nombre →
      (deshacerAsignacion (hacerAsignacion st g m p s) g m p s).horas_asignadas_materia
        = st.horas_asignadas_materia) ∧
    (∀ dias slots, Mapa.buscar st.horario g.nombre = some dias →
      Mapa.buscar dias s.dia = some slots → Mapa.buscar slots s.getKey = none →
      (deshacerAsignacion (hacerAsignacion st g m p s) g m p s).horario = st.horario) ∧
    (∀ dias slots, Mapa.buscar st.profesor_ocupado p.nombre = some dias →
      Mapa.buscar dias s.dia = some slots → Mapa.buscar slots s.getKey = none →
      (deshacerAsignacion (hacerAsignacion st g m p s) g m p s).profesor_ocupado
        = st.profesor_ocupado) := by
  have hok := validar_ok hv
  refine ⟨deshacer_tras_hacer hok.2.1 hok.2.2.1 (MismoContenido.refl _), ?_, ?_, ?_, ?_, ?_, ?_⟩
  · rw [horario_tras_deshacer, Mapa.obtener_poner, if_pos rfl, Mapa.obtener_poner, if_pos rfl]
    unfold quitarDeDia
    dsimp only
    split
    · exact Mapa.buscar_borrar_mismo _ _
    · rename_i hne
      rw [modificar_modificar, Mapa.obtener_poner, if_pos rfl] at hne
      have hc : Mapa.obtener (Mapa.obtener (Mapa.obtener st.horario g.nombre []) s.dia [])
          s.getKey [] = [] := hok.2.1
      rw [hc] at hne
      exact absurd (by simp [Mapa.poner, Mapa.borrar]) hne
  · rw [ocupado_tras_deshacer, Mapa.obtener_poner, if_pos rfl, Mapa.obtener_poner, if_pos rfl]
    exact Mapa.buscar_borrar_mismo _ _
  · intro h
    rw [horasProfesor_tras_deshacer]
    exact poner_obtener _ _ _ h
  · rintro ⟨ms, h1, h2⟩
    rw [horasMateria_tras_deshacer, obtener_de_buscar [] h1, poner_obtener ms _ _ h2]
    exact poner_igual _ _ _ h1
  · intro dias slots h1 h2 h3
    rw [horario_tras_deshacer, obtener_de_buscar [] h1, obtener_de_buscar [] h2,
      quitarDeDia_tras_poner slots _ _ h3, poner_igual dias _ _ h2]
    exact poner_igual _ _ _ h1
  · intro dias slots h1 h2 h3
    rw [ocupado_tras_deshacer, obtener_de_buscar [] h1, obtener_de_buscar [] h2,
      borrar_poner_ausente slots _ _ h3, poner_igual dias _ _ h2]
    exact poner_igual _ _ _ h1

/-- C21 (amended) on a state in which the group already has a class on Monday:
undoing a second placement on that day gives back the same schedule and the
same occupancy. -/
theorem deshacer_revierte_testigo :
    validarRestriccionesDuras ejEstadoConClase.horario ejGrupoA ejMateriaUna ejProfesorAlgebra
        ejSlotLunes7 ejEstadoConClase.profesor_ocupado ejEstadoConClase.horas_asignadas_profesor
      = some (true, "Valido") ∧
    MismoContenido
      (deshacerAsignacion
        (hacerAsignacion ejEstadoConClase ejGrupoA ejMateriaUna ejProfesorAlgebra ejSlotLunes7)
        ejGrupoA ejMateriaUna ejProfesorAlgebra ejSlotLunes7) ejEstadoConClase ∧
    (deshacerAsignacion
        (hacerAsignacion ejEstadoConClase ejGrupoA ejMateriaUna ejProfesorAlgebra ejSlotLunes7)
        ejGrupoA ejMateriaUna ejProfesorAlgebra ejSlotLunes7).horario
      = ejEstadoConClase.horario ∧
    (deshacerAsignacion
        (hacerAsignacion ejEstadoConClase ejGrupoA ejMateriaUna ejProfesorAlgebra ejSlotLunes7)
        ejGrupoA ejMateriaUna ejProfesorAlgebra ejSlotLunes7).profesor_ocupado
      = ejEstadoConClase.profesor_ocupado :=
  ⟨by decide,
    (deshacer_revierte ejEstadoConClase ejGrupoA ejMateriaUna ejProfesorAlgebra ejSlotLunes7
      "Valido" (by decide)).1,
    (deshacer_revierte ejEstadoConClase ejGrupoA ejMateriaUna ejProfesorAlgebra ejSlotLunes7
      "Valido" (by decide)).2.2.2.2.2.1
      [("Lunes", [("08:00-09:00", [(":valor", ⟨"Algebra", "Ana"⟩)])])]
      [("08:00-09:00", [(":valor", ⟨"Algebra", "Ana"⟩)])] (by decide) (by decide) (by decide),
    (deshacer_revierte ejEstadoConClase ejGrupoA ejMateriaUna ejProfesorAlgebra ejSlotLunes7
      "Valido" (by decide)).2.2.2.2.2.2
      [("Lunes", [("08:00-09:00", true)])] [("08:00-09:00", true)]
      (by decide) (by decide) (by decide)⟩

/-- C22 (as stated): for a list of two slots, one of them with a start hour
that is not a number, `seleccionarMejorSlot` returns nothing, whatever the
sorting routine: the comparator calls `std::stoi` on the text and that
throws. -/
theorem orden_por_puntaje_contraejemplo :
    ¬ ∃ (ordenar : Ordenador) (l : List Slot),
      seleccionarMejorSlot ordenar [ejSlotIlegible, ejSlotLunes7] [] ejGrupoA = some l := by
  rintro ⟨ordenar, l, h⟩
  unfold seleccionarMejorSlot at h
  rw [if_neg (by decide), if_neg (by decide)] at h
  exact Option.noConfusion h

/-- C22 (amended): for a sorting routine that rearranges its input and orders
it by the compared value, and a slot list whose start hours all parse,
`seleccionarMejorSlot` returns a permutation of the input whose scores are
non-decreasing, the score being twice the number of occupied slot entries of
the group on the slot's day plus the bonus of the start hour (-3 before 10,
+3 after 18, 0 otherwise). A list of at most one slot is returned as it is. -/
theorem orden_por_puntaje (ordenar : Ordenador) (hord : OrdenadorValido ordenar)
    (slots : List Slot) (horario : Horario) (grupo : Grupo)
    (hleg : ∀ s ∈ slots, (horaDe s.hora_inicio).isSome = true) :
    (∃ l, seleccionarMejorSlot ordenar slots horario grupo = some l ∧ l.Perm slots ∧
      l.Pairwise (fun a b => ∃ ha hb, horaDe a.hora_inicio = some ha ∧
        horaDe b.hora_inicio = some hb ∧
        puntajeEspecificado horario grupo a.dia ha
          ≤ puntajeEspecificado horario grupo b.dia hb)) ∧
    (slots.length ≤ 1 → seleccionarMejorSlot ordenar slots horario grupo = some slots) := by
  have hpar : ∀ l : List Slot, l.Perm slots →
      l.Pairwise (fun a b => restriccion horario grupo a ≤ restriccion horario grupo b) →
      l.Pairwise (fun a b => ∃ ha hb, horaDe a.hora_inicio = some ha ∧
        horaDe b.hora_inicio = some hb ∧
        puntajeEspecificado horario grupo a.dia ha
          ≤ puntajeEspecificado horario grupo b.dia hb) := by
    intro l hp hs
    refine List.Pairwise.imp_of_mem ?_ hs
    intro a b ha hb hab
    obtain ⟨x, hx⟩ := Option.isSome_iff_exists.mp (hleg a (hp.subset ha))
    obtain ⟨y, hy⟩ := Option.isSome_iff_exists.mp (hleg b (hp.subset hb))
    refine ⟨x, y, hx, hy, ?_⟩
    rw [← restriccion_especificado horario grupo a x hx,
      ← restriccion_especificado horario grupo b y hy]
    exact hab
  constructor
  · unfold seleccionarMejorSlot
    split
    · rename_i hlen
      refine ⟨slots, rfl, List.Perm.refl _, hpar slots (List.Perm.refl _) ?_⟩
      match slots, hlen with
      | [], _ => exact List.Pairwise.nil
      | [a], _ => exact List.pairwise_singleton _ _
      | a :: b :: t, h => simp at h
    · rw [if_pos (List.all_eq_true.mpr hleg)]
      exact ⟨_, rfl, hord.perm _ _, hpar _ (hord.perm _ _)
        (hord.ordenado (restriccion horario grupo) slots)⟩
  · intro hlen
    unfold seleccionarMejorSlot
    rw [if_pos hlen]

/-- C22 (amended) on the morning catalog and an empty schedule, an insertion
sort in the role of `std::sort`. -/
theorem orden_por_puntaje_testigo :
    OrdenadorValido ordenarInsercion ∧
    (∀ s ∈ getAllSlots "Matutino", (horaDe s.hora_inicio).isSome = true) ∧
    (∃ l, seleccionarMejorSlot ordenarInsercion (getAllSlots "Matutino") [] ejGrupoA = some l ∧
      l.Perm (getAllSlots "Matutino") ∧
      l.Pairwise (fun a b => ∃ ha hb, horaDe a.hora_inicio = some ha ∧
        horaDe b.hora_inicio = some hb ∧
        puntajeEspecificado [] ejGrupoA a.dia ha ≤ puntajeEspecificado [] ejGrupoA b.dia hb)) :=
  ⟨ordenarInsercion_valido, fun s hs => (getAllSlots_legible "Matutino" s hs).1,
    (orden_por_puntaje ordenarInsercion ordenarInsercion_valido (getAllSlots "Matutino") []
      ejGrupoA (fun s hs => (getAllSlots_legible "Matutino" s hs).1)).1⟩

/-- C23 (as stated): a sorting routine that rearranges its input and orders it
by the compared value need not keep ties in input order. With insertion sort
on the reversed list in the role of `std::sort`, the morning catalog on an
empty schedule comes out with Friday 09:00 first, not Monday 07:00, and the
order of the slots of equal score is not that of the input. -/
theorem orden_estable_contraejemplo :
    ∃ ordenar, OrdenadorValido ordenar ∧
      ∃ l, seleccionarMejorSlot ordenar (getAllSlots "Matutino") [] ejGrupoA = some l ∧
        l.head? = some ⟨"Viernes", "09:00", "10:00", "Matutino"⟩ ∧
        ¬ Estable (restriccion [] ejGrupoA) (getAllSlots "Matutino") l := by
  refine ⟨ordenarAlReves, ordenarAlReves_valido,
    ordenarAlReves (comparador [] ejGrupoA) (getAllSlots "Matutino"),
    seleccionar_catalogo _ _ _ _, by decide!, ?_⟩
  intro h
  have h3 := h (-3)
  revert h3
  decide!

/-- C23 (amended): the relative order of slots of equal score is whatever the
sorting routine leaves. For every sorting routine that rearranges its input
and orders it by the compared value, the slots of each score in the output are
the slots of that score in the input, in some order. The order is the input
order when the routine is stable: with an insertion sort in the role of
`std::sort`, slots of equal score keep their input order, and the morning
catalog on an empty schedule starts Monday 07:00, Monday 08:00, Monday 09:00,
Tuesday 07:00. -/
theorem orden_estable (slots : List Slot) (horario : Horario) (grupo : Grupo)
    (hleg : ∀ s ∈ slots, (horaDe s.hora_inicio).isSome = true) :
    (∀ ordenar, OrdenadorValido ordenar →
      ∃ l, seleccionarMejorSlot ordenar slots horario grupo = some l ∧
        ∀ v, (l.filter (fun s => decide (restriccion horario grupo s = v))).Perm
          (slots.filter (fun s => decide (restriccion horario grupo s = v)))) ∧
    (∃ l, seleccionarMejorSlot ordenarInsercion slots horario grupo = some l ∧
      Estable (restriccion horario grupo) slots l) ∧
    (seleccionarMejorSlot ordenarInsercion (getAllSlots "Matutino") [] ejGrupoA).map
        (List.take 4)
      = some [⟨"Lunes", "07:00", "08:00", "Matutino"⟩, ⟨"Lunes", "08:00", "09:00", "Matutino"⟩,
          ⟨"Lunes", "09:00", "10:00", "Matutino"⟩, ⟨"Martes", "07:00", "08:00", "Matutino"⟩] := by
  refine ⟨?_, ?_, by decide!⟩
  · intro ordenar hord
    unfold seleccionarMejorSlot
    split
    · exact ⟨slots, rfl, fun _ => List.Perm.refl _⟩
    · rw [if_pos (List.all_eq_true.mpr hleg)]
      exact ⟨_, rfl, fun _ => (hord.perm _ _).filter _⟩
  · unfold seleccionarMejorSlot
    split
    · exact ⟨slots, rfl, fun _ => rfl⟩
    · rw [if_pos (List.all_eq_true.mpr hleg)]
      exact ⟨_, rfl, ordenarInsercion_estable (restriccion horario grupo) slots⟩

/-- C23 (amended) on the morning catalog after one class was placed on Monday
at 08:00. -/
theorem orden_estable_testigo :
    (∀ s ∈ getAllSlots "Matutino", (horaDe s.hora_inicio).isSome = true) ∧
    (∃ l, seleccionarMejorSlot ordenarInsercion (getAllSlots "Matutino")
        ejEstadoConClase.horario ejGrupoA = some l ∧
      Estable (restriccion ejEstadoConClase.horario ejGrupoA) (getAllSlots "Matutino") l) :=
  ⟨fun s hs => (getAllSlots_legible "Matutino" s hs).1,
    (orden_estable (getAllSlots "Matutino") ejEstadoConClase.horario ejGrupoA
      (fun s hs => (getAllSlots_legible "Matutino" s hs).1)).2.1⟩

/-- C24: the loops of `construirAsignacionesPendientes` build the pending list
in input order: subject by subject and, within a subject, name by name of
`grupos_que_cursan`, one entry for each name some group bears and none for the
other names. Every entry carries the first group of that name, the subject,
`horas_restantes = horas_semana`, and as professors the sublist of the input
list, in input order, of exactly the professors whose `materias_imparte`
contains the subject's name. For the subject taken by `A` and `B` and the
single group `B`, the list has the one entry of `B`. -/
theorem pendientes_en_orden (grupos : List Grupo) (materias : List Materia)
    (profesores : List Profesor) :
    (construirAsignacionesPendientesBucle grupos materias profesores).map
        (fun a => (a.materia, a.grupo.nombre))
      = materias.flatMap (fun m =>
          (m.grupos_que_cursan.filter (fun gn =>
            grupos.any (fun g => decide (g.nombre = gn)))).map (fun gn => (m, gn))) ∧
    (∀ a ∈ construirAsignacionesPendientesBucle grupos materias profesores,
      grupos.find? (fun g => decide (g.nombre = a.grupo.nombre)) = some a.grupo ∧
      a.horas_restantes = a.materia.horas_semana ∧
      a.profesores_disponibles
        = profesores.filter (fun p => decide (a.materia.nombre ∈ p.materias_imparte)) ∧
      a.profesores_disponibles.Sublist profesores ∧
      ∀ p, p ∈ a.profesores_disponibles ↔
        p ∈ profesores ∧ a.materia.nombre ∈ p.materias_imparte) ∧
    construirAsignacionesPendientesBucle grupos materias profesores
      = construirAsignacionesPendientes grupos materias profesores ∧
    construirAsignacionesPendientesBucle [ejGrupoB] [ejMateriaCompartida]
        [ejProfesorS6, ejProfesorMartes]
      = [⟨ejGrupoB, ejMateriaCompartida, 1, [ejProfesorS6, ejProfesorMartes]⟩] := by
  rw [construirAsignacionesPendientesBucle_eq]
  refine ⟨?_, ?_, rfl, by decide⟩
  · unfold construirAsignacionesPendientes
    rw [List.map_flatMap]
    congr 1
    funext m
    exact pendientes_de_materia grupos profesores m m.grupos_que_cursan
  · intro a ha
    obtain ⟨_, hg, _, hh, hp⟩ := pendiente_datos ha
    have hfil : profesores.filter (fun p => p.puedeImpartir a.materia.nombre)
        = profesores.filter (fun p => decide (a.materia.nombre ∈ p.materias_imparte)) := by
      apply List.filter_congr
      intro p _
      simp [Profesor.puedeImpartir]
    rw [hp, hfil]
    refine ⟨hg, hh, rfl, List.filter_sublist _, ?_⟩
    intro p
    simp [List.mem_filter]

/-- C26: whenever `intentarAsignar` returns `false`, the state it leaves has
the content of the state it was called on: the same cell, hence the same
(subject, professor) entry or none, at every (group, day, slot key), the same
busy flag at every (professor, day, slot key), and the same two hour counters.
No assumption on the state is needed. -/
theorem fallo_atomico (ordenar : Ordenador) (asig : AsignacionPendiente) (st : Estado)
    (h : (intentarAsignar ordenar asig st).salida = Salida.fallo) :
    (∀ g d k, celda (intentarAsignar ordenar asig st).estado.horario g d k
      = celda st.horario g d k) ∧
    (∀ g d k, valorEn (intentarAsignar ordenar asig st).estado.horario g d k
      = valorEn st.horario g d k) ∧
    (∀ p d k, ocupadoEn (intentarAsignar ordenar asig st).estado.profesor_ocupado p d k
      = ocupadoEn st.profesor_ocupado p d k) ∧
    (∀ p, Mapa.obtener (intentarAsignar ordenar asig st).estado.horas_asignadas_profesor p 0
      = Mapa.obtener st.horas_asignadas_profesor p 0) ∧
    (∀ g m, horasMateria (intentarAsignar ordenar asig st).estado.horas_asignadas_materia g m
      = horasMateria st.horas_asignadas_materia g m) := by
  have hm := (intentarAsignar_buena ordenar asig st).atomica h
  refine ⟨hm.hCelda, ?_, hm.hOcupado, hm.hProfesor, hm.hMateria⟩
  intro g d k
  unfold valorEn
  rw [hm.hCelda]

/-- C26 on a call that places the first hour on Tuesday 08:00-09:00, finds no
slot for the second, undoes the first and returns `false`: the content is that
of the initial state, although the schedule now holds an empty Tuesday map. -/
theorem fallo_atomico_testigo :
    (intentarAsignar ordenarInsercion ejUnidadUnaFranja ejEstadoUnaFranja).salida
      = Salida.fallo ∧
    (intentarAsignar ordenarInsercion ejUnidadUnaFranja ejEstadoUnaFranja).traza.length = 2 ∧
    (intentarAsignar ordenarInsercion ejUnidadUnaFranja ejEstadoUnaFranja).estado.horario
      = [("A", [("Martes", [])])] ∧
    ((∀ g d k, celda (intentarAsignar ordenarInsercion ejUnidadUnaFranja
          ejEstadoUnaFranja).estado.horario g d k = celda ejEstadoUnaFranja.horario g d k) ∧
      (∀ g d k, valorEn (intentarAsignar ordenarInsercion ejUnidadUnaFranja
          ejEstadoUnaFranja).estado.horario g d k = valorEn ejEstadoUnaFranja.horario g d k) ∧
      (∀ p d k, ocupadoEn (intentarAsignar ordenarInsercion ejUnidadUnaFranja
          ejEstadoUnaFranja).estado.profesor_ocupado p d k
        = ocupadoEn ejEstadoUnaFranja.profesor_ocupado p d k) ∧
      (∀ p, Mapa.obtener (intentarAsignar ordenarInsercion ejUnidadUnaFranja
          ejEstadoUnaFranja).estado.horas_asignadas_profesor p 0
        = Mapa.obtener ejEstadoUnaFranja.horas_asignadas_profesor p 0) ∧
      (∀ g m, horasMateria (intentarAsignar ordenarInsercion ejUnidadUnaFranja
          ejEstadoUnaFranja).estado.horas_asignadas_materia g m
        = horasMateria ejEstadoUnaFranja.horas_asignadas_materia g m)) :=
  ⟨by decide!, by decide!, by decide!,
    fallo_atomico ordenarInsercion ejUnidadUnaFranja ejEstadoUnaFranja (by decide!)⟩

/-- C25: `intentarAsignar` is total: its recursion, bounded in the model by a
number of levels, gives one and the same run for every bound of at least the
hours the unit still needs (`horas_semana` minus the hours placed), and that
run never ends because the bound was reached. Each recursive call follows a
`hacerAsignacion` for the unit, which lowers the hours still needed by exactly
one, and a call with none needed returns at once; so the depth is at most the
hours still needed, at most `horas_semana` when the counter is not negative.
`backtrackRecursivo` recurses on the rest of the pending list and ends, as
does the run of `resolver`. -/
theorem busqueda_termina (ordenar : Ordenador) (asig : AsignacionPendiente) (st : Estado) :
    (∀ n, (horasNecesarias asig st).toNat ≤ n →
      intentarAsignarAux ordenar asig n st = intentarAsignar ordenar asig st) ∧
    (intentarAsignar ordenar asig st).salida ≠ Salida.sinCombustible ∧
    (∀ p s, horasNecesarias asig (hacerAsignacion st asig.grupo asig.materia p s)
      = horasNecesarias asig st - 1) ∧
    (horasNecesarias asig st ≤ 0 → intentarAsignar ordenar asig st = ⟨Salida.exito, st, []⟩) ∧
    (0 ≤ horasMateria st.horas_asignadas_materia asig.grupo.nombre asig.materia.nombre →
      (horasNecesarias asig st).toNat ≤ asig.materia.horas_semana.toNat) ∧
    (∀ materias pendientes,
      (backtrackRecursivo ordenar materias pendientes st).salida ≠ Salida.sinCombustible) ∧
    (∀ grupos materias profesores,
      (correr ordenar grupos materias profesores).salida ≠ Salida.sinCombustible) := by
  refine ⟨?_, (intentarAsignar_buena ordenar asig st).conCombustible,
    fun p s => horasNecesarias_hacer asig st p s, ?_, ?_,
    fun materias pendientes => (backtrackRecursivo_buena ordenar materias pendientes st).2.2,
    fun grupos materias profesores => (correr_legal ordenar grupos materias profesores).2.2⟩
  · intro n hn
    unfold intentarAsignar
    exact intentarAsignarAux_combustible ordenar asig _ st (by omega) n hn
  · intro h
    unfold intentarAsignar
    exact intentarAsignarAux_listo ordenar asig _ st h
  · intro h
    unfold horasNecesarias
    omega

/-- C27 (as stated): group `A` takes one subject of 36 hours, names are
pairwise different and resolve, and `resolver` does not return
`exito = false`: it ends in the exception `std::stoi` throws on the
professor's availability text at the first slot it validates. -/
theorem inviable_por_casillas_contraejemplo :
    ([ejMateria36].map (fun m => m.nombre)).Nodup ∧
    (∀ m ∈ [ejMateria36], ∀ gn ∈ m.grupos_que_cursan, (buscarGrupo [ejGrupoA] gn).isSome) ∧
    35 < (([ejMateria36].filter (fun m => decide ("A" ∈ m.grupos_que_cursan))).map
      (fun m => m.horas_semana)).sum ∧
    resolver ordenarInsercion [ejGrupoA] [ejMateria36] [ejProfesorIlegible] = none := by
  refine ⟨by decide, by decide, by decide, by decide!⟩

/-- C27 (amended): for a sorting routine that rearranges its input and subject
names pairwise different, whenever the `horas_semana` of the subjects taken by
some group name add up to more than 35, `resolver` never returns
`exito = true`; with availability texts that all parse it returns a result
with `exito = false`. -/
theorem inviable_por_casillas (ordenar : Ordenador) (hord : OrdenadorValido ordenar)
    (grupos : List Grupo) (materias : List Materia) (profesores : List Profesor)
    (hnom : (materias.map (fun m => m.nombre)).Nodup) (gn : String)
    (hsum : 35 < ((materias.filter (fun m => decide (gn ∈ m.grupos_que_cursan))).map
      (fun m => m.horas_semana)).sum) :
    (∀ r, resolver ordenar grupos materias profesores = some r → r.exito = false) ∧
    ((∀ p ∈ profesores, DisponibilidadLegible p) →
      ∃ h, resolver ordenar grupos materias profesores = some ⟨false, h⟩) := by
  have hne := nunca_exito_por_casillas ordenar hord grupos materias profesores hnom gn hsum
  constructor
  · intro r hr
    rcases (resolver_eq_some ordenar grupos materias profesores r hr).2 with h | h
    · exact absurd h.2 hne
    · exact h.1
  · intro hleg
    rcases resolver_devuelve hord grupos materias profesores hleg with h | h
    · exact absurd h hne
    · refine ⟨(correr ordenar grupos materias profesores).estado.horario, ?_⟩
      unfold resolver
      simp only [h]

/-- C27 (amended) on one subject of 36 hours and a professor with 40 hours who
is always available. -/
theorem inviable_por_casillas_testigo :
    OrdenadorValido ordenarInsercion ∧
    ([ejMateria36].map (fun m => m.nombre)).Nodup ∧
    35 < (([ejMateria36].filter (fun m => decide ("A" ∈ m.grupos_que_cursan))).map
      (fun m => m.horas_semana)).sum ∧
    (∀ p ∈ [(⟨"Ana", ["Algebra"], 40, "Matutino", []⟩ : Profesor)], DisponibilidadLegible p) ∧
    ((∀ r, resolver ordenarInsercion [ejGrupoA] [ejMateria36]
        [⟨"Ana", ["Algebra"], 40, "Matutino", []⟩] = some r → r.exito = false) ∧
      ((∀ p ∈ [(⟨"Ana", ["Algebra"], 40, "Matutino", []⟩ : Profesor)],
          DisponibilidadLegible p) →
        ∃ h, resolver ordenarInsercion [ejGrupoA] [ejMateria36]
          [⟨"Ana", ["Algebra"], 40, "Matutino", []⟩] = some ⟨false, h⟩)) :=
  ⟨ordenarInsercion_valido, by decide, by decide, by decide,
    inviable_por_casillas ordenarInsercion ordenarInsercion_valido [ejGrupoA] [ejMateria36]
      [⟨"Ana", ["Algebra"], 40, "Matutino", []⟩] (by decide) "A" (by decide)⟩

/-- C28: the statistic `nodos_explorados` is 1 whenever `resolver` returns a
result, for every instance: the tree of the solver is the one its constructor
builds, which holds the root node `nodo_0` and nothing else. Adding a node to
that tree would make the count 2; the search never does. In scenario S4, where
two placements are made, the statistic is 1. -/
theorem nodos_explorados_uno (ordenar : Ordenador) (grupos : List Grupo)
    (materias : List Materia) (profesores : List Profesor) :
    nodosExplorados ordenar grupos materias profesores
      = (resolver ordenar grupos materias profesores).map (fun _ => 1) ∧
    (∀ n, nodosExplorados ordenar grupos materias profesores = some n → n = 1) ∧
    ArbolDecisiones.nuevo.getTotalNodos = 1 ∧
    ArbolDecisiones.nuevo.nodos
      = [("nodo_0",
          ⟨"nodo_0", "raiz", "explorando", 0, [("descripcion", "Estado inicial")], [], ""⟩)] ∧
    (ArbolDecisiones.nuevo.agregarNodo "decision" 1 [] "nodo_0").1.getTotalNodos = 2 ∧
    nodosExplorados ordenarInsercion [ejGrupoA] [ejMateriaDosHoras] [ejProfesorMartes]
      = some 1 := by
  have h1 : ArbolDecisiones.nuevo.getTotalNodos = 1 := by decide!
  refine ⟨?_, ?_, h1, by decide!, by decide!, by decide!⟩
  · unfold nodosExplorados
    rw [h1]
  · intro n hn
    unfold nodosExplorados at hn
    rw [h1] at hn
    cases hr : resolver ordenar grupos materias profesores with
    | none => rw [hr] at hn; exact Option.noConfusion hn
    | some r =>
      rw [hr] at hn
      exact (Option.some.inj hn).symm

/-- C16, as stated, fails: with two professors both named `Ana`, one listing
`Algebra` and the other `Fisica`, `construirDesdeDatos` makes the nodes
(`A`, `Algebra`) and (`B`, `Fisica`) neighbours, though their group names
differ and no professor lists both subjects: `construirMapeoProfesores` stores
professor names, and `compartenProfesor` intersects the sets of names. -/
theorem grafo_construido_contraejemplo :
    (GrafoConflictos.nuevo.construirDesdeDatos [] ejMateriasHomonimos
      ejProfesoresHomonimos).nodos = [⟨"A", "Algebra", 1⟩, ⟨"B", "Fisica", 1⟩] ∧
    (⟨"B", "Fisica", 1⟩ : NodoAsignacion) ∈
      (GrafoConflictos.nuevo.construirDesdeDatos [] ejMateriasHomonimos
        ejProfesoresHomonimos).obtenerVecinos ⟨"A", "Algebra", 1⟩ ∧
    ¬ ("A" = "B" ∨
      ∃ p ∈ ejProfesoresHomonimos, "Algebra" ∈ p.materias_imparte ∧
        "Fisica" ∈ p.materias_imparte) := by
  refine ⟨by decide!, by decide!, by decide⟩

end Horarios
